import Mathlib

/-!
# xlnt cell values: a shallow embedding of `cell.cpp` and `value.cpp`

A `std::string` is a `List Char`.  Functions of the C and C++ standard
libraries that the sources call (`strtod`, `std::stoi`, `std::stod`,
`std::getline`, `std::to_string`) are written out as far as their result is
fixed by the language standards; what the standards leave to the
implementation (rounding of a decimal literal to a `double`, the range check
of `strtod`, floating-point division) is collected in the record `externals`
and every definition that needs it takes the record as an argument.  The
record `environment` adds the conversions of the stored number and the one
member of `worksheet` the cell calls; the record `temporal` holds the
`to_number` members of the date records, which the sources only declare.

Code that throws is a function into `Except exception _`; a mutator that may
throw after it has already written to the cell returns an `outcome`: the cell
as the call leaves it together with the exception, if any.
-/

/-! ## Characters and C strings -/

/-- The characters `std::isdigit` accepts in the classic locale. -/
def isdigit (c : Char) : Bool := 48 ≤ c.toNat && c.toNat ≤ 57

/-- The characters `isspace` accepts in the C locale: space, `\t`, `\n`, `\v`, `\f`, `\r`. -/
def isspace (c : Char) : Bool := c.toNat = 32 || (9 ≤ c.toNat && c.toNat ≤ 13)

/-- Hexadecimal digits, as `isxdigit`. -/
def isxdigit (c : Char) : Bool :=
  isdigit c || (97 ≤ c.toNat && c.toNat ≤ 102) || (65 ≤ c.toNat && c.toNat ≤ 70)

/-- Letters, digits and the underscore: the characters of an `n-char-sequence`. -/
def isnchar (c : Char) : Bool :=
  isdigit c || (97 ≤ c.toNat && c.toNat ≤ 122) || (65 ≤ c.toNat && c.toNat ≤ 90) || c = '_'

/-- ASCII lower-casing, as `tolower` in the C locale. -/
def tolower (c : Char) : Char :=
  if 65 ≤ c.toNat && c.toNat ≤ 90 then Char.ofNat (c.toNat + 32) else c

/-- What `std::string::c_str()` shows to a C function: the characters before the first NUL. -/
def c_str (s : List Char) : List Char := s.takeWhile (fun c => c.toNat ≠ 0)

/-- The exceptions the modelled code throws. -/
inductive exception where
  | invalid_argument
  | out_of_range
  | data_type_exception
  | runtime_error
  deriving DecidableEq, Repr

deriving instance DecidableEq for Except

/-! ## `strtol`, `std::stoi` -/

/-- Value of a run of decimal digits, most significant first, continuing from `acc`. -/
def digits_value (acc : Nat) : List Char → Nat
  | [] => acc
  | c :: cs => digits_value (acc * 10 + (c.toNat - 48)) cs

/-- Splits off an optional sign: whether it is a minus, and what follows it. -/
def strip_sign : List Char → Bool × List Char
  | '-' :: cs => (true, cs)
  | '+' :: cs => (false, cs)
  | cs => (false, cs)

/-- The function `std::stoi(str)`: `strtol` in base 10 on `str.c_str()`; `invalid_argument` when
no digit is found after the white space and sign, `out_of_range` when the number is no `int`. -/
def stoi (str : List Char) : Except exception Int :=
  let body := strip_sign ((c_str str).dropWhile isspace)
  let ds := body.2.takeWhile isdigit
  if ds.isEmpty then .error .invalid_argument
  else
    let n : Int := if body.1 then -(digits_value 0 ds : Int) else (digits_value 0 ds : Int)
    if n < -2147483648 ∨ 2147483647 < n then .error .out_of_range else .ok n

/-! ## `strtod`: the subject sequence -/

/-- Length of the longest initial run of characters satisfying `p`. -/
def span_length (p : Char → Bool) (s : List Char) : Nat := (s.takeWhile p).length

/-- Skips an optional sign: the number of characters skipped (`0` or `1`) and what follows. -/
def skip_sign : List Char → Nat × List Char
  | '-' :: r => (1, r)
  | '+' :: r => (1, r)
  | r => (0, r)

/-- Length of an exponent part at the head of `s`: the letter `e1` or `e2`, an optional sign
and at least one decimal digit; `0` when `s` does not start with one. -/
def exponent_length (e1 e2 : Char) (s : List Char) : Nat :=
  match s with
  | [] => 0
  | c :: cs =>
    if c = e1 ∨ c = e2 then
      let n := span_length isdigit (skip_sign cs).2
      if n = 0 then 0 else 1 + (skip_sign cs).1 + n
    else 0

/-- The number of digits that follow a radix point at the head of `s`; `none` when `s` does not
start with a point. -/
def point_digits (dig : Char → Bool) : List Char → Option Nat
  | '.' :: r => some (span_length dig r)
  | _ => none

/-- Length of the longest head of `s` that is a digit sequence (digits as by `dig`) optionally
containing a radix point, followed by an optional exponent part; `0` when there is no digit. -/
def mantissa_length (dig : Char → Bool) (e1 e2 : Char) (s : List Char) : Nat :=
  let i := span_length dig s
  let m := match point_digits dig (s.drop i) with
    | some k => (i + k, i + 1 + k)
    | none => (i, i)
  if m.1 = 0 then 0 else m.2 + exponent_length e1 e2 (s.drop m.2)

/-- Length of what follows `0x` or `0X` at the head of `s` in a hexadecimal floating constant:
hexadecimal digits optionally containing a radix point, and an optional binary exponent; `0`
when `s` does not start with such a constant. -/
def hex_length : List Char → Nat
  | '0' :: x :: r => if x = 'x' ∨ x = 'X' then mantissa_length isxdigit 'p' 'P' r else 0
  | _ => 0

/-- Whether `s` starts with the letters of `word` (given in lower case), ignoring case. -/
def starts_with_nocase (word : List Char) (s : List Char) : Bool :=
  (s.take word.length).map tolower = word

/-- Length of the number at the head of `s`, after white space and sign:
a decimal floating constant, a hexadecimal one, `inf`/`infinity` or `nan`/`nan(n-chars)`. -/
def number_length (s : List Char) : Nat :=
  if hex_length s ≠ 0 then 2 + hex_length s
  else if starts_with_nocase "infinity".toList s then 8
  else if starts_with_nocase "inf".toList s then 3
  else if starts_with_nocase "nan".toList s then
    match s.drop 3 with
    | '(' :: r =>
      match r.drop (span_length isnchar r) with
      | ')' :: _ => 3 + 1 + span_length isnchar r + 1
      | _ => 3
    | _ => 3
  else mantissa_length isdigit 'e' 'E' s

/-- Number of characters `strtod(s, &p)` consumes, `p - s`: white space, an optional sign and
the longest number that follows; `0` when no conversion can be performed. -/
def strtod_length (s : List Char) : Nat :=
  let ws := span_length isspace s
  let body := skip_sign (s.drop ws)
  let n := number_length body.2
  if n = 0 then 0 else ws + body.1 + n

/-! ## `split_string` -/

/-- Reads parts as repeated `std::getline(ss, part, delim)` does: `cur` holds the characters
of the current part in reverse; a part is pushed at every delimiter, and at the end of input
only when it is not empty. -/
def split_loop (delim : Char) : List Char → List Char → List (List Char)
  | cur, [] => if cur.isEmpty then [] else [cur.reverse]
  | cur, c :: cs => if c = delim then cur.reverse :: split_loop delim [] cs
                    else split_loop delim (c :: cur) cs

/-- The function `split_string(string, delim)` of `cell.cpp`. -/
def split_string (string : List Char) (delim : Char) : List (List Char) :=
  split_loop delim [] string

/-! ## Floating-point values -/

/-- A value of a floating-point variable (`double`, `long double`).  A finite value is kept as
the rational number it is exactly equal to; the negative zero, the infinities and the NaN are
values of their own. -/
inductive flt where
  | finite (q : ℚ)
  | neg_zero
  | inf (negative : Bool)
  | nan
  deriving DecidableEq

/-- The `time` record of `datetime.hpp`. -/
structure time where
  hour : Int
  minute : Int
  second : Int
  microsecond : Int
  deriving DecidableEq, Repr

/-- What the cell code calls and the sources at hand do not fix.  The first four fields are
implementation-defined behaviour of the C library and of floating-point arithmetic; the last
two are the members of `time` that `datetime.hpp` only declares. -/
structure externals where
  /-- The number `strtod` returns for a C string with a non-empty subject sequence. -/
  strtod_value : List Char → flt
  /-- Whether `strtod` sets `errno` to `ERANGE` on this C string. -/
  strtod_erange : List Char → Bool
  /-- The quotient `x / y` of two `double`s. -/
  divide : flt → flt → flt
  /-- How `printf("%Lf")` writes an infinity or a NaN. -/
  print_nonfinite : flt → List Char
  /-- The constructor `time::time(const std::string &)`, which may throw. -/
  time_from_string : List Char → Except exception time
  /-- The member `time::to_number()`. -/
  time_to_number : time → flt

/-- The function `std::stod(str)`: `strtod` on `str.c_str()`; `invalid_argument` when nothing is
converted, `out_of_range` when `strtod` reports `ERANGE`. -/
def stod (P : externals) (str : List Char) : Except exception flt :=
  if strtod_length (c_str str) = 0 then .error .invalid_argument
  else if P.strtod_erange (c_str str) then .error .out_of_range
  else .ok (P.strtod_value (c_str str))

/-- Rounds a non-negative rational to the nearest natural number, ties to even. -/
def round_half_even (x : ℚ) : Nat :=
  let f := ⌊x⌋.toNat
  let r := x - f
  if r < 1 / 2 then f
  else if 1 / 2 < r then f + 1
  else if f % 2 = 0 then f else f + 1

/-- The six digits after the point, with leading zeros. -/
def six_digits (n : Nat) : List Char :=
  let ds := Nat.toDigits 10 n
  List.replicate (6 - ds.length) '0' ++ ds

/-- The function `std::to_string(long double)`, that is `sprintf(buf, "%Lf", value)`: sign,
integral digits, a point and six fractional digits of the correctly rounded value. -/
def std_to_string (P : externals) : flt → List Char
  | .finite q =>
    let scaled := round_half_even (|q| * 1000000)
    (if q < 0 then ['-'] else []) ++ Nat.toDigits 10 (scaled / 1000000) ++ ['.'] ++
      six_digits (scaled % 1000000)
  | .neg_zero => "-0.000000".toList
  | x => P.print_nonfinite x

namespace xlnt

/-- The discriminant `value::type`. -/
inductive value.type where
  | null
  | boolean
  | numeric
  | string
  | error
  deriving DecidableEq, Repr

/-- The data members of `value`. -/
structure value where
  type_ : value.type
  numeric_value_ : flt
  string_value_ : List Char
  deriving DecidableEq

namespace value

/-- The constructor `value::value()`. -/
def null : value := ⟨.null, .finite 0, []⟩

/-- The constructor `value::value(bool b)`. -/
def from_bool (b : Bool) : value := ⟨.boolean, .finite (if b then 1 else 0), []⟩

/-- The constructor `value::value(int i)`; the conversion of an `int` is exact. -/
def from_int (i : Int) : value := ⟨.numeric, .finite i, []⟩

/-- The constructor `value::value(double d)`. -/
def from_double (d : flt) : value := ⟨.numeric, d, []⟩

/-- The constructor `value::value(const std::string &s)` (and, through it, `value(const char *)`).
It does not initialise `numeric_value_`, which no member reads while `type_` is `string`
or `error`; the model puts `0` there. -/
def from_string (s : List Char) : value := ⟨.string, .finite 0, s⟩

/-- The factory `value::error(error_string)`. -/
def error (error_string : List Char) : value :=
  { from_string error_string with type_ := .error }

/-- The member `value::get_type()`. -/
def get_type (v : value) : value.type := v.type_

/-- The member `value::is(t)`. -/
def is (v : value) (t : value.type) : Bool := v.type_ = t

/-- The member `value::to_string()`. -/
def to_string (P : externals) (v : value) : List Char :=
  match v.type_ with
  | .boolean => if v.numeric_value_ ≠ .finite 0 ∧ v.numeric_value_ ≠ .neg_zero then ['1'] else ['0']
  | .numeric => std_to_string P v.numeric_value_
  | .string => v.string_value_
  | .error => v.string_value_
  | .null => []

/-- The specialisation `value::as<std::string>()`. -/
def as_string (P : externals) (v : value) : List Char := to_string P v

end value

/-- The number-format codes the cell code names; `other` stands for the rest of the table. -/
inductive number_format.format where
  | general
  | percentage
  | date_xlsx14
  | other (code : Nat)
  deriving DecidableEq, Repr

/-- The part of `style` the cell code reads and writes: the format code of its number format. -/
structure style where
  format_code : number_format.format
  deriving DecidableEq, Repr

/-- The part of `comment` the cell code reads: its text. -/
structure comment where
  text : List Char
  deriving DecidableEq, Repr

/-- The kinds of `relationship` the cell code creates. -/
inductive relationship.type where
  | invalid
  | hyperlink
  deriving DecidableEq, Repr

/-- A `relationship` record: kind, id and target. -/
structure relationship where
  type_ : relationship.type
  id_ : List Char
  target_uri_ : List Char
  deriving DecidableEq, Repr

namespace detail

/-- The struct `detail::cell_impl`, without the back pointer `parent_`: what a member reads from
the owning worksheet or workbook is passed to it as an argument. -/
structure cell_impl where
  value_ : value
  formula_ : List Char
  hyperlink_ : relationship
  column_ : Nat
  row_ : Nat
  style_ : Option style
  merged : Bool
  is_date_ : Bool
  has_hyperlink_ : Bool
  comment_ : comment
  deriving DecidableEq

end detail

/-- How a mutator that may throw leaves the cell: the cell after the call, and the exception
that left the call, if any. -/
structure outcome where
  cell : detail.cell_impl
  thrown : Option exception
  deriving DecidableEq

end xlnt

/-! ## `cell.cpp` -/

/-- The table `possible_booleans` of `data_type_for_value`. -/
def possible_booleans : List (List Char) :=
  ["TRUE".toList, "true".toList, "FALSE".toList, "false".toList]

/-- The loop of `data_type_for_value` over the parts of a colon-separated text: `std::stoi` is
tried on each part; `invalid_argument` is caught and makes the text a string, any other
exception leaves the function. -/
def classify_parts : List (List Char) → Except exception xlnt.value.type
  | [] => .ok .numeric
  | part :: rest =>
    match stoi part with
    | .ok _ => classify_parts rest
    | .error .invalid_argument => .ok .string
    | .error e => .error e

/-- The function `data_type_for_value(value)` of `cell.cpp`. -/
def data_type_for_value (value : List Char) : Except exception xlnt.value.type :=
  match value with
  | [] => .ok .null
  | c0 :: _ =>
    if c0 = '0' then
      if value.length > 1 then
        if (value.get? 1 = some '.' ∨
              (value.length > 2 ∧ (value.get? 1 = some 'e' ∨ value.get? 1 = some 'E'))) ∧
            (value.drop 2).all isdigit then
          .ok .numeric
        else if (split_string value ':').length = 2 ∨ (split_string value ':').length = 3 then
          classify_parts (split_string value ':')
        else
          .ok .string
      else
        .ok .numeric
    else if c0 = '#' then
      .ok .error
    else if strtod_length (c_str value) ≠ (c_str value).length then
      if value ∈ possible_booleans then
        .ok .boolean
      else if value.getLast? = some '%' ∧
          strtod_length (c_str value.dropLast) = (c_str value.dropLast).length then
        .ok .numeric
      else
        .ok .string
    else
      .ok .numeric

namespace xlnt
namespace cell

open detail

/-- The member `cell::has_comment()`. -/
def has_comment (d : cell_impl) : Bool := d.comment_.text ≠ []

/-- The member `cell::has_formula()`. -/
def has_formula (d : cell_impl) : Bool := !d.formula_.isEmpty

/-- The member `cell::is_merged()`. -/
def is_merged (d : cell_impl) : Bool := d.merged

/-- The member `cell::get_value()`. -/
def get_value (d : cell_impl) : value := d.value_

/-- The member `cell::garbage_collectible()`. -/
def garbage_collectible (d : cell_impl) : Bool :=
  !(decide ((get_value d).get_type ≠ value.type.null) || is_merged d || has_comment d ||
    has_formula d)

/-- The member `cell::get_style()`: the style of the cell, a default one when none is set. -/
def get_style (d : cell_impl) : style :=
  match d.style_ with
  | some s => s
  | none => ⟨.general⟩

/-- The member `cell::is_date()`. -/
def is_date (d : cell_impl) : Bool :=
  d.is_date_ || (d.style_.isSome && (get_style d).format_code = number_format.format.date_xlsx14)

/-- The member `cell::set_value(const value &v)`. -/
def set_value (v : value) (d : cell_impl) : cell_impl := { d with value_ := v }

/-- The member `cell::set_value(bool b)`. -/
def set_value_bool (b : Bool) (d : cell_impl) : cell_impl := { d with value_ := value.from_bool b }

/-- The member `cell::set_value(int i)`. -/
def set_value_int (i : Int) (d : cell_impl) : cell_impl := { d with value_ := value.from_int i }

/-- The member `cell::set_value(double d)`. -/
def set_value_double (x : flt) (d : cell_impl) : cell_impl :=
  { d with value_ := value.from_double x }

/-- The member `cell::set_value(const std::string &s)`; `guess_types` is what
`get_parent().get_parent().get_guess_types()` returns. -/
def set_value_string (P : externals) (guess_types : Bool) (s : List Char) (d : cell_impl) :
    outcome :=
  if !guess_types then
    ⟨{ d with is_date_ := false, value_ := value.from_string s }, none⟩
  else
    let d1 : cell_impl := { d with is_date_ := false }
    match data_type_for_value s with
    | .error e => ⟨d1, some e⟩
    | .ok .numeric =>
      if ':' ∈ s then
        let d2 : cell_impl := { d1 with is_date_ := true }
        match P.time_from_string s with
        | .error e => ⟨d2, some e⟩
        | .ok t => ⟨{ d2 with value_ := value.from_double (P.time_to_number t) }, none⟩
      else if s.getLast? = some '%' then
        match stod P s.dropLast with
        | .error e => ⟨d1, some e⟩
        | .ok x =>
          ⟨{ d1 with value_ := value.from_double (P.divide x (.finite 100)),
                     style_ := some { get_style d1 with format_code := .percentage } }, none⟩
      else
        match stod P s with
        | .error e => ⟨d1, some e⟩
        | .ok x => ⟨{ d1 with value_ := value.from_double x }, none⟩
    | .ok .boolean =>
      ⟨{ d1 with value_ := value.from_bool (s = "TRUE".toList ∨ s = "true".toList) }, none⟩
    | .ok .error => ⟨{ d1 with value_ := value.from_string s }, none⟩
    | .ok .string => ⟨{ d1 with value_ := value.from_string s }, none⟩
    | .ok .null => ⟨{ d1 with value_ := value.null }, none⟩

end cell
end xlnt

/-! ## Spellings of a word -/

/-- ASCII upper-casing, as `toupper` in the C locale. -/
def toupper (c : Char) : Char :=
  if 97 ≤ c.toNat && c.toNat ≤ 122 then Char.ofNat (c.toNat - 32) else c

/-- Every way of writing a lower-case word with each letter in either case. -/
def casings : List Char → List (List Char)
  | [] => [[]]
  | c :: cs => (casings cs).map (fun r => c :: r) ++ (casings cs).map (fun r => toupper c :: r)

/-! ## Decimal number literals -/

/-- The sign in front of a number or of an exponent: none, `+` or `-`. -/
inductive sign_mark where
  | none
  | plus
  | minus
  deriving DecidableEq, Repr

/-- The text of a sign. -/
def sign_mark.text : sign_mark → List Char
  | .none => []
  | .plus => ['+']
  | .minus => ['-']

/-- A decimal number literal in its parts: an optional sign, digits, an optional fraction
(the digits after the point) and an optional exponent (whether its letter is a capital `E`,
its sign, its digits). -/
structure number_literal where
  sign : sign_mark
  digits : List Char
  fraction : Option (List Char)
  exponent : Option (Bool × sign_mark × List Char)
  deriving DecidableEq, Repr

namespace number_literal

/-- The text of the fraction: nothing, or a point and digits. -/
def fraction_text : Option (List Char) → List Char
  | Option.none => []
  | some f => '.' :: f

/-- The text of the exponent: nothing, or the letter, the sign and the digits. -/
def exponent_text : Option (Bool × sign_mark × List Char) → List Char
  | Option.none => []
  | some (capital, sg, ds) => (if capital then 'E' else 'e') :: (sg.text ++ ds)

/-- The text of the literal. -/
def text (l : number_literal) : List Char :=
  l.sign.text ++ (l.digits ++ (fraction_text l.fraction ++ exponent_text l.exponent))

/-- The parts are digits where digits are due, and the integral part and the exponent, when
there is one, have at least one digit. -/
def well_formed (l : number_literal) : Bool :=
  !l.digits.isEmpty && l.digits.all isdigit &&
  (match l.fraction with
    | Option.none => true
    | some f => f.all isdigit) &&
  (match l.exponent with
    | Option.none => true
    | some (_, _, ds) => !ds.isEmpty && ds.all isdigit)

end number_literal

/-- The literals that begin with `0` and are numbers for `data_type_for_value`: `0` alone,
`0.` followed by digits, and `0e` or `0E` followed by digits. -/
def number_literal.zero_form (l : number_literal) : Bool :=
  l.sign = sign_mark.none && l.digits = ['0'] &&
  (match l.exponent with
    | Option.none => true
    | some (_, sg, _) => sg = sign_mark.none && l.fraction.isNone)

/-- The characters a decimal literal is written with. -/
def literal_char (c : Char) : Bool :=
  isdigit c || c = '+' || c = '-' || c = '.' || c = 'e' || c = 'E'

/-- What may follow a literal in the texts considered here: nothing, or a `%`. -/
def ends_here (rest : List Char) : Prop := ∀ c, rest.head? = some c → c = '%'

/-! ## An instance for evaluation -/

/-- The parts of the decimal floating constant at the head of a C string, after white space:
whether it is negative, the value of its digits read as one integer, the number of digits
after the point, and the exponent. -/
def decimal_parts (s : List Char) : Bool × Nat × Nat × Int :=
  let body := strip_sign (s.dropWhile isspace)
  let ip := body.2.takeWhile isdigit
  let r1 := body.2.dropWhile isdigit
  let fp := match r1 with
    | '.' :: r => r.takeWhile isdigit
    | _ => []
  let r2 := match r1 with
    | '.' :: r => r.dropWhile isdigit
    | r => r
  let ex : Int := match r2 with
    | [] => 0
    | e :: r3 =>
      if e = 'e' ∨ e = 'E' then
        (if (strip_sign r3).1 then -1 else 1) *
          (digits_value 0 ((strip_sign r3).2.takeWhile isdigit) : Int)
      else 0
  (body.1, digits_value 0 (ip ++ fp), fp.length, ex)

/-- The rational number a decimal floating constant denotes. -/
def decimal_value (s : List Char) : ℚ :=
  (if (decimal_parts s).1 then -1 else 1) * ((decimal_parts s).2.1 : ℚ) /
    (10 : ℚ) ^ (decimal_parts s).2.2.1 * (10 : ℚ) ^ (decimal_parts s).2.2.2

/-- Modelled from the spec: the constructor `time::time(const std::string &)`, which
`datetime.hpp` declares and no source at hand defines.  It reads the colon-separated fields
hour, minute and, when present, second, and fails on any other text. -/
def time_of_text (s : List Char) : Except exception time :=
  match split_string s ':' with
  | [h, m] =>
    match stoi h, stoi m with
    | .ok hv, .ok mv => .ok ⟨hv, mv, 0, 0⟩
    | _, _ => .error .invalid_argument
  | [h, m, sec] =>
    match stoi h, stoi m, stoi sec with
    | .ok hv, .ok mv, .ok sv => .ok ⟨hv, mv, sv, 0⟩
    | _, _, _ => .error .invalid_argument
  | _ => .error .invalid_argument

/-- Modelled from the spec: the member `time::to_number()`, which `datetime.hpp` declares and
no source at hand defines: `(hour·3600 + minute·60 + second + microsecond/1e6) / 86400`. -/
def time_serial (t : time) : ℚ :=
  (t.hour * 3600 + t.minute * 60 + t.second + (t.microsecond : ℚ) / 1000000) / 86400

/-- An idealised instance of `externals`, used to evaluate the definitions on concrete
inputs: decimal constants are converted without rounding and without a range limit,
division is exact, and the `time` members are the ones modelled from the specification. -/
def ideal : externals where
  strtod_value := fun cs => .finite (decimal_value cs)
  strtod_erange := fun _ => false
  divide := fun x y =>
    match x, y with
    | .finite a, .finite b => if b = 0 then .nan else .finite (a / b)
    | _, _ => .nan
  print_nonfinite := fun x =>
    match x with
    | .inf true => "-inf".toList
    | .inf false => "inf".toList
    | _ => "nan".toList
  time_from_string := time_of_text
  time_to_number := fun t => .finite (time_serial t)

/-- A cell that holds nothing: null value, no formula, no hyperlink, no style, no comment. -/
def xlnt.detail.blank_cell : xlnt.detail.cell_impl :=
  { value_ := xlnt.value.null, formula_ := [], hyperlink_ := ⟨.invalid, [], []⟩, column_ := 0,
    row_ := 0, style_ := none, merged := false, is_date_ := false, has_hyperlink_ := false,
    comment_ := ⟨[]⟩ }

/-! ## Coercions, comparisons and the rest of the cell -/

/-- The comparison `x == y` of two floating-point values: a NaN equals nothing, the two zeros
are equal. -/
def flt.eq : flt → flt → Bool
  | .finite a, .finite b => a = b
  | .finite a, .neg_zero => a = 0
  | .neg_zero, .finite b => b = 0
  | .neg_zero, .neg_zero => true
  | .inf a, .inf b => a = b
  | _, _ => false

/-- The comparison `x != y`, the negation of `x == y`. -/
def flt.ne (x y : flt) : Bool := !flt.eq x y

/-- The integral part of a rational number: rounding toward zero. -/
def truncate (q : ℚ) : Int := if 0 ≤ q then ⌊q⌋ else -⌊-q⌋

/-- The enumeration `calendar` of `datetime.hpp`. -/
inductive calendar where
  | windows_1900
  | mac_1904
  deriving DecidableEq, Repr

/-- The `date` record of `datetime.hpp`. -/
structure date where
  year : Int
  month : Int
  day : Int
  deriving DecidableEq, Repr

/-- The `datetime` record of `datetime.hpp`. -/
structure datetime where
  year : Int
  month : Int
  day : Int
  hour : Int
  minute : Int
  second : Int
  microsecond : Int
  deriving DecidableEq, Repr

/-- The `timedelta` record of `datetime.hpp`. -/
structure timedelta where
  days : Int
  hours : Int
  minutes : Int
  seconds : Int
  microseconds : Int
  deriving DecidableEq, Repr

namespace xlnt
namespace detail

/-- The part of `detail::worksheet_impl` the cell code reaches through `parent_`: the
relationships of the worksheet and its comment counter. -/
structure worksheet_impl where
  relationships_ : List relationship
  comment_count_ : Int
  deriving DecidableEq

end detail
end xlnt

/-- What the value and cell code needs beyond `externals`: the conversion of the `long double`
member to `double`, the result of a conversion to an integer type that the language leaves
undefined (the value is not finite or its integral part is out of range), and the member
`worksheet::create_relationship`, which the sources at hand call and do not define: it returns
the new relationship and the worksheet with the relationship registered. -/
structure environment extends externals where
  narrow : flt → flt
  undefined_cast : flt → Int
  create_relationship : xlnt.detail.worksheet_impl → xlnt.relationship.type → List Char →
    xlnt.relationship × xlnt.detail.worksheet_impl

/-- What `set_value` of a temporal record calls and the sources at hand only declare: the
members `to_number` of `date`, `datetime` and `timedelta`, and the format code of
`number_format(number_format::lookup_format(id))`. -/
structure temporal where
  date_to_number : date → calendar → Int
  datetime_to_number : datetime → calendar → flt
  timedelta_to_number : timedelta → flt
  builtin_format : Nat → xlnt.number_format.format

/-- The conversion of a floating-point value to a signed integer type with the range
`lo .. hi`: the integral part when it is in range. -/
def cast_integer (E : environment) (lo hi : Int) (x : flt) : Int :=
  match x with
  | .finite q => if lo ≤ truncate q ∧ truncate q ≤ hi then truncate q else E.undefined_cast x
  | .neg_zero => 0
  | _ => E.undefined_cast x

namespace xlnt
namespace value

/-- The specialisation `value::get<std::string>()`. -/
def get_string (v : value) : Except exception (List Char) :=
  if v.type_ = value.type.string then .ok v.string_value_ else .error .runtime_error

/-- The specialisation `value::as<double>()`. -/
def as_double (E : environment) (v : value) : Except exception flt :=
  match v.type_ with
  | .boolean => .ok (E.narrow v.numeric_value_)
  | .numeric => .ok (E.narrow v.numeric_value_)
  | .string => stod E.toexternals v.string_value_
  | .error => .error .runtime_error
  | .null => .ok (.finite 0)

/-- The specialisation `value::as<int>()`. -/
def as_int (E : environment) (v : value) : Except exception Int :=
  match v.type_ with
  | .boolean => .ok (cast_integer E (-2147483648) 2147483647 v.numeric_value_)
  | .numeric => .ok (cast_integer E (-2147483648) 2147483647 v.numeric_value_)
  | .string => stoi v.string_value_
  | .error => .error .runtime_error
  | .null => .ok 0

/-- The specialisation `value::as<int64_t>()`; a string is read with `std::stoi`. -/
def as_int64 (E : environment) (v : value) : Except exception Int :=
  match v.type_ with
  | .boolean => .ok (cast_integer E (-9223372036854775808) 9223372036854775807 v.numeric_value_)
  | .numeric => .ok (cast_integer E (-9223372036854775808) 9223372036854775807 v.numeric_value_)
  | .string => stoi v.string_value_
  | .error => .error .runtime_error
  | .null => .ok 0

/-- The specialisation `value::as<bool>()`. -/
def as_bool (v : value) : Except exception Bool :=
  match v.type_ with
  | .boolean => .ok (flt.ne v.numeric_value_ (.finite 0))
  | .numeric => .ok (flt.ne v.numeric_value_ (.finite 0))
  | .string => .ok (!v.string_value_.isEmpty)
  | .error => .error .runtime_error
  | .null => .ok false

/-- The operator `value::operator==(bool)`. -/
def eq_bool (v : value) (b : Bool) : Bool :=
  v.type_ = value.type.boolean && (flt.ne v.numeric_value_ (.finite 0) == b)

/-- The operator `value::operator==(int)`. -/
def eq_int (v : value) (comparand : Int) : Bool :=
  v.type_ = value.type.numeric && flt.eq v.numeric_value_ (.finite comparand)

/-- The operator `value::operator==(double)`. -/
def eq_double (v : value) (comparand : flt) : Bool :=
  v.type_ = value.type.numeric && flt.eq v.numeric_value_ comparand

/-- The operator `value::operator==(const std::string &)` (and, through it, the one on
`const char *`). -/
def eq_string (v : value) (comparand : List Char) : Bool :=
  if v.type_ = value.type.string then v.string_value_ = comparand else false

/-- The operator `value::operator==(const value &)`. -/
def eq_value (v w : value) : Bool :=
  if v.type_ ≠ w.type_ then false
  else if v.type_ = value.type.string ∨ v.type_ = value.type.error then
    v.string_value_ = w.string_value_
  else if v.type_ = value.type.numeric ∨ v.type_ = value.type.boolean then
    flt.eq v.numeric_value_ w.numeric_value_
  else true

end value

/-- How a mutator that also writes to the worksheet leaves both: the worksheet and the cell
after the call, and the exception that left the call, if any. -/
structure sheet_outcome where
  sheet : detail.worksheet_impl
  cell : detail.cell_impl
  thrown : Option exception
  deriving DecidableEq

namespace worksheet

open detail

/-- Modelled from the spec: the member `worksheet::increment_comments()`, which `cell.cpp` calls
and no source at hand defines: the worksheet-level comment counter goes up by one. -/
def increment_comments (ws : worksheet_impl) : worksheet_impl :=
  { ws with comment_count_ := ws.comment_count_ + 1 }

/-- Modelled from the spec: the member `worksheet::decrement_comments()`, which `cell.cpp` calls
and no source at hand defines: the worksheet-level comment counter goes down by one. -/
def decrement_comments (ws : worksheet_impl) : worksheet_impl :=
  { ws with comment_count_ := ws.comment_count_ - 1 }

end worksheet

namespace cell

open detail

/-- The member `cell::has_hyperlink()`. -/
def has_hyperlink (d : cell_impl) : Bool := d.has_hyperlink_

/-- The member `cell::get_hyperlink()`. -/
def get_hyperlink (d : cell_impl) : Except exception relationship :=
  if !d.has_hyperlink_ then .error .runtime_error else .ok d.hyperlink_

/-- The member `cell::set_hyperlink(hyperlink)`; `ws` is the owning worksheet and `guess_types`
the flag of its workbook. -/
def set_hyperlink (E : environment) (guess_types : Bool) (hyperlink : List Char)
    (ws : worksheet_impl) (d : cell_impl) : sheet_outcome :=
  if hyperlink.length = 0 ∨ ':' ∉ hyperlink then
    ⟨ws, d, some .data_type_exception⟩
  else
    let created := E.create_relationship ws relationship.type.hyperlink hyperlink
    let d1 : cell_impl := { d with has_hyperlink_ := true, hyperlink_ := created.1 }
    if (get_value d1).is value.type.null then
      ⟨created.2, (set_value_string E.toexternals guess_types hyperlink d1).cell,
        (set_value_string E.toexternals guess_types hyperlink d1).thrown⟩
    else
      ⟨created.2, d1, none⟩

/-- The member `cell::set_formula(formula)`. -/
def set_formula (formula : List Char) (d : cell_impl) : outcome :=
  if formula.length = 0 then ⟨d, some .data_type_exception⟩
  else ⟨{ d with formula_ := formula }, none⟩

/-- The member `cell::get_formula()`. -/
def get_formula (d : cell_impl) : Except exception (List Char) :=
  if d.formula_.isEmpty then .error .data_type_exception else .ok d.formula_

/-- The member `cell::clear_formula()`. -/
def clear_formula (d : cell_impl) : cell_impl := { d with formula_ := [] }

/-- The member `cell::set_comment(c)`; `ws` is the owning worksheet. -/
def set_comment (c : comment) (ws : worksheet_impl) (d : cell_impl) :
    worksheet_impl × cell_impl :=
  (if !has_comment d then worksheet.increment_comments ws else ws, { d with comment_ := c })

/-- The member `cell::clear_comment()`; `ws` is the owning worksheet and `comment()` is the
comment with no text. -/
def clear_comment (ws : worksheet_impl) (d : cell_impl) : worksheet_impl × cell_impl :=
  (if has_comment d then worksheet.decrement_comments ws else ws, { d with comment_ := ⟨[]⟩ })

/-- The member `cell::get_comment()`. -/
def get_comment (d : cell_impl) : comment := d.comment_

/-- The member `cell::set_value(const date &d)`; `base_date` is the `excel_base_date` of the
properties of the owning workbook. -/
def set_value_date (T : temporal) (base_date : calendar) (x : date) (d : cell_impl) :
    cell_impl :=
  set_value_int (T.date_to_number x base_date)
    { d with is_date_ := true,
             style_ := some { get_style d with format_code := T.builtin_format 14 } }

/-- The member `cell::set_value(const datetime &d)`; `base_date` is the `excel_base_date` of
the properties of the owning workbook. -/
def set_value_datetime (T : temporal) (base_date : calendar) (x : datetime) (d : cell_impl) :
    cell_impl :=
  set_value_double (T.datetime_to_number x base_date)
    { d with is_date_ := true,
             style_ := some { get_style d with format_code := T.builtin_format 22 } }

/-- The member `cell::set_value(const time &t)`. -/
def set_value_time (P : externals) (t : time) (d : cell_impl) : cell_impl :=
  set_value_double (P.time_to_number t) { d with is_date_ := true }

/-- The member `cell::set_value(const timedelta &t)`. -/
def set_value_timedelta (T : temporal) (t : timedelta) (d : cell_impl) : cell_impl :=
  set_value_double (T.timedelta_to_number t) { d with is_date_ := true }

end cell
end xlnt

/-- Modelled from the spec: the member `worksheet::create_relationship(type, target)`, which
`cell.cpp` calls and no source at hand defines: it registers a relationship of the given kind
and target on the worksheet, under an id not yet used there, and returns it. -/
def register_relationship (ws : xlnt.detail.worksheet_impl) (type : xlnt.relationship.type)
    (target : List Char) : xlnt.relationship × xlnt.detail.worksheet_impl :=
  let r : xlnt.relationship :=
    ⟨type, "rId".toList ++ Nat.toDigits 10 (ws.relationships_.length + 1), target⟩
  (r, { ws with relationships_ := ws.relationships_ ++ [r] })

/-- The instance `ideal` extended to an `environment`: the narrowing conversion changes
nothing, an undefined conversion gives the least `int`, and relationships are registered as
the specification describes. -/
def ideal_environment : environment :=
  { ideal with
    narrow := fun x => x
    undefined_cast := fun _ => -2147483648
    create_relationship := register_relationship }

/-- A worksheet with no relationship and no comment. -/
def xlnt.detail.blank_sheet : xlnt.detail.worksheet_impl :=
  { relationships_ := [], comment_count_ := 0 }

/-- What is left of a text, as a C string, after white space and an optional sign: where
`strtol` expects its digits. -/
def after_space_and_sign (s : List Char) : List Char :=
  (strip_sign ((c_str s).dropWhile isspace)).2

/-- The characters a text must begin with for `strtod` to find a number in it: white space, a
sign, a digit, the point, and the first letters of `inf` and `nan` in either case. -/
def starts_number (c : Char) : Bool :=
  isspace c || c = '+' || c = '-' || isdigit c || c = '.' || tolower c = 'i' || tolower c = 'n'

/-! ## The error table, `set_error`, 64-bit integers and comparisons with dates -/

namespace xlnt

namespace cell

open detail

/-- The table `cell::ErrorCodes`, in the order of its initialiser. -/
def ErrorCodes : List (List Char × Int) :=
  [("#NULL!".toList, 0), ("#DIV/0!".toList, 1), ("#VALUE!".toList, 2), ("#REF!".toList, 3),
   ("#NAME?".toList, 4), ("#NUM!".toList, 5), ("#N/A!".toList, 6)]

/-- What `ErrorCodes.find(key)` finds: the code of the key, or nothing. -/
def error_code (key : List Char) : Option Int := ErrorCodes.lookup key

/-- The member `cell::set_error(error)`. -/
def set_error (error : List Char) (d : cell_impl) : outcome :=
  if error.length = 0 ∨ error.head? ≠ some '#' then ⟨d, some .data_type_exception⟩
  else ⟨set_value (value.error error) d, none⟩

end cell

namespace value

/-- The constructor `value::value(int64_t i)`, which stores `(long double)i`.  An integer of
magnitude up to 2^53 is stored exactly whatever the width of `long double`; for a larger one
the result is left to `widen`. -/
def from_int64 (widen : Int → flt) (i : Int) : value :=
  ⟨.numeric, if |i| ≤ 9007199254740992 then .finite i else widen i, []⟩

/-- The operator `value::operator==(const date &)`: the date is converted under the calendar
`windows_1900`, whatever the workbook uses. -/
def eq_date (T : temporal) (v : value) (comparand : date) : Bool :=
  v.type_ = value.type.numeric &&
    flt.eq (.finite (T.date_to_number comparand calendar.windows_1900)) v.numeric_value_

/-- The operator `value::operator==(const datetime &)`: the record is converted under the
calendar `windows_1900`, whatever the workbook uses. -/
def eq_datetime (T : temporal) (v : value) (comparand : datetime) : Bool :=
  v.type_ = value.type.numeric &&
    flt.eq (T.datetime_to_number comparand calendar.windows_1900) v.numeric_value_

end value

namespace cell

open detail

/-- The member `cell::set_value(long long int i)`. -/
def set_value_long_long (widen : Int → flt) (i : Int) (d : cell_impl) : cell_impl :=
  { d with value_ := value.from_int64 widen i }

end cell

end xlnt

/-! ## The calendar arithmetic of dates -/

/-- Modelled from the spec: the leap years of the proleptic Gregorian calendar. -/
def is_leap_year (y : Int) : Bool :=
  y % 4 = 0 ∧ (y % 100 ≠ 0 ∨ y % 400 = 0)

/-- Modelled from the spec: the number of days of month `m` of year `y`. -/
def days_in_month (y m : Int) : Int :=
  if m = 2 then (if is_leap_year y then 29 else 28)
  else if m = 4 ∨ m = 6 ∨ m = 9 ∨ m = 11 then 30
  else 31

/-- Modelled from the spec: the number of days of the first `k` months of year `y`. -/
def days_before_month (y : Int) : Nat → Int
  | 0 => 0
  | k + 1 => days_before_month y k + days_in_month y (k + 1)

/-- Modelled from the spec: the number of days of the years `1 .. y - 1`. -/
def days_before_year (y : Int) : Int :=
  365 * (y - 1) + (y - 1) / 4 - (y - 1) / 100 + (y - 1) / 400

namespace date

/-- Modelled from the spec: a date of the proleptic Gregorian calendar. -/
def valid (d : date) : Prop :=
  1 ≤ d.month ∧ d.month ≤ 12 ∧ 1 ≤ d.day ∧ d.day ≤ days_in_month d.year d.month

instance (d : date) : Decidable d.valid := by unfold valid; infer_instance

/-- Modelled from the spec: the proleptic Gregorian day count of a date, counted from
0001-01-01 as day 1. -/
def day_number (d : date) : Int :=
  days_before_year d.year + days_before_month d.year (d.month - 1).toNat + d.day

/-- Modelled from the spec: the month and day of the day `r` (from zero) of the year `y`,
found by walking over the months from `m`. -/
def month_and_day (y : Int) : Nat → Int → Int → date
  | 0, m, r => ⟨y, m, r + 1⟩
  | k + 1, m, r =>
    if r < days_in_month y m then ⟨y, m, r + 1⟩
    else month_and_day y k (m + 1) (r - days_in_month y m)

/-- Modelled from the spec: the date with a given proleptic Gregorian day count. -/
def of_day_number (n : Int) : date :=
  let n400 := (n - 1) / 146097
  let r400 := (n - 1) % 146097
  let n100 := min (r400 / 36524) 3
  let r100 := r400 - 36524 * n100
  let n4 := r100 / 1461
  let r4 := r100 % 1461
  let n1 := min (r4 / 365) 3
  month_and_day (400 * n400 + 100 * n100 + 4 * n4 + n1 + 1) 11 1 (r4 - 365 * n1)

/-- Modelled from the spec: `date::to_number`. -/
def to_number (d : date) (base_date : calendar) : Int :=
  match base_date with
  | .windows_1900 =>
    if d = ⟨1900, 2, 29⟩ then 60
    else
      let days := day_number d - day_number ⟨1899, 12, 31⟩
      if days < 60 then days else days + 1
  | .mac_1904 => day_number d - day_number ⟨1904, 1, 1⟩

/-- Modelled from the spec: `date::from_number`. -/
def from_number (days_since_base_year : Int) (base_date : calendar) : date :=
  match base_date with
  | .windows_1900 =>
    if days_since_base_year = 60 then ⟨1900, 2, 29⟩
    else if days_since_base_year < 60 then
      of_day_number (days_since_base_year + day_number ⟨1899, 12, 31⟩)
    else of_day_number (days_since_base_year - 1 + day_number ⟨1899, 12, 31⟩)
  | .mac_1904 => of_day_number (days_since_base_year + day_number ⟨1904, 1, 1⟩)

end date

/-- Modelled from the spec: the members `to_number` of `date`, `datetime` and `timedelta`.  The
serial of a `datetime` is the serial of its date plus the fraction of the day of its time; a
`timedelta` is counted in days.  A built-in format is kept by its number, and number 14 is the
code `date_xlsx14`. -/
def spec_temporal : temporal where
  date_to_number := date.to_number
  datetime_to_number := fun x base_date =>
    .finite ((date.to_number ⟨x.year, x.month, x.day⟩ base_date : ℚ) +
      time_serial ⟨x.hour, x.minute, x.second, x.microsecond⟩)
  timedelta_to_number := fun t =>
    .finite ((t.days : ℚ) + (t.hours : ℚ) / 24 + (t.minutes : ℚ) / 1440 +
      (t.seconds : ℚ) / 86400 + (t.microseconds : ℚ) / 86400000000)
  builtin_format := fun k => if k = 14 then .date_xlsx14 else .other k

/-! ## Time literals and the texts taken for a time -/

/-- Whether `std::stoi` reads a text as an `int`. -/
def reads_as_int (p : List Char) : Bool :=
  match stoi p with
  | .ok _ => true
  | .error _ => false

/-- The texts `data_type_for_value` takes for a time of day: they begin with `0` and are made of
two or three parts between colons, each of which `std::stoi` reads as an `int`. -/
def taken_for_time (s : List Char) : Bool :=
  s.head? = some '0' &&
  ((split_string s ':').length = 2 || (split_string s ':').length = 3) &&
  (split_string s ':').all reads_as_int

/-- A non-empty run of decimal digits. -/
def digit_run (p : List Char) : Bool := !p.isEmpty && p.all isdigit

/-- A time literal, `H:M` or `H:M:S`: two or three runs of digits between colons; the seconds
may have a fraction, a point and digits. -/
def time_literal (s : List Char) : Bool :=
  match s.splitOn ':' with
  | [h, m] => digit_run h && digit_run m
  | [h, m, sec] =>
    digit_run h && digit_run m &&
      (match sec.splitOn '.' with
        | [whole] => digit_run whole
        | [whole, fraction] => digit_run whole && digit_run fraction
        | _ => false)
  | _ => false

/-- The first `n` characters of `s` are no colons. -/
def colon_free (n : Nat) (s : List Char) : Prop := ∀ c ∈ s.take n, c ≠ ':'

/-! ## The arithmetic of `double` and the anchor of a cell -/

/-- The function `std::ceil` on a `double`: the least integral value not below the argument,
which is a `double` again; a value between -1 and 0 gives the negative zero. -/
def flt.ceil : flt → flt
  | .finite q => if q < 0 ∧ -1 < q then .neg_zero else .finite ⌈q⌉
  | x => x

/-- The comparison `x > 0` of a `double` with zero. -/
def flt.is_positive : flt → Bool
  | .finite q => 0 < q
  | .inf negative => !negative
  | _ => false

/-- The `int` with the bit pattern of an integer: the conversion of an unsigned index to `int`,
and the sum of two `int`s as two's-complement hardware delivers it. -/
def wrap_int (x : Int) : Int := (x + 2147483648) % 4294967296 - 2147483648

/-- The binary exponent of the unit in the last place of the IEEE 754 binary64 values of the
size of `q`: 52 below the exponent of `q`, and -1074 for the subnormal values. -/
def binary64_exponent (q : ℚ) : Int := max (Int.log 2 |q| - 52) (-1074)

/-- The magnitude of the binary64 value nearest to `q`, ties to the even significand. -/
def binary64_nearest (q : ℚ) : ℚ :=
  (round_half_even (|q| / (2 : ℚ) ^ binary64_exponent q) : ℚ) * (2 : ℚ) ^ binary64_exponent q

/-- The `double` an operation with the exact result `q` delivers in IEEE 754 binary64
arithmetic with rounding to nearest: the nearest value, an infinity when that is out of range,
a zero with the sign of `q` when it is zero. -/
def round_binary64 (q : ℚ) : flt :=
  if (2 : ℚ) ^ (1024 : Nat) ≤ binary64_nearest q then .inf (decide (q < 0))
  else if binary64_nearest q = 0 then (if q < 0 then .neg_zero else .finite 0)
  else .finite (if q < 0 then -binary64_nearest q else binary64_nearest q)

/-- The rationals that are values of a `double`. -/
def is_binary64 (q : ℚ) : Prop := round_binary64 q = .finite q

instance (q : ℚ) : Decidable (is_binary64 q) := by unfold is_binary64; infer_instance

/-- The product `x * y` of two `double`s. -/
def double_multiply (x y : flt) : flt :=
  match x, y with
  | .nan, _ => .nan
  | _, .nan => .nan
  | .inf a, .inf b => .inf (a != b)
  | .inf a, .finite q => if q = 0 then .nan else .inf (a != decide (q < 0))
  | .inf _, .neg_zero => .nan
  | .finite q, .inf b => if q = 0 then .nan else .inf (decide (q < 0) != b)
  | .neg_zero, .inf _ => .nan
  | .finite a, .finite b =>
    if a * b = 0 then (if decide (a < 0) != decide (b < 0) then .neg_zero else .finite 0)
    else round_binary64 (a * b)
  | .finite a, .neg_zero => if a < 0 then .finite 0 else .neg_zero
  | .neg_zero, .finite b => if b < 0 then .finite 0 else .neg_zero
  | .neg_zero, .neg_zero => .finite 0

/-- The quotient `x / y` of two `double`s. -/
def double_divide (x y : flt) : flt :=
  match x, y with
  | .nan, _ => .nan
  | _, .nan => .nan
  | .inf _, .inf _ => .nan
  | .inf a, .finite q => .inf (a != decide (q < 0))
  | .inf a, .neg_zero => .inf (!a)
  | .finite q, .inf b => if decide (q < 0) != b then .neg_zero else .finite 0
  | .neg_zero, .inf b => if b then .finite 0 else .neg_zero
  | .finite a, .finite b =>
    if b = 0 then (if a = 0 then .nan else .inf (decide (a < 0)))
    else if a = 0 then (if b < 0 then .neg_zero else .finite 0)
    else round_binary64 (a / b)
  | .finite a, .neg_zero => if a = 0 then .nan else .inf (!decide (a < 0))
  | .neg_zero, .finite b =>
    if b = 0 then .nan else if b < 0 then .finite 0 else .neg_zero
  | .neg_zero, .neg_zero => .nan

namespace xlnt

namespace cell

open detail

/-- The lambda `points_to_pixels` of `cell::get_anchor`:
`(int)std::ceil(value * dpi / 72)`; the constant 72 is an integer, which a `double` holds
exactly. -/
def points_to_pixels (E : environment) (value dpi : flt) : Int :=
  cast_integer E (-2147483648) 2147483647
    (flt.ceil (double_divide (double_multiply value dpi) (.finite 72)))

/-- What one pass of a loop of `cell::get_anchor` adds to the anchor: the pixels of the
dimension recorded for `index` when there is one and it is positive, and `default_size`
otherwise.  `dimensions` is the map of the worksheet: `none` where `find` finds nothing. -/
def dimension_pixels (E : environment) (dimensions : Int → Option flt) (default_size index : Int) :
    Int :=
  match dimensions index with
  | some size => if size.is_positive then points_to_pixels E size (.finite 96) else default_size
  | none => default_size

/-- A loop of `cell::get_anchor`: `index` runs from 1 while it is at most `count`, and each pass
adds to the anchor, which starts at 0. -/
def anchor_offset (E : environment) (dimensions : Int → Option flt) (default_size count : Int) :
    Int :=
  (List.range count.toNat).foldl
    (fun (anchor : Int) (i : Nat) =>
      wrap_int (anchor + dimension_pixels E dimensions default_size ((i : Int) + 1)))
    0

/-- The member `cell::get_anchor()`; `column_dimensions` and `row_dimensions` are the maps of the
owning worksheet.  The constants 15.0 and 96.0 are integers, which a `double` holds exactly;
51.85 is not, and the constant is the `double` nearest to it. -/
def get_anchor (E : environment) (column_dimensions row_dimensions : Int → Option flt)
    (d : cell_impl) : Int × Int :=
  let left_columns := d.column_
  let default_width := points_to_pixels E (round_binary64 (5185 / 100)) (.finite 96)
  let left_anchor := anchor_offset E column_dimensions default_width (wrap_int left_columns)
  let top_rows := d.row_
  let default_height := points_to_pixels E (.finite 15) (.finite 96)
  let top_anchor := anchor_offset E row_dimensions default_height (wrap_int top_rows)
  (left_anchor, top_anchor)

end cell

end xlnt

/-- What a column or a row adds to the anchor in exact arithmetic: the ceiling of `w·96/72` for
a recorded dimension `w > 0`, and `default_size` otherwise. -/
def exact_pixels (dimensions : Int → Option flt) (default_size index : Int) : Int :=
  match dimensions index with
  | some (.finite w) => if 0 < w then ⌈w * 96 / 72⌉ else default_size
  | _ => default_size

/-! ## Facts about the classification and the conversions -/

theorem classify_parts_ne_boolean (ps : List (List Char)) :
    classify_parts ps ≠ .ok xlnt.value.type.boolean := by
  induction ps with
  | nil => simp [classify_parts]
  | cons p ps ih =>
    unfold classify_parts
    split
    · exact ih
    · simp
    · simp

theorem data_type_boolean_iff (s : List Char) :
    data_type_for_value s = .ok xlnt.value.type.boolean ↔ s ∈ possible_booleans := by
  constructor
  · intro h
    unfold data_type_for_value at h
    split at h
    · simp at h
    · split_ifs at h with h1 h2 h3 h4 h5 h6 h7 h8
      all_goals first
        | exact absurd h (classify_parts_ne_boolean _)
        | assumption
        | simp at h
  · intro h
    simp only [possible_booleans, List.mem_cons, List.mem_singleton, List.mem_nil_iff,
      or_false] at h
    rcases h with h | h | h | h <;> subst h <;> decide

theorem round_half_even_natCast (n : ℕ) : round_half_even (n : ℚ) = n := by
  simp [round_half_even]

theorem std_to_string_intCast (P : externals) (i : Int) :
    std_to_string P (.finite (i : ℚ)) =
      (if i < 0 then ['-'] else []) ++ Nat.toDigits 10 i.natAbs ++ ".000000".toList := by
  have h : |(i : ℚ)| * 1000000 = ((i.natAbs * 1000000 : ℕ) : ℚ) := by
    push_cast
    rw [Nat.cast_natAbs, Int.cast_abs]
  have h6 : six_digits 0 = "000000".toList := by decide
  simp only [std_to_string, h, round_half_even_natCast]
  rw [Nat.mul_div_cancel _ (by norm_num), Nat.mul_mod_left, h6]
  simp

theorem toString_int_toList (i : Int) :
    (toString i).toList = (if i < 0 then ['-'] else []) ++ Nat.toDigits 10 i.natAbs := by
  cases i with
  | ofNat m =>
    have h : ¬ ((m : Int) < 0) := not_lt.mpr (Int.ofNat_nonneg m)
    simp [toString, Int.repr, Nat.repr, String.toList, h]
    rfl
  | negSucc m =>
    simp [toString, Int.repr, Nat.repr, String.toList, Int.negSucc_lt_zero]
    rfl

/-! ## How `set_value` continues after the classification -/

namespace xlnt

open detail

theorem set_value_string_guess_off (P : externals) (s : List Char) (d : cell_impl) :
    cell.set_value_string P false s d =
      ⟨{ d with is_date_ := false, value_ := value.from_string s }, none⟩ := by
  simp [cell.set_value_string]

theorem set_value_string_of_throw (P : externals) (s : List Char) (d : cell_impl) (e : exception)
    (h : data_type_for_value s = .error e) :
    cell.set_value_string P true s d = ⟨{ d with is_date_ := false }, some e⟩ := by
  simp [cell.set_value_string, h]

theorem set_value_string_of_string (P : externals) (s : List Char) (d : cell_impl)
    (h : data_type_for_value s = .ok value.type.string) :
    cell.set_value_string P true s d =
      ⟨{ d with is_date_ := false, value_ := value.from_string s }, none⟩ := by
  simp [cell.set_value_string, h]

theorem set_value_string_of_error (P : externals) (s : List Char) (d : cell_impl)
    (h : data_type_for_value s = .ok value.type.error) :
    cell.set_value_string P true s d =
      ⟨{ d with is_date_ := false, value_ := value.from_string s }, none⟩ := by
  simp [cell.set_value_string, h]

theorem set_value_string_of_null (P : externals) (s : List Char) (d : cell_impl)
    (h : data_type_for_value s = .ok value.type.null) :
    cell.set_value_string P true s d =
      ⟨{ d with is_date_ := false, value_ := value.null }, none⟩ := by
  simp [cell.set_value_string, h]

theorem set_value_string_of_boolean (P : externals) (s : List Char) (d : cell_impl)
    (h : data_type_for_value s = .ok value.type.boolean) :
    cell.set_value_string P true s d =
      ⟨{ d with is_date_ := false,
                value_ := value.from_bool (s = "TRUE".toList ∨ s = "true".toList) }, none⟩ := by
  simp [cell.set_value_string, h]

theorem set_value_string_of_numeric (P : externals) (s : List Char) (d : cell_impl)
    (h : data_type_for_value s = .ok value.type.numeric) :
    (cell.set_value_string P true s d).thrown ≠ none ∨
      (cell.set_value_string P true s d).cell.value_.type_ = value.type.numeric := by
  simp only [cell.set_value_string, h]
  split_ifs <;> (try simp at *) <;> split <;> simp [value.from_double]

end xlnt

/-! ## `strtod` on a decimal number literal -/

theorem takeWhile_append_stop (p : Char → Bool) (a b : List Char)
    (ha : ∀ c ∈ a, p c = true) (hb : ∀ c, b.head? = some c → p c = false) :
    (a ++ b).takeWhile p = a := by
  induction a with
  | nil =>
    cases b with
    | nil => rfl
    | cons c r => simp [List.takeWhile, hb c rfl]
  | cons x xs ih =>
    have hx : p x = true := ha x (List.mem_cons_self _ _)
    simp [List.takeWhile, hx, ih (fun c hc => ha c (List.mem_cons_of_mem _ hc))]

theorem span_length_append_stop (p : Char → Bool) (a b : List Char)
    (ha : ∀ c ∈ a, p c = true) (hb : ∀ c, b.head? = some c → p c = false) :
    span_length p (a ++ b) = a.length := by
  rw [span_length, takeWhile_append_stop p a b ha hb]

theorem skip_sign_of_digit (c : Char) (r : List Char) (h : isdigit c = true) :
    skip_sign (c :: r) = (0, c :: r) := by
  unfold skip_sign
  split
  · rename_i heq
    cases heq
    exact absurd h (by decide)
  · rename_i heq
    cases heq
    exact absurd h (by decide)
  · rfl

theorem skip_sign_text (sg : sign_mark) (c : Char) (r : List Char) (h : isdigit c = true) :
    skip_sign (sg.text ++ c :: r) = (sg.text.length, c :: r) := by
  cases sg
  · exact skip_sign_of_digit c r h
  · rfl
  · rfl

theorem exponent_length_text (ex : Option (Bool × sign_mark × List Char)) (rest : List Char)
    (hw : ∀ cap sg ds, ex = some (cap, sg, ds) → ds ≠ [] ∧ ∀ c ∈ ds, isdigit c = true)
    (hr : ends_here rest) :
    exponent_length 'e' 'E' (number_literal.exponent_text ex ++ rest) =
      (number_literal.exponent_text ex).length := by
  have hstop : ∀ c, rest.head? = some c → isdigit c = false := by
    intro c hc; rw [hr c hc]; decide
  match ex with
  | Option.none =>
    cases rest with
    | nil => rfl
    | cons c r =>
      have : c = '%' := hr c rfl
      subst this
      rfl
  | some (cap, sg, ds) =>
    obtain ⟨hne, hd⟩ := hw cap sg ds rfl
    obtain ⟨c, r, rfl⟩ := List.exists_cons_of_ne_nil hne
    have hc : isdigit c = true := hd c (List.mem_cons_self _ _)
    have hs : skip_sign (sg.text ++ c :: (r ++ rest)) = (sg.text.length, c :: (r ++ rest)) :=
      skip_sign_text sg c (r ++ rest) hc
    have hn : span_length isdigit (c :: (r ++ rest)) = r.length + 1 :=
      span_length_append_stop isdigit (c :: r) rest hd hstop
    cases cap <;>
      simp [number_literal.exponent_text, exponent_length, hs, hn] <;> omega

theorem exponent_text_head (ex : Option (Bool × sign_mark × List Char)) (rest : List Char)
    (hr : ends_here rest) (c : Char)
    (h : (number_literal.exponent_text ex ++ rest).head? = some c) :
    c = 'e' ∨ c = 'E' ∨ c = '%' := by
  match ex with
  | Option.none => exact Or.inr (Or.inr (hr c h))
  | some (cap, sg, ds) =>
    cases cap <;> simp [number_literal.exponent_text] at h <;> simp [← h]

theorem fraction_text_head (fr : Option (List Char))
    (ex : Option (Bool × sign_mark × List Char)) (rest : List Char)
    (hr : ends_here rest) (c : Char)
    (h : (number_literal.fraction_text fr ++ (number_literal.exponent_text ex ++ rest)).head? =
      some c) :
    c = '.' ∨ c = 'e' ∨ c = 'E' ∨ c = '%' := by
  match fr with
  | Option.none => exact Or.inr (exponent_text_head ex rest hr c h)
  | some f => simp [number_literal.fraction_text] at h; simp [← h]

theorem point_digits_text (fr : Option (List Char))
    (ex : Option (Bool × sign_mark × List Char)) (rest : List Char)
    (hfr : ∀ f, fr = some f → ∀ c ∈ f, isdigit c = true) (hr : ends_here rest) :
    point_digits isdigit (number_literal.fraction_text fr ++
      (number_literal.exponent_text ex ++ rest)) = fr.map List.length := by
  match fr with
  | Option.none =>
    have hh := exponent_text_head ex rest hr
    cases ht : number_literal.exponent_text ex ++ rest with
    | nil => rfl
    | cons c r =>
      rw [ht] at hh
      have hc := hh c rfl
      simp only [number_literal.fraction_text, List.nil_append, ht, Option.map_none']
      unfold point_digits
      split
      · rename_i heq
        cases heq
        simp at hc
      · rfl
  | some f =>
    have hstop : ∀ c, (number_literal.exponent_text ex ++ rest).head? = some c →
        isdigit c = false := by
      intro c hc
      rcases exponent_text_head ex rest hr c hc with h | h | h <;> subst h <;> decide
    simp [number_literal.fraction_text, point_digits,
      span_length_append_stop isdigit f _ (hfr f rfl) hstop]

theorem mantissa_length_text (ip : List Char) (fr : Option (List Char))
    (ex : Option (Bool × sign_mark × List Char)) (rest : List Char)
    (hip : ip ≠ []) (hipd : ∀ c ∈ ip, isdigit c = true)
    (hfr : ∀ f, fr = some f → ∀ c ∈ f, isdigit c = true)
    (hex : ∀ cap sg ds, ex = some (cap, sg, ds) → ds ≠ [] ∧ ∀ c ∈ ds, isdigit c = true)
    (hr : ends_here rest) :
    mantissa_length isdigit 'e' 'E'
        (ip ++ (number_literal.fraction_text fr ++ (number_literal.exponent_text ex ++ rest))) =
      ip.length + (number_literal.fraction_text fr).length +
        (number_literal.exponent_text ex).length := by
  have hstop : ∀ c, (number_literal.fraction_text fr ++
      (number_literal.exponent_text ex ++ rest)).head? = some c → isdigit c = false := by
    intro c hc
    rcases fraction_text_head fr ex rest hr c hc with h | h | h | h <;> subst h <;> decide
  have hlen : ip.length ≠ 0 := by simpa using hip
  unfold mantissa_length
  simp only [span_length_append_stop isdigit ip _ hipd hstop, List.drop_left,
    point_digits_text fr ex rest hfr hr]
  match fr with
  | Option.none =>
    simp only [Option.map_none', number_literal.fraction_text, List.nil_append, List.length_nil,
      Nat.add_zero, if_neg hlen, List.drop_left, exponent_length_text ex rest hex hr]
  | some f =>
    have hd : List.drop (ip.length + 1 + f.length)
        (ip ++ ('.' :: f ++ (number_literal.exponent_text ex ++ rest))) =
        number_literal.exponent_text ex ++ rest := by
      have : ip ++ ('.' :: f ++ (number_literal.exponent_text ex ++ rest)) =
          (ip ++ '.' :: f) ++ (number_literal.exponent_text ex ++ rest) := by
        simp
      rw [this]
      have hl : ip.length + 1 + f.length = (ip ++ '.' :: f).length := by
        simp; omega
      rw [hl, List.drop_left]
    have hne : ¬ (ip.length + f.length = 0) := by omega
    simp only [Option.map_some', if_neg hne, number_literal.fraction_text, hd,
      exponent_length_text ex rest hex hr, List.length_cons]
    omega

theorem tolower_of_digit (d : Char) (hd : isdigit d = true) : tolower d = d := by
  simp only [isdigit, Bool.and_eq_true, decide_eq_true_eq] at hd
  have : ¬ (65 ≤ d.toNat ∧ d.toNat ≤ 90) := by omega
  simp [tolower, this]

theorem starts_with_nocase_digit (w0 : Char) (w l : List Char) (d : Char)
    (hd : isdigit d = true) (hw : isdigit w0 = false) :
    starts_with_nocase (w0 :: w) (d :: l) = false := by
  simp only [starts_with_nocase, List.length_cons, List.take_succ_cons, List.map_cons,
    tolower_of_digit d hd, decide_eq_false_iff_not]
  intro h
  injection h with h1 _
  rw [h1] at hd
  rw [hd] at hw
  exact Bool.noConfusion hw

theorem hex_length_of_second (c : Char) (r : List Char)
    (h : ∀ x, r.head? = some x → x ≠ 'x' ∧ x ≠ 'X') : hex_length (c :: r) = 0 := by
  unfold hex_length
  split
  · rename_i x r2 heq
    cases heq
    have := h x rfl
    simp [this.1, this.2]
  · rfl

/-- The number scanner reads the digits, fraction and exponent of a literal in full. -/
theorem number_length_text (ip : List Char) (fr : Option (List Char))
    (ex : Option (Bool × sign_mark × List Char)) (rest : List Char)
    (hip : ip ≠ []) (hipd : ∀ c ∈ ip, isdigit c = true)
    (hfr : ∀ f, fr = some f → ∀ c ∈ f, isdigit c = true)
    (hex : ∀ cap sg ds, ex = some (cap, sg, ds) → ds ≠ [] ∧ ∀ c ∈ ds, isdigit c = true)
    (hr : ends_here rest) :
    number_length
        (ip ++ (number_literal.fraction_text fr ++ (number_literal.exponent_text ex ++ rest))) =
      ip.length + (number_literal.fraction_text fr).length +
        (number_literal.exponent_text ex).length := by
  have hm := mantissa_length_text ip fr ex rest hip hipd hfr hex hr
  obtain ⟨d, ip2, rfl⟩ := List.exists_cons_of_ne_nil hip
  have hd : isdigit d = true := hipd d (List.mem_cons_self _ _)
  have hx : hex_length (d :: ip2 ++ (number_literal.fraction_text fr ++
      (number_literal.exponent_text ex ++ rest))) = 0 := by
    apply hex_length_of_second
    intro x hx
    cases ip2 with
    | nil =>
      rcases fraction_text_head fr ex rest hr x hx with h | h | h | h <;> subst h <;> decide
    | cons y ys =>
      have hy : isdigit y = true := hipd y (by simp)
      simp at hx
      subst hx
      constructor <;> (intro h; subst h; exact absurd hy (by decide))
  unfold number_length
  rw [hx, ← hm]
  simp only [ne_eq, not_true_eq_false, if_false, List.cons_append, String.toList]
  rw [starts_with_nocase_digit _ _ _ d hd (by decide), starts_with_nocase_digit _ _ _ d hd (by decide),
    starts_with_nocase_digit _ _ _ d hd (by decide)]
  simp

theorem span_length_of_head (p : Char → Bool) (c : Char) (r : List Char) (h : p c = false) :
    span_length p (c :: r) = 0 := by
  simp [span_length, List.takeWhile, h]

theorem isspace_of_digit (d : Char) (hd : isdigit d = true) : isspace d = false := by
  simp only [isdigit, Bool.and_eq_true, decide_eq_true_eq] at hd
  simp only [isspace, Bool.or_eq_false_iff, decide_eq_false_iff_not, Bool.and_eq_false_iff]
  omega

theorem well_formed_parts (l : number_literal) (hw : l.well_formed = true) :
    l.digits ≠ [] ∧ (∀ c ∈ l.digits, isdigit c = true) ∧
    (∀ f, l.fraction = some f → ∀ c ∈ f, isdigit c = true) ∧
    (∀ cap sg ds, l.exponent = some (cap, sg, ds) → ds ≠ [] ∧ ∀ c ∈ ds, isdigit c = true) := by
  unfold number_literal.well_formed at hw
  simp only [Bool.and_eq_true, Bool.not_eq_true', List.isEmpty_eq_false, List.all_eq_true] at hw
  obtain ⟨⟨⟨h1, h2⟩, h3⟩, h4⟩ := hw
  refine ⟨by simpa using h1, h2, ?_, ?_⟩
  · intro f hf
    rw [hf] at h3
    simpa using h3
  · intro cap sg ds he
    rw [he] at h4
    simp only [Bool.and_eq_true, Bool.not_eq_true', List.isEmpty_eq_false,
      List.all_eq_true] at h4
    exact ⟨by simpa using h4.1, h4.2⟩

/-- The scanner `strtod` reads a well-formed decimal literal in full, also when a `%`
follows it. -/
theorem strtod_length_literal (l : number_literal) (hw : l.well_formed = true)
    (rest : List Char) (hr : ends_here rest) :
    strtod_length (l.text ++ rest) = l.text.length := by
  obtain ⟨hip, hipd, hfr, hex⟩ := well_formed_parts l hw
  have hn := number_length_text l.digits l.fraction l.exponent rest hip hipd hfr hex hr
  obtain ⟨d, ip2, hdig⟩ := List.exists_cons_of_ne_nil hip
  have hd : isdigit d = true := hipd d (by rw [hdig]; exact List.mem_cons_self _ _)
  have htext : l.text ++ rest = l.sign.text ++ d :: (ip2 ++ (number_literal.fraction_text l.fraction ++
      (number_literal.exponent_text l.exponent ++ rest))) := by
    simp [number_literal.text, hdig]
  have hws : span_length isspace (l.text ++ rest) = 0 := by
    rw [htext]
    cases l.sign
    · exact span_length_of_head _ _ _ (isspace_of_digit d hd)
    · exact span_length_of_head _ _ _ (by decide)
    · exact span_length_of_head _ _ _ (by decide)
  unfold strtod_length
  simp only [hws, List.drop_zero]
  rw [htext, skip_sign_text _ d _ hd]
  rw [hdig] at hn
  simp only [List.cons_append] at hn
  simp only [hn]
  simp [number_literal.text, hdig]
  omega

/-! ## The classification of the texts of the claims -/

theorem data_type_of_full_parse (s : List Char) (hne : s ≠ [])
    (h0 : s.head? ≠ some '0') (hs : s.head? ≠ some '#')
    (hf : strtod_length (c_str s) = (c_str s).length) :
    data_type_for_value s = .ok xlnt.value.type.numeric := by
  obtain ⟨c, r, rfl⟩ := List.exists_cons_of_ne_nil hne
  have h0c : c ≠ '0' := by simpa using h0
  have hsc : c ≠ '#' := by simpa using hs
  simp [data_type_for_value, h0c, hsc, hf]

theorem data_type_of_percent (s : List Char)
    (h0 : s.head? ≠ some '0') (hs : s.head? ≠ some '#')
    (hnf : strtod_length (c_str s) ≠ (c_str s).length) (hb : s ∉ possible_booleans)
    (hl : s.getLast? = some '%')
    (hp : strtod_length (c_str s.dropLast) = (c_str s.dropLast).length) :
    data_type_for_value s = .ok xlnt.value.type.numeric := by
  cases s with
  | nil => simp at hl
  | cons c r =>
    have h0c : c ≠ '0' := by simpa using h0
    have hsc : c ≠ '#' := by simpa using hs
    simp only [data_type_for_value, h0c, hsc, if_false, ne_eq, hnf, not_false_eq_true, if_true,
      hb, hl, hp, and_self]

theorem data_type_of_other (s : List Char) (hne : s ≠ [])
    (h0 : s.head? ≠ some '0') (hs : s.head? ≠ some '#')
    (hnf : strtod_length (c_str s) ≠ (c_str s).length) (hb : s ∉ possible_booleans)
    (hp : ¬ (s.getLast? = some '%' ∧
      strtod_length (c_str s.dropLast) = (c_str s.dropLast).length)) :
    data_type_for_value s = .ok xlnt.value.type.string := by
  obtain ⟨c, r, rfl⟩ := List.exists_cons_of_ne_nil hne
  have h0c : c ≠ '0' := by simpa using h0
  have hsc : c ≠ '#' := by simpa using hs
  simp only [data_type_for_value, h0c, hsc, if_false, ne_eq, hnf, not_false_eq_true, if_true,
    hb, hp]

theorem literal_chars (l : number_literal) (hw : l.well_formed = true) :
    ∀ c ∈ l.text, literal_char c = true := by
  obtain ⟨_, hipd, hfr, hex⟩ := well_formed_parts l hw
  intro c hc
  simp only [number_literal.text, List.mem_append] at hc
  rcases hc with hc | hc | hc | hc
  · cases hsg : l.sign <;> rw [hsg] at hc <;> simp [sign_mark.text] at hc <;> subst hc <;> decide
  · simp [literal_char, hipd c hc]
  · cases hf : l.fraction with
    | none => rw [hf] at hc; simp [number_literal.fraction_text] at hc
    | some f =>
      rw [hf] at hc
      simp only [number_literal.fraction_text, List.mem_cons] at hc
      rcases hc with hc | hc
      · subst hc; decide
      · simp [literal_char, hfr f hf c hc]
  · cases he : l.exponent with
    | none => rw [he] at hc; simp [number_literal.exponent_text] at hc
    | some t =>
      obtain ⟨cap, sg, ds⟩ := t
      rw [he] at hc
      simp only [number_literal.exponent_text, List.mem_cons, List.mem_append] at hc
      rcases hc with hc | hc | hc
      · cases cap <;> simp at hc <;> subst hc <;> decide
      · cases sg <;> simp [sign_mark.text] at hc <;> subst hc <;> decide
      · simp [literal_char, (hex cap sg ds he).2 c hc]

theorem c_str_of_no_nul (s : List Char) (h : ∀ c ∈ s, c.toNat ≠ 0) : c_str s = s := by
  unfold c_str
  rw [List.takeWhile_eq_self_iff]
  intro c hc
  simpa using h c hc

theorem literal_char_facts (c : Char) (h : literal_char c = true) :
    c.toNat ≠ 0 ∧ c ≠ ':' ∧ c ≠ '%' ∧ c ≠ '#' := by
  simp only [literal_char, isdigit, Bool.or_eq_true, Bool.and_eq_true, decide_eq_true_eq] at h
  rcases h with ((((h | h) | h) | h) | h) | h
  · refine ⟨by omega, ?_, ?_, ?_⟩ <;> (intro hc; subst hc; revert h; decide)
  all_goals (subst h; decide)

theorem split_loop_no_delim (delim : Char) (s cur : List Char) (h : delim ∉ s) :
    split_loop delim cur s =
      if (cur.reverse ++ s).isEmpty then [] else [cur.reverse ++ s] := by
  induction s generalizing cur with
  | nil => simp [split_loop]
  | cons c cs ih =>
    have hc : c ≠ delim := fun e => h (by simp [e])
    have hcs : delim ∉ cs := fun e => h (List.mem_cons_of_mem _ e)
    simp [split_loop, hc, ih (c :: cur) hcs]

theorem data_type_of_leading_zero (c : Char) (r : List Char) (hc : isdigit c = true)
    (hr : ':' ∉ r) : data_type_for_value ('0' :: c :: r) = .ok xlnt.value.type.string := by
  have h1 : c ≠ '.' := by intro e; subst e; exact absurd hc (by decide)
  have h2 : c ≠ 'e' := by intro e; subst e; exact absurd hc (by decide)
  have h3 : c ≠ 'E' := by intro e; subst e; exact absurd hc (by decide)
  have h4 : ':' ∉ '0' :: c :: r := by
    intro h
    simp only [List.mem_cons] at h
    rcases h with h | h | h
    · exact absurd h (by decide)
    · subst h; exact absurd hc (by decide)
    · exact hr h
  have hs : split_string ('0' :: c :: r) ':' = ['0' :: c :: r] := by
    rw [split_string, split_loop_no_delim _ _ _ h4]
    simp
  simp [data_type_for_value, h1, h2, h3, hs]

theorem stod_literal (P : externals) (l : number_literal) (hw : l.well_formed = true)
    (he : P.strtod_erange l.text = false) : stod P l.text = .ok (P.strtod_value l.text) := by
  have hc : c_str l.text = l.text :=
    c_str_of_no_nul _ (fun c hc => (literal_char_facts c (literal_chars l hw c hc)).1)
  have hlen := strtod_length_literal l hw [] (by intro c hc; simp at hc)
  rw [List.append_nil] at hlen
  have hne : l.text.length ≠ 0 := by
    have := (well_formed_parts l hw).1
    simp [number_literal.text, this]
  simp [stod, hc, hlen, hne, he]

namespace xlnt

open detail

theorem set_value_string_plain (P : externals) (s : List Char) (d : cell_impl) (x : flt)
    (h : data_type_for_value s = .ok value.type.numeric) (hc : ':' ∉ s)
    (hp : s.getLast? ≠ some '%') (hx : stod P s = .ok x) :
    cell.set_value_string P true s d =
      ⟨{ d with is_date_ := false, value_ := value.from_double x }, none⟩ := by
  simp [cell.set_value_string, h, hc, hp, hx]

theorem set_value_string_percent (P : externals) (s : List Char) (d : cell_impl) (x : flt)
    (h : data_type_for_value s = .ok value.type.numeric) (hc : ':' ∉ s)
    (hp : s.getLast? = some '%') (hx : stod P s.dropLast = .ok x) :
    cell.set_value_string P true s d =
      ⟨{ d with is_date_ := false, value_ := value.from_double (P.divide x (.finite 100)),
                style_ := some ⟨.percentage⟩ }, none⟩ := by
  simp [cell.set_value_string, h, hc, hp, hx]

end xlnt

theorem literal_text_ne_nil (l : number_literal) (hw : l.well_formed = true) : l.text ≠ [] := by
  have := (well_formed_parts l hw).1
  simp [number_literal.text, this]

theorem c_str_literal (l : number_literal) (hw : l.well_formed = true) :
    c_str l.text = l.text :=
  c_str_of_no_nul _ (fun c hc => (literal_char_facts c (literal_chars l hw c hc)).1)

theorem strtod_length_literal_full (l : number_literal) (hw : l.well_formed = true) :
    strtod_length l.text = l.text.length := by
  have hlen := strtod_length_literal l hw [] (by intro c hc; simp at hc)
  rwa [List.append_nil] at hlen

theorem data_type_literal (l : number_literal) (hw : l.well_formed = true)
    (h : l.text.head? ≠ some '0' ∨ l.zero_form = true) :
    data_type_for_value l.text = .ok xlnt.value.type.numeric := by
  rcases h with h | h
  · apply data_type_of_full_parse _ (literal_text_ne_nil l hw) h
    · intro hs
      have hm : '#' ∈ l.text := List.mem_of_mem_head? hs
      exact (literal_char_facts _ (literal_chars l hw _ hm)).2.2.2 rfl
    · rw [c_str_literal l hw, strtod_length_literal_full l hw]
  · obtain ⟨_, _, hfr, hex⟩ := well_formed_parts l hw
    obtain ⟨sg, ip, fr, ex⟩ := l
    simp only [number_literal.zero_form, Bool.and_eq_true, decide_eq_true_eq] at h
    obtain ⟨⟨h1, h2⟩, h3⟩ := h
    subst h1 h2
    match ex, fr with
    | Option.none, Option.none => rfl
    | Option.none, some f =>
      have hf : ∀ c ∈ f, isdigit c = true := hfr f rfl
      simp [number_literal.text, sign_mark.text, number_literal.fraction_text,
        number_literal.exponent_text, data_type_for_value]
      intro x hx hx2
      simp [hf x hx] at hx2
    | some (cap, sg2, ds), Option.none =>
      simp only [Bool.and_eq_true, decide_eq_true_eq] at h3
      obtain ⟨h4, _⟩ := h3
      subst h4
      obtain ⟨hne, hd⟩ := hex cap _ ds rfl
      have hlen : 0 < ds.length := List.length_pos.mpr hne
      cases cap <;>
        simp [number_literal.text, sign_mark.text, number_literal.fraction_text,
          number_literal.exponent_text, data_type_for_value, hlen] <;>
        (intro x hx hx2; simp [hd x hx] at hx2)
    | some (cap, sg2, ds), some f => simp at h3

theorem data_type_literal_percent (l : number_literal) (hw : l.well_formed = true)
    (h0 : l.text.head? ≠ some '0') :
    data_type_for_value (l.text ++ ['%']) = .ok xlnt.value.type.numeric := by
  have hne := literal_text_ne_nil l hw
  have hhead : (l.text ++ ['%']).head? = l.text.head? := by
    obtain ⟨c, r, hcr⟩ := List.exists_cons_of_ne_nil hne
    rw [hcr]; rfl
  have hcs : c_str (l.text ++ ['%']) = l.text ++ ['%'] := by
    apply c_str_of_no_nul
    intro c hc
    simp only [List.mem_append, List.mem_singleton] at hc
    rcases hc with hc | hc
    · exact (literal_char_facts c (literal_chars l hw c hc)).1
    · subst hc; decide
  have hlen : strtod_length (l.text ++ ['%']) = l.text.length :=
    strtod_length_literal l hw ['%'] (by intro c hc; simpa using hc.symm)
  apply data_type_of_percent
  · rwa [hhead]
  · rw [hhead]
    intro hs
    have hm : '#' ∈ l.text := List.mem_of_mem_head? hs
    exact (literal_char_facts _ (literal_chars l hw _ hm)).2.2.2 rfl
  · rw [hcs, hlen]; simp
  · intro hmem
    have hl : (l.text ++ ['%']).getLast? = some '%' := by simp
    simp only [possible_booleans, List.mem_cons, List.mem_singleton, List.mem_nil_iff,
      or_false] at hmem
    rcases hmem with h | h | h | h <;> rw [h] at hl <;> exact absurd hl (by decide)
  · simp
  · rw [List.dropLast_concat, c_str_literal l hw, strtod_length_literal_full l hw]

theorem literal_no_colon (l : number_literal) (hw : l.well_formed = true) : ':' ∉ l.text :=
  fun h => (literal_char_facts _ (literal_chars l hw _ h)).2.1 rfl

theorem literal_last_not_percent (l : number_literal) (hw : l.well_formed = true) :
    l.text.getLast? ≠ some '%' := by
  intro h
  have hm : '%' ∈ l.text := List.mem_of_getLast?_eq_some h
  exact (literal_char_facts _ (literal_chars l hw _ hm)).2.2.1 rfl

/-! ## Texts that begin with `0` -/

theorem classify_parts_numeric_iff (ps : List (List Char)) :
    classify_parts ps = .ok xlnt.value.type.numeric ↔ ps.all reads_as_int = true := by
  induction ps with
  | nil => simp [classify_parts]
  | cons p rest ih =>
    simp only [classify_parts, List.all_cons, Bool.and_eq_true, reads_as_int]
    cases hp : stoi p with
    | ok n => simp [ih, reads_as_int]
    | error e => cases e <;> simp

theorem classify_parts_string_of_part (pre : List (List Char)) (p : List Char)
    (post : List (List Char)) (h1 : pre.all reads_as_int = true)
    (h2 : stoi p = .error exception.invalid_argument) :
    classify_parts (pre ++ p :: post) = .ok xlnt.value.type.string := by
  induction pre with
  | nil => simp [classify_parts, h2]
  | cons q rest ih =>
    simp only [List.all_cons, Bool.and_eq_true, reads_as_int] at h1
    obtain ⟨hq, hrest⟩ := h1
    simp only [List.cons_append, classify_parts]
    cases hs : stoi q with
    | ok n => simp only; exact ih hrest
    | error e => rw [hs] at hq; simp at hq

/-- The classification of a text that begins with `0`. -/
theorem data_type_of_zero_text (r : List Char) :
    data_type_for_value ('0' :: r) =
      if r = [] then .ok xlnt.value.type.numeric
      else if (r.head? = some '.' ∨ (r.length > 1 ∧ (r.head? = some 'e' ∨ r.head? = some 'E'))) ∧
          (r.drop 1).all isdigit = true then .ok xlnt.value.type.numeric
      else if (split_string ('0' :: r) ':').length = 2 ∨
          (split_string ('0' :: r) ':').length = 3 then
        classify_parts (split_string ('0' :: r) ':')
      else .ok xlnt.value.type.string := by
  cases r with
  | nil => simp [data_type_for_value]
  | cons x xs =>
    simp [data_type_for_value]

/-- A text `0.` followed by digits, or `0e` or `0E` followed by at least one digit, is
accepted by `strtod` in its entirety. -/
theorem strtod_length_of_zero_text (r : List Char)
    (h : (r.head? = some '.' ∨ (r.length > 1 ∧ (r.head? = some 'e' ∨ r.head? = some 'E'))) ∧
      (r.drop 1).all isdigit = true) :
    strtod_length (c_str ('0' :: r)) = (c_str ('0' :: r)).length := by
  obtain ⟨h1, h2⟩ := h
  cases r with
  | nil => simp at h1
  | cons x xs =>
    simp only [List.head?_cons, Option.some.injEq, List.length_cons, List.drop_succ_cons,
      List.drop_zero] at h1 h2
    rcases h1 with h1 | ⟨hl, h1⟩
    · subst h1
      have hw : (⟨sign_mark.none, ['0'], some xs, none⟩ : number_literal).well_formed = true := by
        simp [number_literal.well_formed, h2]
        decide
      have ht : (⟨sign_mark.none, ['0'], some xs, none⟩ : number_literal).text = '0' :: '.' :: xs := by
        simp [number_literal.text, sign_mark.text, number_literal.fraction_text,
          number_literal.exponent_text]
      rw [← ht, c_str_literal _ hw, strtod_length_literal_full _ hw]
    · have hxs : xs ≠ [] := by
        intro e; subst e; simp at hl
      have hw : ∀ cap : Bool, (⟨sign_mark.none, ['0'], none, some (cap, sign_mark.none, xs)⟩ :
          number_literal).well_formed = true := by
        intro cap
        simp [number_literal.well_formed, h2, hxs]
        decide
      rcases h1 with h1 | h1
      · subst h1
        have ht : (⟨sign_mark.none, ['0'], none, some (false, sign_mark.none, xs)⟩ :
            number_literal).text = '0' :: 'e' :: xs := by
          simp [number_literal.text, sign_mark.text, number_literal.fraction_text,
            number_literal.exponent_text]
        rw [← ht, c_str_literal _ (hw false), strtod_length_literal_full _ (hw false)]
      · subst h1
        have ht : (⟨sign_mark.none, ['0'], none, some (true, sign_mark.none, xs)⟩ :
            number_literal).text = '0' :: 'E' :: xs := by
          simp [number_literal.text, sign_mark.text, number_literal.fraction_text,
            number_literal.exponent_text]
        rw [← ht, c_str_literal _ (hw true), strtod_length_literal_full _ (hw true)]

theorem data_type_of_zero_text_no_colon (r : List Char) (hr : r ≠ [])
    (hz : ¬ ((r.head? = some '.' ∨ (r.length > 1 ∧ (r.head? = some 'e' ∨ r.head? = some 'E'))) ∧
      (r.drop 1).all isdigit = true))
    (hc : ':' ∉ '0' :: r) :
    data_type_for_value ('0' :: r) = .ok xlnt.value.type.string := by
  have hs : split_string ('0' :: r) ':' = ['0' :: r] := by
    unfold split_string
    rw [split_loop_no_delim ':' ('0' :: r) [] hc]
    simp
  rw [data_type_of_zero_text, if_neg hr, if_neg hz, hs]
  simp

/-- A number literal that begins with `0` and is none of `0`, `0.` followed by digits and `0e`
followed by digits is classified as a string. -/
theorem data_type_of_zero_literal (l : number_literal) (hw : l.well_formed = true)
    (h0 : l.text.head? = some '0') (hz : l.zero_form = false) :
    data_type_for_value l.text = .ok xlnt.value.type.string := by
  obtain ⟨hd1, hd2, hf, he⟩ := well_formed_parts l hw
  have hcol := literal_no_colon l hw
  obtain ⟨sg, ds, fr, ex⟩ := l
  simp only at hd1 hd2 hf he
  obtain ⟨d0, ds2, rfl⟩ := List.exists_cons_of_ne_nil hd1
  have hd0 : isdigit d0 = true := hd2 d0 (List.mem_cons_self _ _)
  have hsg : sg = sign_mark.none := by
    cases sg with
    | none => rfl
    | plus => simp [number_literal.text, sign_mark.text] at h0
    | minus => simp [number_literal.text, sign_mark.text] at h0
  subst hsg
  simp only [number_literal.text, sign_mark.text, List.nil_append, List.cons_append,
    List.head?_cons, Option.some.injEq] at h0 hcol ⊢
  subst h0
  cases ds2 with
  | cons d1 ds3 =>
    have hd1 : isdigit d1 = true := hd2 d1 (by simp)
    simp only [List.cons_append]
    apply data_type_of_leading_zero d1 _ hd1
    intro hm
    apply hcol
    simp only [List.cons_append, List.mem_cons]
    exact Or.inr (Or.inr hm)
  | nil =>
    simp only [List.nil_append] at hcol ⊢
    cases fr with
    | none =>
      cases ex with
      | none => simp [number_literal.zero_form] at hz
      | some e =>
        obtain ⟨cap, sg2, eds⟩ := e
        have hsg2 : sg2 ≠ sign_mark.none := by
          intro e
          subst e
          simp [number_literal.zero_form] at hz
        apply data_type_of_zero_text_no_colon _ _ _ hcol
        · simp [number_literal.fraction_text, number_literal.exponent_text]
        · rintro ⟨-, h2⟩
          cases sg2 with
          | none => exact hsg2 rfl
          | plus =>
            simp [number_literal.fraction_text, number_literal.exponent_text, sign_mark.text]
              at h2
            exact absurd h2.1 (by decide)
          | minus =>
            simp [number_literal.fraction_text, number_literal.exponent_text, sign_mark.text]
              at h2
            exact absurd h2.1 (by decide)
    | some f =>
      cases ex with
      | none => simp [number_literal.zero_form] at hz
      | some e =>
        obtain ⟨cap, sg2, eds⟩ := e
        apply data_type_of_zero_text_no_colon _ _ _ hcol
        · simp [number_literal.fraction_text, number_literal.exponent_text]
        · rintro ⟨-, h2⟩
          simp only [number_literal.fraction_text, number_literal.exponent_text,
            List.cons_append, List.drop_succ_cons, List.drop_zero, List.all_eq_true] at h2
          have := h2 (if cap = true then 'E' else 'e') (by simp)
          cases cap <;> simp at this <;> exact absurd this (by decide)

/-! ## Theorems -/

namespace xlnt

open detail

/-- C1: a cell is garbage-collectible exactly when the type of its value is `null`, it is not
merged, its comment text is empty and its formula text is empty; after `set_value(i)` with an
integer `i` it is never garbage-collectible. -/
theorem garbage_collectible_iff (d : cell_impl) :
    (cell.garbage_collectible d = true ↔
      (d.value_.get_type = value.type.null ∧ d.merged = false ∧ d.comment_.text = [] ∧
        d.formula_ = [])) ∧
    ∀ i : Int, cell.garbage_collectible (cell.set_value_int i d) = false := by
  constructor
  · cases hf : d.formula_ <;>
      simp [cell.garbage_collectible, cell.get_value, cell.is_merged, cell.has_comment,
        cell.has_formula, value.get_type, hf, and_assoc]
  · intro i
    simp [cell.garbage_collectible, cell.get_value, cell.set_value_int, value.from_int,
      value.get_type]

/-- C2 (the code at the failing input): with `guess_types` on, `set_value` of a text that
begins with `#` completes and stores the text with the discriminant `string`, not `error`. -/
theorem set_value_hash_text_stores_string (P : externals) (d : cell_impl) (rest : List Char) :
    (cell.set_value_string P true ('#' :: rest) d).thrown = none ∧
    (cell.set_value_string P true ('#' :: rest) d).cell.value_.get_type = value.type.string ∧
    (cell.set_value_string P true ('#' :: rest) d).cell.value_.string_value_ = '#' :: rest ∧
    (cell.set_value_string P true "#REF!".toList d).cell.value_.get_type ≠ value.type.error := by
  have h : ∀ r : List Char, data_type_for_value ('#' :: r) = .ok value.type.error := by
    intro r
    simp [data_type_for_value]
  have h2 : data_type_for_value "#REF!".toList = .ok value.type.error := h _
  rw [set_value_string_of_error P _ d (h rest), set_value_string_of_error P _ d h2]
  simp [value.from_string, value.get_type]

/-- C3 (the code at the failing input): with `guess_types` on, `set_value("12:30:00")`
completes, stores the text as a string and leaves the date flag cleared and the style as it
was. -/
theorem set_value_time_text_not_recognised (P : externals) (d : cell_impl) :
    (cell.set_value_string P true "12:30:00".toList d).thrown = none ∧
    (cell.set_value_string P true "12:30:00".toList d).cell.value_ =
      value.from_string "12:30:00".toList ∧
    (cell.set_value_string P true "12:30:00".toList d).cell.is_date_ = false ∧
    (cell.set_value_string P true "12:30:00".toList d).cell.style_ = d.style_ := by
  have h : data_type_for_value "12:30:00".toList = .ok value.type.string := by decide
  rw [set_value_string_of_string P _ d h]
  simp

/-- C4 (counterexample): `007` is a complete decimal number literal and is stored as the
string `007`; the empty text is no literal of any kind and is stored as a null value; `0:5abc`
is no number, error, boolean, time or percentage literal and is not stored as a string,
whatever the conversion of a text to a time does with it. -/
theorem leading_zeros_and_empty_text :
    (⟨sign_mark.none, "007".toList, none, none⟩ : number_literal).well_formed = true ∧
    (⟨sign_mark.none, "007".toList, none, none⟩ : number_literal).text = "007".toList ∧
    (cell.set_value_string ideal true "007".toList blank_cell).thrown = none ∧
    (cell.set_value_string ideal true "007".toList blank_cell).cell.value_ =
      value.from_string "007".toList ∧
    (cell.set_value_string ideal true [] blank_cell).cell.value_.get_type = value.type.null ∧
    (time_literal "0:5abc".toList = false ∧
      strtod_length (c_str "0:5abc".toList) ≠ (c_str "0:5abc".toList).length ∧
      "0:5abc".toList ∉ possible_booleans ∧
      "0:5abc".toList.head? ≠ some '#' ∧ "0:5abc".toList.getLast? ≠ some '%') ∧
    (cell.set_value_string ideal true "0:5abc".toList blank_cell).cell.value_.get_type =
      value.type.numeric ∧
    ¬ ∃ P : externals,
      (cell.set_value_string P true "0:5abc".toList blank_cell).cell.value_.get_type =
        value.type.string := by
  have h1 : data_type_for_value "007".toList = .ok value.type.string := by decide
  have h2 : data_type_for_value [] = .ok value.type.null := rfl
  have h3 : data_type_for_value "0:5abc".toList = .ok value.type.numeric := by decide
  rw [set_value_string_of_string _ _ _ h1, set_value_string_of_null _ _ _ h2]
  refine ⟨by decide, by decide, rfl, rfl, rfl, by decide, by decide, ?_⟩
  rintro ⟨P, hP⟩
  have hcol : ':' ∈ "0:5abc".toList := by decide
  simp only [cell.set_value_string, h3, hcol, if_true] at hP
  revert hP
  cases P.time_from_string "0:5abc".toList <;>
    simp [value.get_type, value.from_double, blank_cell, value.null]

/-- C4 (amended): with `guess_types` on,
(a) every complete decimal number literal that does not begin with `0`, or is `0`, `0.`
followed by digits, or `0e`/`0E` followed by digits, and that `std::stod` converts without a
range error, is stored as the numeric value `strtod` gives for it;
(b) every number literal that begins with `0` and is of another form, as `007` and `0.5e3`, is
stored as a string;
(c) every non-empty text that is no number (`strtod` does not accept it in its entirety), no
error (it does not begin with `#`), no boolean (none of the four spellings), no time literal
and no percentage (a text accepted by `strtod` followed by `%`) is stored as a string, unless
it begins with `0` and has two or three parts between colons of which the first that
`std::stoi` does not read as an `int` has digits at its head, or none is such;
(d) the empty text is stored as a null value.
In each case the call completes, clears the date flag and changes nothing else. -/
theorem number_text_numeric_other_text_string (P : externals) (d : cell_impl) :
    (∀ l : number_literal, l.well_formed = true →
      (l.text.head? ≠ some '0' ∨ l.zero_form = true) → P.strtod_erange l.text = false →
      cell.set_value_string P true l.text d =
        ⟨{ d with is_date_ := false, value_ := value.from_double (P.strtod_value l.text) },
          none⟩ ∧
      (cell.set_value_string P true l.text d).cell.value_ =
        ⟨value.type.numeric, P.strtod_value l.text, []⟩) ∧
    (∀ l : number_literal, l.well_formed = true → l.text.head? = some '0' →
      l.zero_form = false →
      cell.set_value_string P true l.text d =
        ⟨{ d with is_date_ := false, value_ := ⟨value.type.string, .finite 0, l.text⟩ },
          none⟩) ∧
    (∀ s : List Char, s ≠ [] → s.head? ≠ some '#' →
      strtod_length (c_str s) ≠ (c_str s).length →
      s ∉ ["TRUE".toList, "true".toList, "FALSE".toList, "false".toList] →
      ¬ (s.getLast? = some '%' ∧
          strtod_length (c_str s.dropLast) = (c_str s.dropLast).length) →
      time_literal s = false →
      (s.head? = some '0' →
        ((split_string s ':').length = 2 ∨ (split_string s ':').length = 3) →
        ∃ pre p post, split_string s ':' = pre ++ p :: post ∧ pre.all reads_as_int = true ∧
          stoi p = .error exception.invalid_argument) →
      cell.set_value_string P true s d =
        ⟨{ d with is_date_ := false, value_ := ⟨value.type.string, .finite 0, s⟩ }, none⟩) ∧
    (∀ (c : Char) (r : List Char), isdigit c = true → ':' ∉ r →
      cell.set_value_string P true ('0' :: c :: r) d =
        ⟨{ d with is_date_ := false, value_ := value.from_string ('0' :: c :: r) }, none⟩) ∧
    (cell.set_value_string P true [] d =
        ⟨{ d with is_date_ := false, value_ := value.null }, none⟩ ∧
      (cell.set_value_string P true [] d).cell.value_.type_ = value.type.null) := by
  refine ⟨?_, ?_, ?_, ?_, ?_⟩
  · intro l hw h he
    have hx := set_value_string_plain P l.text d _ (data_type_literal l hw h)
      (literal_no_colon l hw) (literal_last_not_percent l hw) (stod_literal P l hw he)
    refine ⟨hx, ?_⟩
    rw [hx]
    rfl
  · intro l hw h0 hz
    rw [set_value_string_of_string P _ d (data_type_of_zero_literal l hw h0 hz)]
    rfl
  · intro s hne hs hnf hb hp _ ht
    by_cases h0 : s.head? = some '0'
    · obtain ⟨c0, r, rfl⟩ := List.exists_cons_of_ne_nil hne
      simp only [List.head?_cons, Option.some.injEq] at h0
      subst h0
      have hd : data_type_for_value ('0' :: r) = .ok value.type.string := by
        rw [data_type_of_zero_text]
        have hr : r ≠ [] := by
          intro e
          subst e
          exact hnf (by decide)
        rw [if_neg hr, if_neg (fun hz => hnf (strtod_length_of_zero_text r hz))]
        by_cases hl : (split_string ('0' :: r) ':').length = 2 ∨
            (split_string ('0' :: r) ':').length = 3
        · obtain ⟨pre, p, post, e1, e2, e3⟩ := ht rfl hl
          rw [if_pos hl, e1]
          exact classify_parts_string_of_part pre p post e2 e3
        · rw [if_neg hl]
      rw [set_value_string_of_string P _ d hd]
      rfl
    · rw [set_value_string_of_string P s d (data_type_of_other s hne h0 hs hnf hb hp)]
      rfl
  · intro c r hc hr
    exact set_value_string_of_string P _ d (data_type_of_leading_zero c r hc hr)
  · rw [set_value_string_of_null P [] d rfl]
    exact ⟨rfl, rfl⟩

/-- C4 (amended) at concrete inputs: `12.5` is stored as the number 25/2, `abc` and `0abc` as
strings. -/
theorem number_text_numeric_other_text_string_witness :
    cell.set_value_string ideal true "12.5".toList blank_cell =
      ⟨{ blank_cell with value_ := value.from_double (.finite (25 / 2)) }, none⟩ ∧
    cell.set_value_string ideal true "abc".toList blank_cell =
      ⟨{ blank_cell with value_ := ⟨value.type.string, .finite 0, "abc".toList⟩ }, none⟩ ∧
    cell.set_value_string ideal true "0abc".toList blank_cell =
      ⟨{ blank_cell with value_ := ⟨value.type.string, .finite 0, "0abc".toList⟩ }, none⟩ := by
  have hv : ideal.strtod_value "12.5".toList = .finite (25 / 2) := by
    have hp : decimal_parts "12.5".toList = (false, 125, 1, 0) := by decide
    simp only [ideal, decimal_value, hp]
    norm_num
  have h := ((number_text_numeric_other_text_string ideal blank_cell).1
    ⟨sign_mark.none, "12".toList, some "5".toList, none⟩ (by decide) (Or.inl (by decide)) rfl).1
  rw [← hv]
  exact ⟨h, (number_text_numeric_other_text_string ideal blank_cell).2.2.1 "abc".toList
    (by decide) (by decide) (by decide) (by decide) (by decide) (by decide)
    (fun h0 => absurd h0 (by decide)),
    (number_text_numeric_other_text_string ideal blank_cell).2.2.1 "0abc".toList
    (by decide) (by decide) (by decide) (by decide) (by decide) (by decide)
    (fun _ hl => absurd hl (by decide))⟩

/-- C5 (counterexample): `05%` is a number literal followed by one `%` and is stored as the
string `05%`, leading zero and all; so is `0.5%`. -/
theorem percent_of_leading_zero_is_string :
    (⟨sign_mark.none, "05".toList, none, none⟩ : number_literal).well_formed = true ∧
    (⟨sign_mark.none, "05".toList, none, none⟩ : number_literal).text ++ ['%'] =
      "05%".toList ∧
    (cell.set_value_string ideal true "05%".toList blank_cell).thrown = none ∧
    (cell.set_value_string ideal true "05%".toList blank_cell).cell.value_ =
      value.from_string "05%".toList ∧
    (cell.set_value_string ideal true "0.5%".toList blank_cell).cell.value_ =
      value.from_string "0.5%".toList := by
  have h1 : data_type_for_value "05%".toList = .ok value.type.string := by decide
  have h2 : data_type_for_value "0.5%".toList = .ok value.type.string := by decide
  rw [set_value_string_of_string _ _ _ h1, set_value_string_of_string _ _ _ h2]
  exact ⟨by decide, by decide, rfl, rfl, rfl⟩

/-- C5 (amended): with `guess_types` on, for every text made of a decimal number literal that
does not begin with `0` and that `std::stod` converts without a range error, followed by a
single `%`, `set_value` completes and stores the numeric value of the literal divided by 100
and tags the style as a percentage. -/
theorem percent_text_stored_as_hundredth (P : externals) (d : cell_impl) (l : number_literal)
    (hw : l.well_formed = true) (h0 : l.text.head? ≠ some '0')
    (he : P.strtod_erange l.text = false) :
    cell.set_value_string P true (l.text ++ ['%']) d =
      ⟨{ d with is_date_ := false,
                value_ := value.from_double (P.divide (P.strtod_value l.text) (.finite 100)),
                style_ := some ⟨number_format.format.percentage⟩ }, none⟩ := by
  apply set_value_string_percent P _ d _ (data_type_literal_percent l hw h0)
  · intro h
    simp only [List.mem_append, List.mem_singleton] at h
    rcases h with h | h
    · exact literal_no_colon l hw h
    · exact absurd h (by decide)
  · simp
  · rw [List.dropLast_concat]
    exact stod_literal P l hw he

/-- C5 (amended) at a concrete input: `10%` is stored as the number 1/10. -/
theorem percent_text_stored_as_hundredth_witness :
    cell.set_value_string ideal true "10%".toList blank_cell =
      ⟨{ blank_cell with value_ := value.from_double (.finite (1 / 10)),
                         style_ := some ⟨number_format.format.percentage⟩ }, none⟩ := by
  have hv : ideal.divide (ideal.strtod_value "10".toList) (.finite 100) = .finite (1 / 10) := by
    have hp : decimal_parts "10".toList = (false, 10, 0, 0) := by decide
    simp only [ideal, decimal_value, hp]
    norm_num
  have h := percent_text_stored_as_hundredth ideal blank_cell
    ⟨sign_mark.none, "10".toList, none, none⟩ (by decide) (by decide) rfl
  rw [← hv]
  exact h

/-- C6: with `guess_types` on, `set_value(text)` stores a boolean value if and only if the
text is exactly one of `TRUE`, `true`, `FALSE`, `false`; the stored boolean is true (the
number 1, equal to `true` and read back as `true`) exactly for `TRUE` and `true`, and false
(the number 0) for `FALSE` and `false`; every other casing of the two words is stored as a
string with the text as it was given. -/
theorem boolean_stored_iff_exact_spelling (P : externals) (d : cell_impl) (s : List Char) :
    (((cell.set_value_string P true s d).thrown = none ∧
        (cell.set_value_string P true s d).cell.value_.get_type = value.type.boolean) ↔
      s ∈ ["TRUE".toList, "true".toList, "FALSE".toList, "false".toList]) ∧
    (s ∈ ["TRUE".toList, "true".toList, "FALSE".toList, "false".toList] →
      (cell.set_value_string P true s d).cell.value_ =
        value.from_bool (decide (s = "TRUE".toList ∨ s = "true".toList))) ∧
    (s = "TRUE".toList ∨ s = "true".toList →
      cell.set_value_string P true s d =
        ⟨{ d with is_date_ := false, value_ := ⟨value.type.boolean, .finite 1, []⟩ }, none⟩ ∧
      (cell.set_value_string P true s d).cell.value_.as_bool = .ok true ∧
      (cell.set_value_string P true s d).cell.value_.eq_bool true = true ∧
      (cell.set_value_string P true s d).cell.value_.eq_bool false = false) ∧
    (s = "FALSE".toList ∨ s = "false".toList →
      cell.set_value_string P true s d =
        ⟨{ d with is_date_ := false, value_ := ⟨value.type.boolean, .finite 0, []⟩ }, none⟩ ∧
      (cell.set_value_string P true s d).cell.value_.as_bool = .ok false ∧
      (cell.set_value_string P true s d).cell.value_.eq_bool false = true ∧
      (cell.set_value_string P true s d).cell.value_.eq_bool true = false) ∧
    (((cell.set_value_string P true s d).thrown = none ∧
        (cell.set_value_string P true s d).cell.value_.as_bool = .ok true ∧
        (cell.set_value_string P true s d).cell.value_.get_type = value.type.boolean) ↔
      (s = "TRUE".toList ∨ s = "true".toList)) ∧
    (s ∈ casings "true".toList ++ casings "false".toList →
      s ∉ ["TRUE".toList, "true".toList, "FALSE".toList, "false".toList] →
      (cell.set_value_string P true s d).thrown = none ∧
        (cell.set_value_string P true s d).cell.value_ = value.from_string s ∧
        (cell.set_value_string P true s d).cell.value_.type_ = value.type.string ∧
        (cell.set_value_string P true s d).cell.value_.string_value_ = s) := by
  have hb := data_type_boolean_iff s
  have hiff : ((cell.set_value_string P true s d).thrown = none ∧
        (cell.set_value_string P true s d).cell.value_.get_type = value.type.boolean) ↔
      s ∈ ["TRUE".toList, "true".toList, "FALSE".toList, "false".toList] := by
    constructor
    · rintro ⟨h1, h2⟩
      apply hb.mp
      cases hc : data_type_for_value s with
      | error e => rw [set_value_string_of_throw P s d e hc] at h1; simp at h1
      | ok t =>
        cases t with
        | boolean => rfl
        | null =>
          rw [set_value_string_of_null P s d hc] at h2
          simp [value.get_type, value.null] at h2
        | string =>
          rw [set_value_string_of_string P s d hc] at h2
          simp [value.get_type, value.from_string] at h2
        | error =>
          rw [set_value_string_of_error P s d hc] at h2
          simp [value.get_type, value.from_string] at h2
        | numeric =>
          rcases set_value_string_of_numeric P s d hc with h | h
          · exact absurd h1 h
          · rw [value.get_type, h] at h2; simp at h2
    · intro h
      rw [set_value_string_of_boolean P s d (hb.mpr h)]
      simp [value.get_type, value.from_bool]
  have htrue : s = "TRUE".toList ∨ s = "true".toList →
      cell.set_value_string P true s d =
        ⟨{ d with is_date_ := false, value_ := ⟨value.type.boolean, .finite 1, []⟩ }, none⟩ := by
    intro h
    have hm : s ∈ ["TRUE".toList, "true".toList, "FALSE".toList, "false".toList] := by
      rcases h with h | h <;> subst h <;> decide
    rw [set_value_string_of_boolean P s d (hb.mpr hm)]
    simp only [value.from_bool, decide_eq_true h, if_true]
  have hfalse : s = "FALSE".toList ∨ s = "false".toList →
      cell.set_value_string P true s d =
        ⟨{ d with is_date_ := false, value_ := ⟨value.type.boolean, .finite 0, []⟩ }, none⟩ := by
    intro h
    have hm : s ∈ ["TRUE".toList, "true".toList, "FALSE".toList, "false".toList] := by
      rcases h with h | h <;> subst h <;> decide
    have hn : ¬ (s = "TRUE".toList ∨ s = "true".toList) := by
      rcases h with h | h <;> subst h <;> decide
    rw [set_value_string_of_boolean P s d (hb.mpr hm)]
    simp only [value.from_bool, decide_eq_false hn]
    rfl
  have hone : flt.ne (.finite 1) (.finite 0) = true := by
    simp [flt.ne, flt.eq]
  have hzero : flt.ne (.finite 0) (.finite 0) = false := by
    simp [flt.ne, flt.eq]
  refine ⟨hiff, ?_, ?_, ?_, ?_, ?_⟩
  · intro h
    rw [set_value_string_of_boolean P s d (hb.mpr h)]
  · intro h
    rw [htrue h]
    simp [value.as_bool, value.eq_bool, hone]
  · intro h
    rw [hfalse h]
    simp [value.as_bool, value.eq_bool, hzero]
  · constructor
    · rintro ⟨h1, h2, h3⟩
      have hm := hiff.mp ⟨h1, h3⟩
      by_contra hn
      have hf : s = "FALSE".toList ∨ s = "false".toList := by
        simp only [List.mem_cons, List.mem_singleton, List.not_mem_nil, or_false] at hm
        tauto
      rw [hfalse hf] at h2
      simp [value.as_bool, hzero] at h2
    · intro h
      rw [htrue h]
      simp [value.as_bool, value.get_type, hone]
  · intro h1 h2
    have key : ∀ t ∈ casings "true".toList ++ casings "false".toList,
        t ∉ ["TRUE".toList, "true".toList, "FALSE".toList, "false".toList] →
        data_type_for_value t = .ok value.type.string := by decide
    rw [set_value_string_of_string P s d (key s h1 h2)]
    simp [value.from_string]

/-- C6 at concrete inputs: `True` is one of the other casings and is stored as a string. -/
theorem boolean_stored_iff_exact_spelling_witness :
    (cell.set_value_string ideal true "True".toList blank_cell).thrown = none ∧
      (cell.set_value_string ideal true "True".toList blank_cell).cell.value_ =
        value.from_string "True".toList :=
  ⟨((boolean_stored_iff_exact_spelling ideal blank_cell "True".toList).2.2.2.2.2
      (by decide) (by decide)).1,
    ((boolean_stored_iff_exact_spelling ideal blank_cell "True".toList).2.2.2.2.2
      (by decide) (by decide)).2.1⟩

/-- C7: with `guess_types` off, `set_value(text)` completes for every text and stores it
verbatim as a string; the date flag is cleared and nothing else of the cell changes. -/
theorem guess_types_off_stores_text_verbatim (P : externals) (d : cell_impl) (s : List Char) :
    (cell.set_value_string P false s d).thrown = none ∧
    (cell.set_value_string P false s d).cell.value_.get_type = value.type.string ∧
    (cell.set_value_string P false s d).cell.value_.string_value_ = s ∧
    (cell.set_value_string P false s d).cell =
      { d with value_ := value.from_string s, is_date_ := false } := by
  rw [set_value_string_guess_off]
  simp [value.get_type, value.from_string]

/-- C8 (the code at the failing input): on a cell whose date flag is set, `set_value("%")`
fails with `invalid_argument` and leaves the cell with `is_date()` false. -/
theorem failed_set_value_clears_date_flag :
    (cell.set_value_string ideal true "%".toList { blank_cell with is_date_ := true }).thrown =
      some exception.invalid_argument ∧
    cell.is_date { blank_cell with is_date_ := true } = true ∧
    cell.is_date
      (cell.set_value_string ideal true "%".toList { blank_cell with is_date_ := true }).cell =
        false := by
  decide

/-- X1: a failing `set_value(text)` leaves the value, and every member of the cell other than
the date flag, as before the call; the date flag has been overwritten: it is set when the
failure is in the conversion of a time text and cleared on every other failure. -/
theorem failed_set_value_keeps_all_but_date_flag (P : externals) (guess_types : Bool)
    (s : List Char) (d : cell_impl)
    (h : (cell.set_value_string P guess_types s d).thrown ≠ none) :
    (cell.set_value_string P guess_types s d).cell.value_ = d.value_ ∧
    (cell.set_value_string P guess_types s d).cell =
      { d with is_date_ := (cell.set_value_string P guess_types s d).cell.is_date_ } ∧
    ((cell.set_value_string P guess_types s d).cell.is_date_ = true ↔
      (data_type_for_value s = .ok value.type.numeric ∧ ':' ∈ s)) := by
  cases guess_types with
  | false => rw [set_value_string_guess_off] at h; simp at h
  | true =>
    cases hc : data_type_for_value s with
    | error e => rw [set_value_string_of_throw P s d e hc]; simp
    | ok t =>
      cases t with
      | boolean => rw [set_value_string_of_boolean P s d hc] at h; simp at h
      | null => rw [set_value_string_of_null P s d hc] at h; simp at h
      | string => rw [set_value_string_of_string P s d hc] at h; simp at h
      | error => rw [set_value_string_of_error P s d hc] at h; simp at h
      | numeric =>
        simp only [cell.set_value_string, hc] at h ⊢
        split_ifs at h ⊢ with h1 h2 h3 <;> (try simp at h1) <;> split at h <;>
          simp_all

/-- X1 at a concrete input: `set_value("0:99999999999")` fails in the classification and the
value is the one the cell had. -/
theorem failed_set_value_keeps_all_but_date_flag_witness :
    (cell.set_value_string ideal true "0:99999999999".toList blank_cell).thrown =
      some exception.out_of_range ∧
    (cell.set_value_string ideal true "0:99999999999".toList blank_cell).cell.value_ =
      blank_cell.value_ :=
  ⟨by decide,
    (failed_set_value_keeps_all_but_date_flag ideal true "0:99999999999".toList blank_cell
      (by decide)).1⟩

/-- C9 (counterexample): the text coercion of `value(5)` is `5.000000`, which is not the plain
decimal representation `5`. -/
theorem as_string_of_five :
    value.as_string ideal (value.from_int 5) = "5.000000".toList ∧
    value.as_string ideal (value.from_int 5) ≠ (toString (5 : Int)).toList := by
  have h : value.as_string ideal (value.from_int 5) = "5.000000".toList := by
    simp only [value.as_string, value.to_string, value.from_int]
    rw [std_to_string_intCast]
    decide
  rw [h]
  exact ⟨rfl, by decide⟩

/-- C9 (amended): for every integer `n`, the text coercion of the numeric value constructed
from `n` is the plain decimal representation of `n` followed by a point and six zeros. -/
theorem as_string_of_int (P : externals) (n : Int) :
    value.as_string P (value.from_int n) = (toString n).toList ++ ".000000".toList := by
  simp only [value.as_string, value.to_string, value.from_int]
  rw [std_to_string_intCast, toString_int_toList]

/-- C10 (counterexample): the value constructed from the text `#DIV/0!` has the type
`string`, not `error`. -/
theorem value_from_error_text_is_string :
    (value.from_string "#DIV/0!".toList).get_type = value.type.string ∧
    (value.from_string "#DIV/0!".toList).get_type ≠ value.type.error := by
  decide

/-- C10 (amended): constructing a value from a text, an error-code text included, yields a
value of type `string` that holds the text; a value of type `error` holding the text is what
the factory `value::error` yields. -/
theorem value_from_text_type (s : List Char) :
    (value.from_string s).get_type = value.type.string ∧
    (value.from_string s).string_value_ = s ∧
    (value.error s).get_type = value.type.error ∧
    (value.error s).string_value_ = s := by
  simp [value.from_string, value.error, value.get_type]

end xlnt

/-! ## Facts for the coercions and the hyperlink -/

theorem takeWhile_eq_nil_iff_head (p : Char → Bool) (l : List Char) :
    l.takeWhile p = [] ↔ ∀ c, l.head? = some c → p c = false := by
  cases l with
  | nil => simp
  | cons x xs =>
    by_cases h : p x = true <;> simp [List.takeWhile, h]

theorem stoi_invalid_iff (s : List Char) :
    stoi s = .error exception.invalid_argument ↔
      ∀ c, (after_space_and_sign s).head? = some c → isdigit c = false := by
  rw [← takeWhile_eq_nil_iff_head]
  unfold stoi after_space_and_sign
  by_cases h : (List.takeWhile isdigit (strip_sign (List.dropWhile isspace (c_str s))).2) = []
  · simp [h]
  · simp only [h, iff_false]
    have h2 : (List.takeWhile isdigit
        (strip_sign (List.dropWhile isspace (c_str s))).2).isEmpty = false := by
      simpa using h
    rw [h2, if_neg (by simp)]
    split_ifs <;> simp

theorem strip_sign_of_digit (c : Char) (r : List Char) (h : isdigit c = true) :
    strip_sign (c :: r) = (false, c :: r) := by
  unfold strip_sign
  split
  · rename_i heq
    cases heq
    exact absurd h (by decide)
  · rename_i heq
    cases heq
    exact absurd h (by decide)
  · rfl

theorem c_str_append_of_no_nul (a b : List Char) (h : ∀ c ∈ a, c.toNat ≠ 0) :
    c_str (a ++ b) = a ++ c_str b := by
  unfold c_str
  exact List.takeWhile_append_of_pos (fun c hc => by simpa using h c hc)

theorem c_str_head (b : List Char) (c : Char) (h : (c_str b).head? = some c) :
    b.head? = some c := by
  cases b with
  | nil => simp [c_str] at h
  | cons x xs =>
    by_cases hx : x.toNat = 0
    · simp [c_str, List.takeWhile, hx] at h
    · simp [c_str, List.takeWhile, hx] at h
      simp [h]

theorem digit_not_nul (c : Char) (h : isdigit c = true) : c.toNat ≠ 0 := by
  simp only [isdigit, Bool.and_eq_true, decide_eq_true_eq] at h
  omega

/-- The function `std::stoi` reads the digits at the head of a text and ignores what follows. -/
theorem stoi_digits_head (ds rest : List Char) (hne : ds ≠ [])
    (hd : ∀ c ∈ ds, isdigit c = true) (hr : ∀ c, rest.head? = some c → isdigit c = false)
    (hv : digits_value 0 ds ≤ 2147483647) :
    stoi (ds ++ rest) = .ok (digits_value 0 ds : Int) := by
  obtain ⟨d, ds2, rfl⟩ := List.exists_cons_of_ne_nil hne
  have hdd : isdigit d = true := hd d (List.mem_cons_self _ _)
  have hc : c_str (d :: ds2 ++ rest) = d :: ds2 ++ c_str rest :=
    c_str_append_of_no_nul _ _ (fun c hc => digit_not_nul c (hd c hc))
  have hsp : List.dropWhile isspace (d :: ds2 ++ c_str rest) = d :: ds2 ++ c_str rest := by
    simp [List.dropWhile, isspace_of_digit d hdd]
  have hss : strip_sign (d :: ds2 ++ c_str rest) = (false, d :: ds2 ++ c_str rest) :=
    strip_sign_of_digit d _ hdd
  have htw : List.takeWhile isdigit (d :: ds2 ++ c_str rest) = d :: ds2 :=
    takeWhile_append_stop isdigit (d :: ds2) (c_str rest) hd
      (fun c h => hr c (c_str_head rest c h))
  unfold stoi
  rw [hc, hsp, hss]
  simp only [htw]
  have h1 : ¬ ((digits_value 0 (d :: ds2) : Int) < -2147483648) := by
    have : (0 : Int) ≤ (digits_value 0 (d :: ds2) : Int) := Int.ofNat_nonneg _
    omega
  have h2 : ¬ ((2147483647 : Int) < (digits_value 0 (d :: ds2) : Int)) := by
    have : ((digits_value 0 (d :: ds2) : Nat) : Int) ≤ 2147483647 := by exact_mod_cast hv
    omega
  simp [h1, h2]

theorem skip_sign_of_other (c : Char) (r : List Char) (h1 : c ≠ '-') (h2 : c ≠ '+') :
    skip_sign (c :: r) = (0, c :: r) := by
  unfold skip_sign
  split
  · rename_i heq; cases heq; exact absurd rfl h1
  · rename_i heq; cases heq; exact absurd rfl h2
  · rfl

theorem starts_with_nocase_head (w0 : Char) (w l : List Char) (c : Char)
    (h : tolower c ≠ w0) : starts_with_nocase (w0 :: w) (c :: l) = false := by
  simp only [starts_with_nocase, List.length_cons, List.take_succ_cons, List.map_cons,
    decide_eq_false_iff_not]
  intro he
  injection he with h1 _
  exact h h1

/-- The scanner `strtod` finds no number in a text that begins with a character no number
begins with. -/
theorem strtod_length_of_other_head (c : Char) (r : List Char)
    (h : starts_number c = false) : strtod_length (c :: r) = 0 := by
  simp only [starts_number, Bool.or_eq_false_iff, decide_eq_false_iff_not] at h
  obtain ⟨⟨⟨⟨⟨⟨hsp, hplus⟩, hminus⟩, hdig⟩, hpoint⟩, hi⟩, hn⟩ := h
  have hzero : c ≠ '0' := by
    intro e; subst e; exact absurd hdig (by decide)
  have hhex : hex_length (c :: r) = 0 := by
    unfold hex_length
    split
    · rename_i heq; cases heq; exact absurd rfl hzero
    · rfl
  have hpd : point_digits isdigit (c :: r) = none := by
    unfold point_digits
    split
    · rename_i heq; cases heq; exact absurd rfl hpoint
    · rfl
  have hm : mantissa_length isdigit 'e' 'E' (c :: r) = 0 := by
    unfold mantissa_length
    simp [span_length_of_head isdigit c r hdig, hpd]
  have hnum : number_length (c :: r) = 0 := by
    unfold number_length
    rw [hhex, hm]
    simp [starts_with_nocase_head _ _ _ c hi, starts_with_nocase_head _ _ _ c hn]
  unfold strtod_length
  simp [span_length_of_head isspace c r hsp, skip_sign_of_other c r hminus hplus, hnum]

theorem c_str_cons_of_no_nul (c : Char) (r : List Char) (h : c.toNat ≠ 0) :
    c_str (c :: r) = c :: c_str r := by
  simp [c_str, List.takeWhile, h]

/-- A text with a colon that begins with a character no number begins with is classified as a
string or, after `#`, as an error. -/
theorem data_type_of_text_with_colon (c : Char) (r : List Char)
    (h : starts_number c = false) (hn : c.toNat ≠ 0) (hcol : ':' ∈ c :: r) :
    data_type_for_value (c :: r) = .ok xlnt.value.type.string ∨
      data_type_for_value (c :: r) = .ok xlnt.value.type.error := by
  have hzero : c ≠ '0' := by
    intro e; subst e; exact absurd h (by decide)
  by_cases hs : c = '#'
  · right
    subst hs
    simp [data_type_for_value]
  · left
    have hnf : strtod_length (c_str (c :: r)) ≠ (c_str (c :: r)).length := by
      rw [c_str_cons_of_no_nul c r hn, strtod_length_of_other_head c _ h]
      simp
    apply data_type_of_other (c :: r) (by simp) (by simpa using hzero) (by simpa using hs) hnf
    · intro hb
      simp only [possible_booleans, List.mem_cons, List.mem_singleton, List.mem_nil_iff,
        or_false] at hb
      rcases hb with hb | hb | hb | hb <;> rw [hb] at hcol <;> exact absurd hcol (by decide)
    · rintro ⟨hl, hp⟩
      cases r with
      | nil =>
        simp only [List.mem_singleton] at hcol
        subst hcol
        exact absurd hl (by decide)
      | cons y ys =>
        rw [List.dropLast_cons₂, c_str_cons_of_no_nul c _ hn,
          strtod_length_of_other_head c _ h] at hp
        simp at hp

/-! ## `std::stoi` on signed texts, and texts with a colon -/

namespace xlnt

open detail

theorem isspace_not_nul (c : Char) (h : isspace c = true) : c.toNat ≠ 0 := by
  simp only [isspace, Bool.or_eq_true, Bool.and_eq_true, decide_eq_true_eq] at h
  omega

theorem sign_text_facts (sg : sign_mark) :
    (∀ c ∈ sg.text, c.toNat ≠ 0) ∧ (∀ c ∈ sg.text, isspace c = false) ∧
    (∀ r : List Char, (∀ c, r.head? = some c → isdigit c = true) → r ≠ [] →
      strip_sign (sg.text ++ r) = (decide (sg = sign_mark.minus), r)) := by
  cases sg
  · refine ⟨by simp [sign_mark.text], by simp [sign_mark.text], ?_⟩
    intro r hr hne
    obtain ⟨c, cs, rfl⟩ := List.exists_cons_of_ne_nil hne
    simp only [sign_mark.text, List.nil_append]
    rw [strip_sign_of_digit c cs (hr c rfl)]
    simp
  · refine ⟨by simp [sign_mark.text], by simp [sign_mark.text]; decide, ?_⟩
    intro r _ _
    simp [sign_mark.text, strip_sign]
  · refine ⟨by simp [sign_mark.text], by simp [sign_mark.text]; decide, ?_⟩
    intro r _ _
    simp [sign_mark.text, strip_sign]

/-- The function `std::stoi` on a text made of white space, a sign, digits and a rest that
does not begin with a digit. -/
theorem stoi_signed_digits (ws : List Char) (sg : sign_mark) (ds rest : List Char)
    (hws : ∀ c ∈ ws, isspace c = true) (hne : ds ≠ [])
    (hd : ∀ c ∈ ds, isdigit c = true) (hr : ∀ c, rest.head? = some c → isdigit c = false) :
    stoi (ws ++ (sg.text ++ (ds ++ rest))) =
      if (if sg = sign_mark.minus then -(digits_value 0 ds : Int) else (digits_value 0 ds : Int))
            < -2147483648 ∨
          2147483647 <
            (if sg = sign_mark.minus then -(digits_value 0 ds : Int) else (digits_value 0 ds : Int))
      then .error exception.out_of_range
      else .ok (if sg = sign_mark.minus then -(digits_value 0 ds : Int)
        else (digits_value 0 ds : Int)) := by
  obtain ⟨h1, h2, h3⟩ := sign_text_facts sg
  obtain ⟨d, ds2, rfl⟩ := List.exists_cons_of_ne_nil hne
  have hdd : isdigit d = true := hd d (List.mem_cons_self _ _)
  have hc : c_str (ws ++ (sg.text ++ (d :: ds2 ++ rest))) =
      ws ++ (sg.text ++ (d :: ds2 ++ c_str rest)) := by
    rw [c_str_append_of_no_nul ws _ (fun c hc => isspace_not_nul c (hws c hc)),
      c_str_append_of_no_nul sg.text _ h1,
      c_str_append_of_no_nul (d :: ds2) _ (fun c hc => digit_not_nul c (hd c hc))]
  have hsp : List.dropWhile isspace (ws ++ (sg.text ++ (d :: ds2 ++ c_str rest))) =
      sg.text ++ (d :: ds2 ++ c_str rest) := by
    rw [List.dropWhile_append_of_pos hws]
    cases hsg : sg.text with
    | nil => simp [List.dropWhile, isspace_of_digit d hdd]
    | cons x xs =>
      have : isspace x = false := h2 x (by rw [hsg]; exact List.mem_cons_self _ _)
      simp [List.dropWhile, this]
  have hss := h3 (d :: ds2 ++ c_str rest) (by intro c hc; simp at hc; rw [← hc]; exact hdd)
    (by simp)
  have htw : List.takeWhile isdigit (d :: ds2 ++ c_str rest) = d :: ds2 :=
    takeWhile_append_stop isdigit (d :: ds2) (c_str rest) hd
      (fun c h => hr c (c_str_head rest c h))
  unfold stoi
  rw [hc, hsp, hss]
  simp only [htw]
  by_cases hm : sg = sign_mark.minus <;> simp [hm]

/-- Every text with a digit after its white space and sign is made of white space, a sign,
digits and a rest that does not begin with a digit. -/
theorem digit_head_decomposition (s : List Char)
    (h : ∃ c, (after_space_and_sign s).head? = some c ∧ isdigit c = true) :
    ∃ (ws : List Char) (sg : sign_mark) (ds rest : List Char),
      s = ws ++ (sg.text ++ (ds ++ rest)) ∧ (∀ c ∈ ws, isspace c = true) ∧ ds ≠ [] ∧
      (∀ c ∈ ds, isdigit c = true) ∧ (∀ c, rest.head? = some c → isdigit c = false) := by
  obtain ⟨c, hc, hcd⟩ := h
  have e1 : s = c_str s ++ s.dropWhile (fun c => c.toNat ≠ 0) := by
    unfold c_str
    exact (List.takeWhile_append_dropWhile _ _).symm
  have e2 : c_str s = (c_str s).takeWhile isspace ++ (c_str s).dropWhile isspace :=
    (List.takeWhile_append_dropWhile _ _).symm
  obtain ⟨t1, ht1⟩ : ∃ t1, t1 = (c_str s).dropWhile isspace := ⟨_, rfl⟩
  have e3 : ∃ sg : sign_mark, t1 = sg.text ++ (strip_sign t1).2 := by
    cases t1 with
    | nil => exact ⟨sign_mark.none, rfl⟩
    | cons x xs =>
      by_cases hx1 : x = '-'
      · subst hx1; exact ⟨sign_mark.minus, rfl⟩
      by_cases hx2 : x = '+'
      · subst hx2; exact ⟨sign_mark.plus, rfl⟩
      refine ⟨sign_mark.none, ?_⟩
      have : strip_sign (x :: xs) = (false, x :: xs) := by
        unfold strip_sign
        split
        · rename_i heq; cases heq; exact absurd rfl hx1
        · rename_i heq; cases heq; exact absurd rfl hx2
        · rfl
      rw [this]
      rfl
  obtain ⟨sg, hsg⟩ := e3
  obtain ⟨t2, ht2⟩ : ∃ t2, t2 = (strip_sign t1).2 := ⟨_, rfl⟩
  have hc2 : t2.head? = some c := by
    rw [ht2, ht1]
    exact hc
  have e4 : t2 = t2.takeWhile isdigit ++ t2.dropWhile isdigit :=
    (List.takeWhile_append_dropWhile _ _).symm
  refine ⟨(c_str s).takeWhile isspace, sg, t2.takeWhile isdigit,
    t2.dropWhile isdigit ++ s.dropWhile (fun c => c.toNat ≠ 0), ?_, ?_, ?_, ?_, ?_⟩
  · rw [← List.append_assoc (t2.takeWhile isdigit), ← e4, ← List.append_assoc sg.text, ht2,
      ← hsg, ← List.append_assoc, ht1, ← e2]
    exact e1
  · intro x hx
    exact (List.mem_takeWhile_imp hx)
  · intro hnil
    have := (takeWhile_eq_nil_iff_head isdigit t2).mp hnil c hc2
    rw [hcd] at this
    cases this
  · intro x hx
    exact (List.mem_takeWhile_imp hx)
  · intro x hx
    cases hdw : t2.dropWhile isdigit with
    | nil =>
      rw [hdw, List.nil_append] at hx
      cases hu : s.dropWhile (fun c => c.toNat ≠ 0) with
      | nil => rw [hu] at hx; cases hx
      | cons y ys =>
        rw [hu] at hx
        simp only [List.head?_cons, Option.some.injEq] at hx
        subst hx
        have hy := List.head_dropWhile_not (fun c => decide (c.toNat ≠ 0)) s
          (by rw [hu]; simp)
        simp only [hu, List.head_cons] at hy
        by_contra hdig
        have := digit_not_nul y (by simpa using hdig)
        simp [this] at hy
    | cons y ys =>
      rw [hdw, List.cons_append] at hx
      simp only [List.head?_cons, Option.some.injEq] at hx
      subst hx
      have hy := List.head_dropWhile_not isdigit t2 (by rw [hdw]; simp)
      simp only [hdw, List.head_cons] at hy
      simpa using hy

end xlnt

theorem colon_free_zero (s : List Char) : colon_free 0 s := by
  intro c hc
  simp at hc

theorem colon_free_add (n m : Nat) (s : List Char) (h1 : colon_free n s)
    (h2 : colon_free m (s.drop n)) : colon_free (n + m) s := by
  intro c hc
  rw [List.take_add, List.mem_append] at hc
  rcases hc with hc | hc
  · exact h1 c hc
  · exact h2 c hc

theorem colon_free_one (c : Char) (r : List Char) (h : c ≠ ':') : colon_free 1 (c :: r) := by
  intro x hx
  simp at hx
  rw [hx]
  exact h

theorem colon_free_span (p : Char → Bool) (hp : p ':' = false) (s : List Char) :
    colon_free (span_length p s) s := by
  intro c hc
  have e : s.take (span_length p s) = s.takeWhile p := by
    unfold span_length
    have h := @List.take_left' Char (s.takeWhile p) (s.dropWhile p) _ rfl
    rwa [List.takeWhile_append_dropWhile] at h
  rw [e] at hc
  have := List.mem_takeWhile_imp hc
  intro hcc
  rw [hcc, hp] at this
  cases this

theorem skip_sign_drop (s : List Char) :
    colon_free (skip_sign s).1 s ∧ (skip_sign s).2 = s.drop (skip_sign s).1 := by
  unfold skip_sign
  split
  · exact ⟨colon_free_one _ _ (by decide), rfl⟩
  · exact ⟨colon_free_one _ _ (by decide), rfl⟩
  · exact ⟨colon_free_zero _, rfl⟩

theorem colon_free_exponent (e1 e2 : Char) (h1 : e1 ≠ ':') (h2 : e2 ≠ ':') (s : List Char) :
    colon_free (exponent_length e1 e2 s) s := by
  unfold exponent_length
  cases s with
  | nil => exact colon_free_zero _
  | cons c cs =>
    simp only
    split_ifs with hc hn
    · exact colon_free_zero _
    · have hcc : c ≠ ':' := by
        rcases hc with hc | hc <;> rw [hc] <;> assumption
      obtain ⟨k1, k2⟩ := skip_sign_drop cs
      rw [Nat.add_assoc]
      apply colon_free_add 1 _ (c :: cs) (colon_free_one c cs hcc)
      simp only [List.drop_succ_cons, List.drop_zero]
      apply colon_free_add _ _ cs k1
      rw [← k2]
      exact colon_free_span isdigit (by decide) _
    · exact colon_free_zero _

theorem colon_free_mantissa (dig : Char → Bool) (hd : dig ':' = false) (e1 e2 : Char)
    (h1 : e1 ≠ ':') (h2 : e2 ≠ ':') (s : List Char) :
    colon_free (mantissa_length dig e1 e2 s) s := by
  unfold mantissa_length
  simp only
  have hi := colon_free_span dig hd s
  cases hp : point_digits dig (s.drop (span_length dig s)) with
  | none =>
    simp only
    split_ifs
    · exact colon_free_zero _
    · exact colon_free_add _ _ s hi (colon_free_exponent e1 e2 h1 h2 _)
  | some k =>
    simp only
    split_ifs
    · exact colon_free_zero _
    · have hk : colon_free (span_length dig s + 1 + k) s := by
        unfold point_digits at hp
        split at hp
        · rename_i r heq
          simp only [Option.some.injEq] at hp
          rw [Nat.add_assoc]
          apply colon_free_add _ _ s hi
          rw [heq]
          apply colon_free_add 1 _ _ (colon_free_one _ _ (by decide))
          simp only [List.drop_succ_cons, List.drop_zero]
          rw [← hp]
          exact colon_free_span dig hd r
        · cases hp
      exact colon_free_add _ _ s hk (colon_free_exponent e1 e2 h1 h2 _)

theorem colon_free_of_le (n m : Nat) (s : List Char) (h : colon_free n s) (hm : m ≤ n) :
    colon_free m s := by
  intro c hc
  apply h c
  have : s.take m = (s.take n).take m := by
    rw [List.take_take, Nat.min_eq_left hm]
  rw [this] at hc
  exact List.mem_of_mem_take hc

theorem colon_free_word (w s : List Char) (hw : ':' ∉ w)
    (h : starts_with_nocase w s = true) : colon_free w.length s := by
  intro c hc hcc
  apply hw
  simp only [starts_with_nocase, decide_eq_true_eq] at h
  rw [← h]
  subst hcc
  have : tolower ':' = ':' := by decide
  rw [← this]
  exact List.mem_map_of_mem _ hc

theorem colon_free_hex (s : List Char) : hex_length s ≠ 0 → colon_free (2 + hex_length s) s := by
  intro h
  unfold hex_length at h ⊢
  split at h
  · rename_i x r
    split_ifs at h ⊢ with hx
    · have hx2 : x ≠ ':' := by
        rcases hx with hx | hx <;> rw [hx] <;> decide
      have e : (2 : Nat) = 1 + 1 := rfl
      rw [e]
      apply colon_free_add (1 + 1) _ _
      · apply colon_free_add 1 1 _ (colon_free_one _ _ (by decide))
        simp only [List.drop_succ_cons, List.drop_zero]
        exact colon_free_one _ _ hx2
      · simp only [List.drop_succ_cons, List.drop_zero]
        exact colon_free_mantissa isxdigit (by decide) 'p' 'P' (by decide) (by decide) r
    · exact absurd rfl h
  · exact absurd rfl h

theorem colon_free_number (s : List Char) : colon_free (number_length s) s := by
  unfold number_length
  split_ifs with h1 h2 h3 h4
  · exact colon_free_hex s h1
  · exact colon_free_word "infinity".toList s (by decide) h2
  · exact colon_free_word "inf".toList s (by decide) h3
  · have h3c : colon_free 3 s := colon_free_word "nan".toList s (by decide) h4
    split
    · rename_i r heq
      split
      · rename_i r2 heq2
        have e : 3 + 1 + span_length isnchar r + 1 = 3 + (1 + (span_length isnchar r + 1)) := by
          omega
        rw [e]
        apply colon_free_add 3 _ s h3c
        rw [heq]
        apply colon_free_add 1 _ _ (colon_free_one _ _ (by decide))
        simp only [List.drop_succ_cons, List.drop_zero]
        apply colon_free_add _ 1 r (colon_free_span isnchar (by decide) r)
        rw [heq2]
        exact colon_free_one _ _ (by decide)
      · exact h3c
    · exact h3c
  · exact colon_free_mantissa isdigit (by decide) 'e' 'E' (by decide) (by decide) s

theorem colon_free_strtod (s : List Char) : colon_free (strtod_length s) s := by
  unfold strtod_length
  simp only
  split_ifs
  · exact colon_free_zero _
  · obtain ⟨k1, k2⟩ := skip_sign_drop (s.drop (span_length isspace s))
    rw [Nat.add_assoc]
    apply colon_free_add _ _ s (colon_free_span isspace (by decide) s)
    apply colon_free_add _ _ _ k1
    rw [← k2]
    exact colon_free_number _

/-- The scanner `strtod` never reads past a colon: a text with a colon is not accepted in its
entirety. -/
theorem strtod_length_of_colon (s : List Char) (h : ':' ∈ s) :
    strtod_length s ≠ s.length := by
  intro he
  have hc := colon_free_strtod s
  unfold colon_free at hc
  rw [he, List.take_length] at hc
  exact hc ':' h rfl

theorem classify_parts_ok (ps : List (List Char)) (t : xlnt.value.type)
    (h : classify_parts ps = .ok t) :
    t = xlnt.value.type.numeric ∨ t = xlnt.value.type.string := by
  induction ps with
  | nil =>
    simp only [classify_parts, Except.ok.injEq] at h
    exact Or.inl h.symm
  | cons p rest ih =>
    simp only [classify_parts] at h
    cases hp : stoi p with
    | ok n => rw [hp] at h; exact ih h
    | error e =>
      rw [hp] at h
      cases e <;> simp at h
      exact Or.inr h.symm

theorem mem_takeWhile_of_concat (p : Char → Bool) (a : List Char) (x c : Char) (hx : c ≠ x)
    (h : c ∈ (a ++ [x]).takeWhile p) : c ∈ a.takeWhile p := by
  induction a with
  | nil =>
    have hsub := List.takeWhile_subset p h
    simp only [List.nil_append, List.mem_singleton] at hsub
    exact absurd hsub hx
  | cons y ys ih =>
    rw [List.cons_append, List.takeWhile_cons] at h
    rw [List.takeWhile_cons]
    by_cases hy : p y = true
    · simp only [hy, if_true] at h ⊢
      rcases List.mem_cons.mp h with h | h
      · exact List.mem_cons.mpr (Or.inl h)
      · exact List.mem_cons.mpr (Or.inr (ih h))
    · simp only [hy] at h
      simp at h

/-- A text that does not begin with `0` and has a colon before any NUL character is classified
as a string or, after `#`, as an error. -/
theorem data_type_of_colon_text (s : List Char) (h0 : s.head? ≠ some '0')
    (hc : ':' ∈ c_str s) :
    data_type_for_value s = .ok xlnt.value.type.string ∨
      data_type_for_value s = .ok xlnt.value.type.error := by
  have hs : ':' ∈ s := by
    unfold c_str at hc
    exact List.takeWhile_subset _ hc
  cases s with
  | nil => simp at hs
  | cons c0 r =>
    have hne0 : c0 ≠ '0' := by
      intro e; apply h0; rw [e]; rfl
    by_cases hh : c0 = '#'
    · right
      simp [data_type_for_value, hne0, hh]
    · left
      have hlen := strtod_length_of_colon (c_str (c0 :: r)) hc
      have hb : (c0 :: r) ∉ possible_booleans := by
        intro hb
        have : ∀ t ∈ possible_booleans, ':' ∉ t := by decide
        exact this _ hb hs
      have hp : ¬ ((c0 :: r).getLast? = some '%' ∧
          strtod_length (c_str (c0 :: r).dropLast) = (c_str (c0 :: r).dropLast).length) := by
        rintro ⟨hl, he⟩
        have hd : (c0 :: r) = (c0 :: r).dropLast ++ ['%'] := by
          have := List.dropLast_append_getLast? '%' (by simpa using hl)
          exact this.symm
        have hcc : ':' ∈ c_str (c0 :: r).dropLast := by
          unfold c_str at hc ⊢
          rw [hd] at hc
          exact mem_takeWhile_of_concat _ _ '%' ':' (by decide) hc
        exact strtod_length_of_colon _ hcc he
      simp only [data_type_for_value, hne0, if_false, hh, hlen, ne_eq, not_false_eq_true,
        if_true, hb, hp]

/-- A text that begins with `0` and contains a colon is classified by its parts when it has
two or three of them, and is a string otherwise. -/
theorem data_type_of_zero_colon_text (s : List Char) (h0 : s.head? = some '0')
    (hs : ':' ∈ s) :
    data_type_for_value s =
      if (split_string s ':').length = 2 ∨ (split_string s ':').length = 3 then
        classify_parts (split_string s ':')
      else .ok xlnt.value.type.string := by
  cases s with
  | nil => simp at hs
  | cons c0 r =>
    simp only [List.head?_cons, Option.some.injEq] at h0
    subst h0
    have hr : ':' ∈ r := by
      rcases List.mem_cons.mp hs with h | h
      · exact absurd h (by decide)
      · exact h
    have hlen : ('0' :: r).length > 1 := by
      cases r with
      | nil => simp at hr
      | cons x xs => simp
    have hz : ¬ ((('0' :: r).get? 1 = some '.' ∨
          (('0' :: r).length > 2 ∧
            (('0' :: r).get? 1 = some 'e' ∨ ('0' :: r).get? 1 = some 'E'))) ∧
        (('0' :: r).drop 2).all isdigit = true) := by
      rintro ⟨h1, h2⟩
      cases r with
      | nil => simp at hr
      | cons x xs =>
        simp only [List.get?_cons_succ, List.get?_cons_zero, Option.some.injEq] at h1
        have hx : x ≠ ':' := by
          rcases h1 with h1 | ⟨_, h1 | h1⟩ <;> rw [h1] <;> decide
        have hxs : ':' ∈ xs := by
          rcases List.mem_cons.mp hr with h | h
          · exact absurd h.symm hx
          · exact h
        simp only [List.drop_succ_cons, List.drop_zero, List.all_eq_true] at h2
        exact absurd (h2 ':' hxs) (by decide)
    simp only [data_type_for_value, if_true, hlen, hz, if_false]

namespace xlnt

open detail

/-- What `set_value(text)` does with a text taken for a time of day: the conversion of the text
to a `time` fails, or the serial number of the time is stored and the date flag set. -/
theorem set_value_string_taken_for_time (P : externals) (s : List Char) (d : cell_impl)
    (hs : ':' ∈ s) (h : taken_for_time s = true) :
    cell.set_value_string P true s d =
      match P.time_from_string s with
      | .error e => ⟨{ d with is_date_ := true }, some e⟩
      | .ok t =>
        ⟨{ d with is_date_ := true, value_ := ⟨value.type.numeric, P.time_to_number t, []⟩ },
          none⟩ := by
  simp only [taken_for_time, Bool.and_eq_true, Bool.or_eq_true, decide_eq_true_eq] at h
  obtain ⟨⟨h0, hl⟩, ha⟩ := h
  have hd : data_type_for_value s = .ok value.type.numeric := by
    rw [data_type_of_zero_colon_text s h0 hs, if_pos hl]
    exact (classify_parts_numeric_iff _).mpr ha
  simp only [cell.set_value_string, hd, hs, if_true]
  cases P.time_from_string s <;> simp [value.from_double]

/-- What `set_value(text)` does with a text that contains a colon, has no NUL character before
it when it does not begin with `0`, and is not taken for a time: when the call completes, the
text is stored as a string. -/
theorem set_value_string_colon_text (P : externals) (s : List Char) (d : cell_impl)
    (hs : ':' ∈ s) (hn : s.head? ≠ some '0' → ':' ∈ c_str s) (ht : taken_for_time s = false)
    (hok : (cell.set_value_string P true s d).thrown = none) :
    cell.set_value_string P true s d =
      ⟨{ d with is_date_ := false, value_ := ⟨value.type.string, .finite 0, s⟩ }, none⟩ := by
  by_cases h0 : s.head? = some '0'
  · have hd := data_type_of_zero_colon_text s h0 hs
    by_cases hl : (split_string s ':').length = 2 ∨ (split_string s ':').length = 3
    · rw [if_pos hl] at hd
      cases hc : classify_parts (split_string s ':') with
      | error e =>
        rw [hc] at hd
        rw [set_value_string_of_throw P s d e hd] at hok
        simp at hok
      | ok t =>
        rw [hc] at hd
        rcases classify_parts_ok _ t hc with e | e
        · subst e
          have ha := (classify_parts_numeric_iff _).mp hc
          have : taken_for_time s = true := by
            simp only [taken_for_time, Bool.and_eq_true, Bool.or_eq_true, decide_eq_true_eq]
            exact ⟨⟨h0, hl⟩, ha⟩
          rw [this] at ht
          cases ht
        · subst e
          rw [set_value_string_of_string P s d hd]
          rfl
    · rw [if_neg hl] at hd
      rw [set_value_string_of_string P s d hd]
      rfl
  · rcases data_type_of_colon_text s h0 (hn h0) with hd | hd
    · rw [set_value_string_of_string P s d hd]
      rfl
    · rw [set_value_string_of_error P s d hd]
      rfl


/-- The member `set_value(text)` leaves the hyperlink flag as it was, whether it completes or
not. -/
theorem set_value_string_keeps_hyperlink (P : externals) (g : Bool) (s : List Char)
    (d : cell_impl) :
    (cell.set_value_string P g s d).cell.has_hyperlink_ = d.has_hyperlink_ := by
  cases g with
  | false => simp [set_value_string_guess_off]
  | true =>
    cases hc : data_type_for_value s with
    | error e => rw [set_value_string_of_throw _ _ _ e hc]
    | ok t =>
      cases t with
      | boolean => rw [set_value_string_of_boolean _ _ _ hc]
      | null => rw [set_value_string_of_null _ _ _ hc]
      | string => rw [set_value_string_of_string _ _ _ hc]
      | error => rw [set_value_string_of_error _ _ _ hc]
      | numeric =>
        simp only [cell.set_value_string, hc]
        split_ifs <;> (try simp at *) <;> split <;> simp

end xlnt

/-! ## Theorems on values, hyperlinks, comments, formulas and dates -/

namespace xlnt

open detail

/-- C11: for every error value built by `value::error`, whatever its text, each of `as<double>`,
`as<int>`, `as<int64_t>` and `as<bool>` fails (it throws `std::runtime_error`). -/
theorem error_value_coercions_fail (E : environment) (error_string : List Char) :
    value.as_double E (value.error error_string) = .error exception.runtime_error ∧
    value.as_int E (value.error error_string) = .error exception.runtime_error ∧
    value.as_int64 E (value.error error_string) = .error exception.runtime_error ∧
    value.as_bool (value.error error_string) = .error exception.runtime_error := by
  simp [value.as_double, value.as_int, value.as_int64, value.as_bool, value.error,
    value.from_string]

/-- C12: two values are equal exactly when they have the same discriminant and the same
payload: the same text for `string` and `error`, numbers that compare equal for `numeric` and
`boolean`, nothing more for `null`.  A comparison with a `bool`, `int`, `double` or text is
true exactly when the discriminant is `boolean`, `numeric`, `numeric` or `string` and the
payload equals the literal.  So `value(true) == 1` and `value(1) == true` are false, and an
error value equals neither a text nor the string value with the same text. -/
theorem value_equality (v w : value) (b : Bool) (i : Int) (x : flt) (s : List Char) :
    (value.eq_value v w = true ↔
      (v.type_ = w.type_ ∧
        ((v.type_ = value.type.string ∨ v.type_ = value.type.error) →
          v.string_value_ = w.string_value_) ∧
        ((v.type_ = value.type.numeric ∨ v.type_ = value.type.boolean) →
          flt.eq v.numeric_value_ w.numeric_value_ = true))) ∧
    (value.eq_bool v b = true ↔
      (v.type_ = value.type.boolean ∧ flt.ne v.numeric_value_ (.finite 0) = b)) ∧
    (value.eq_int v i = true ↔
      (v.type_ = value.type.numeric ∧ flt.eq v.numeric_value_ (.finite i) = true)) ∧
    (value.eq_double v x = true ↔
      (v.type_ = value.type.numeric ∧ flt.eq v.numeric_value_ x = true)) ∧
    (value.eq_string v s = true ↔ (v.type_ = value.type.string ∧ v.string_value_ = s)) ∧
    (∀ j k : Int, (value.eq_value (value.from_int j) (value.from_int k) = true ↔ j = k) ∧
      (value.eq_int (value.from_int j) k = true ↔ j = k)) ∧
    (∀ c e : Bool, (value.eq_value (value.from_bool c) (value.from_bool e) = true ↔ c = e) ∧
      (value.eq_bool (value.from_bool c) e = true ↔ c = e)) ∧
    (∀ t u : List Char,
      (value.eq_value (value.from_string t) (value.from_string u) = true ↔ t = u) ∧
      (value.eq_value (value.error t) (value.error u) = true ↔ t = u) ∧
      (value.eq_string (value.from_string t) u = true ↔ t = u)) ∧
    value.eq_value value.null value.null = true ∧
    value.eq_int (value.from_bool true) 1 = false ∧
    value.eq_bool (value.from_int 1) true = false ∧
    (∀ t u : List Char, value.eq_string (value.error t) u = false ∧
      value.eq_value (value.error t) (value.from_string t) = false ∧
      value.eq_value (value.from_string t) (value.error t) = false) := by
  refine ⟨?_, ?_, ?_, ?_, ?_, ?_, ?_, ?_, ?_, ?_, ?_, ?_⟩
  · unfold value.eq_value
    cases hv : v.type_ <;> cases hw : w.type_ <;> simp
  · simp [value.eq_bool]
  · simp [value.eq_int]
  · simp [value.eq_double]
  · simp [value.eq_string]
  · intro j k
    simp [value.eq_value, value.eq_int, value.from_int, flt.eq]
  · intro c e
    cases c <;> cases e <;>
      simp [value.eq_value, value.eq_bool, value.from_bool, flt.eq, flt.ne]
  · intro t u
    simp [value.eq_value, value.eq_string, value.from_string, value.error]
  · simp [value.eq_value, value.null]
  · simp [value.eq_int, value.from_bool]
  · simp [value.eq_bool, value.from_int]
  · intro t u
    simp [value.eq_value, value.eq_string, value.from_string, value.error]

/-- C12 at concrete inputs: the numeric value 1 has the discriminant and the payload the
comparison with the `int` 1 asks for. -/
theorem value_equality_witness :
    value.eq_int (value.from_int 1) 1 = true :=
  (value_equality (value.from_int 1) value.null true 1 (.finite 0) []).2.2.1.mpr
    ⟨rfl, by simp [value.from_int, flt.eq]⟩

/-- C13: `as<bool>()` of a numeric or boolean value tells whether the stored number differs
from zero, and of a string value whether the text is not empty: the strings `false` and `0`
give true, and only the empty string gives false. -/
theorem as_bool_nonzero_nonempty (q : ℚ) (negative : Bool) (i : Int) (b : Bool)
    (s t : List Char) :
    value.as_bool ⟨value.type.numeric, .finite q, t⟩ = .ok (decide (q ≠ 0)) ∧
    value.as_bool ⟨value.type.boolean, .finite q, t⟩ = .ok (decide (q ≠ 0)) ∧
    value.as_bool ⟨value.type.numeric, .neg_zero, t⟩ = .ok false ∧
    value.as_bool ⟨value.type.boolean, .neg_zero, t⟩ = .ok false ∧
    value.as_bool ⟨value.type.numeric, .inf negative, t⟩ = .ok true ∧
    value.as_bool ⟨value.type.numeric, .nan, t⟩ = .ok true ∧
    value.as_bool (value.from_int i) = .ok (decide (i ≠ 0)) ∧
    value.as_bool (value.from_bool b) = .ok b ∧
    value.as_bool (value.from_string s) = .ok (decide (s ≠ [])) ∧
    value.as_bool (value.from_string "false".toList) = .ok true ∧
    value.as_bool (value.from_string "0".toList) = .ok true ∧
    (value.as_bool (value.from_string s) = .ok false ↔ s = []) := by
  refine ⟨?_, ?_, ?_, ?_, ?_, ?_, ?_, ?_, ?_, ?_, ?_, ?_⟩
  · simp [value.as_bool, flt.ne, flt.eq]
  · simp [value.as_bool, flt.ne, flt.eq]
  · simp [value.as_bool, flt.ne, flt.eq]
  · simp [value.as_bool, flt.ne, flt.eq]
  · simp [value.as_bool, flt.ne, flt.eq]
  · simp [value.as_bool, flt.ne, flt.eq]
  · simp [value.as_bool, value.from_int, flt.ne, flt.eq]
  · cases b <;> simp [value.as_bool, value.from_bool, flt.ne, flt.eq]
  · cases s <;> simp [value.as_bool, value.from_string]
  · simp [value.as_bool, value.from_string]
  · simp [value.as_bool, value.from_string]
  · cases s <;> simp [value.as_bool, value.from_string]

/-- C14 (counterexample): the text `3abc` is not a number literal in its entirety (`strtod`
stops after one character), and `as<int>()` and `as<double>()` of the string value `3abc`
return the number 3. -/
theorem numeric_head_is_coerced :
    strtod_length "3abc".toList = 1 ∧
    value.as_int ideal_environment (value.from_string "3abc".toList) = .ok 3 ∧
    value.as_double ideal_environment (value.from_string "3abc".toList) = .ok (.finite 3) := by
  refine ⟨by decide, by decide, ?_⟩
  have hc : c_str "3abc".toList = "3abc".toList := by decide
  have hl : strtod_length "3abc".toList = 1 := by decide
  have hp : decimal_parts "3abc".toList = (false, 3, 0, 0) := by decide
  have hv : ideal_environment.toexternals.strtod_value "3abc".toList = .finite 3 := by
    show flt.finite (decimal_value "3abc".toList) = .finite 3
    rw [decimal_value, hp]
    norm_num
  have he : ideal_environment.toexternals.strtod_erange "3abc".toList = false := rfl
  rw [value.as_double]
  simp only [value.from_string]
  rw [stod, hc, hl, he, hv]
  simp

/-- C14 (amended): for every string value, `as<double>()` fails with `invalid_argument`
exactly when `strtod` finds no number at the head of the text, fails with `out_of_range` when
`strtod` reports a range error, and otherwise returns the number at the head of the text.
`as<int>()` fails with `invalid_argument` exactly when the text has no decimal digit after
white space and an optional sign; every other text is made of white space, a sign, digits and
a rest that does not begin with a digit, and on such a text `as<int>()` returns the signed
value of the digits when that is an `int` and fails with `out_of_range` when it is not,
whatever the rest is.  So `abc` and the empty text fail, and `3abc` gives 3. -/
theorem text_coercion_reads_numeric_head (E : environment) (s : List Char) :
    (value.as_double E (value.from_string s) = .error exception.invalid_argument ↔
      strtod_length (c_str s) = 0) ∧
    (strtod_length (c_str s) ≠ 0 → E.strtod_erange (c_str s) = true →
      value.as_double E (value.from_string s) = .error exception.out_of_range) ∧
    (strtod_length (c_str s) ≠ 0 → E.strtod_erange (c_str s) = false →
      value.as_double E (value.from_string s) = .ok (E.strtod_value (c_str s))) ∧
    (value.as_int E (value.from_string s) = .error exception.invalid_argument ↔
      ∀ c, (after_space_and_sign s).head? = some c → isdigit c = false) ∧
    (∀ ds rest : List Char, ds ≠ [] → (∀ c ∈ ds, isdigit c = true) →
      (∀ c, rest.head? = some c → isdigit c = false) → digits_value 0 ds ≤ 2147483647 →
      value.as_int E (value.from_string (ds ++ rest)) = .ok (digits_value 0 ds : Int)) ∧
    ((∃ c, (after_space_and_sign s).head? = some c ∧ isdigit c = true) →
      ∃ (ws : List Char) (sg : sign_mark) (ds rest : List Char),
        s = ws ++ (sg.text ++ (ds ++ rest)) ∧ (∀ c ∈ ws, isspace c = true) ∧ ds ≠ [] ∧
        (∀ c ∈ ds, isdigit c = true) ∧ (∀ c, rest.head? = some c → isdigit c = false)) ∧
    (∀ (ws : List Char) (sg : sign_mark) (ds rest : List Char),
      (∀ c ∈ ws, isspace c = true) → ds ≠ [] → (∀ c ∈ ds, isdigit c = true) →
      (∀ c, rest.head? = some c → isdigit c = false) →
      ((sg ≠ sign_mark.minus → digits_value 0 ds ≤ 2147483647 →
          value.as_int E (value.from_string (ws ++ (sg.text ++ (ds ++ rest)))) =
            .ok (digits_value 0 ds : Int)) ∧
        (sg ≠ sign_mark.minus → 2147483647 < digits_value 0 ds →
          value.as_int E (value.from_string (ws ++ (sg.text ++ (ds ++ rest)))) =
            .error exception.out_of_range) ∧
        (sg = sign_mark.minus → digits_value 0 ds ≤ 2147483648 →
          value.as_int E (value.from_string (ws ++ (sg.text ++ (ds ++ rest)))) =
            .ok (-(digits_value 0 ds : Int))) ∧
        (sg = sign_mark.minus → 2147483648 < digits_value 0 ds →
          value.as_int E (value.from_string (ws ++ (sg.text ++ (ds ++ rest)))) =
            .error exception.out_of_range))) ∧
    value.as_double E (value.from_string "abc".toList) = .error exception.invalid_argument ∧
    value.as_double E (value.from_string []) = .error exception.invalid_argument ∧
    value.as_int E (value.from_string "abc".toList) = .error exception.invalid_argument ∧
    value.as_int E (value.from_string []) = .error exception.invalid_argument ∧
    value.as_int E (value.from_string "3abc".toList) = .ok 3 := by
  have hd : value.as_double E (value.from_string s) = stod E.toexternals s := rfl
  have hi : ∀ t, value.as_int E (value.from_string t) = stoi t := fun _ => rfl
  have hda : ∀ t, value.as_double E (value.from_string t) = stod E.toexternals t := fun _ => rfl
  refine ⟨?_, ?_, ?_, ?_, ?_, digit_head_decomposition s, ?_, ?_, ?_, ?_, ?_, ?_⟩
  · rw [hd, stod]
    by_cases h : strtod_length (c_str s) = 0
    · simp [h]
    · simp only [h, if_false, iff_false]
      split_ifs <;> simp
  · intro h1 h2
    rw [hd, stod]
    simp [h1, h2]
  · intro h1 h2
    rw [hd, stod]
    simp [h1, h2]
  · rw [hi]
    exact stoi_invalid_iff s
  · intro ds rest h1 h2 h3 h4
    rw [hi]
    exact stoi_digits_head ds rest h1 h2 h3 h4
  · intro ws sg ds rest hws hne hds hr
    have hnn : (0 : Int) ≤ (digits_value 0 ds : Int) := Int.ofNat_nonneg _
    rw [hi, stoi_signed_digits ws sg ds rest hws hne hds hr]
    refine ⟨?_, ?_, ?_, ?_⟩
    · intro hsg hv
      have hv2 : (digits_value 0 ds : Int) ≤ 2147483647 := by exact_mod_cast hv
      rw [if_neg hsg, if_neg (by omega)]
    · intro hsg hv
      have hv2 : (2147483647 : Int) < (digits_value 0 ds : Int) := by exact_mod_cast hv
      rw [if_neg hsg, if_pos (Or.inr hv2)]
    · intro hsg hv
      have hv2 : (digits_value 0 ds : Int) ≤ 2147483648 := by exact_mod_cast hv
      rw [if_pos hsg, if_neg (by omega)]
    · intro hsg hv
      have hv2 : (2147483648 : Int) < (digits_value 0 ds : Int) := by exact_mod_cast hv
      rw [if_pos hsg, if_pos (Or.inl (by omega))]
  · rw [hda, stod]
    have : strtod_length (c_str "abc".toList) = 0 := by decide
    rw [this]
    simp
  · rw [hda, stod]
    have : strtod_length (c_str []) = 0 := by decide
    rw [this]
    simp
  · rw [hi]; decide
  · rw [hi]; decide
  · rw [hi]; decide

/-- C14 (amended) at concrete inputs: `42 units` begins with the digits `42`, and `as<int>()`
of that string value is 42; ` -7x` gives -7. -/
theorem text_coercion_reads_numeric_head_witness :
    value.as_int ideal_environment (value.from_string "42 units".toList) = .ok 42 ∧
    value.as_int ideal_environment (value.from_string " -7x".toList) = .ok (-7) :=
  ⟨(text_coercion_reads_numeric_head ideal_environment []).2.2.2.2.1 "42".toList
      " units".toList (by decide) (by decide) (by decide) (by decide),
    ((text_coercion_reads_numeric_head ideal_environment []).2.2.2.2.2.2.1 " ".toList
      sign_mark.minus "7".toList "x".toList (by decide) (by decide) (by decide)
      (by decide)).2.2.1 rfl (by decide)⟩

/-- C15: `get<std::string>()` returns the stored text unchanged when the discriminant is
`string` and fails for every other discriminant; so it succeeds exactly for string values. -/
theorem get_string_iff_string (v : value) (s : List Char) (b : Bool) (i : Int) (x : flt) :
    ((∃ t, value.get_string v = .ok t) ↔ v.type_ = value.type.string) ∧
    (v.type_ = value.type.string → value.get_string v = .ok v.string_value_) ∧
    (v.type_ ≠ value.type.string → value.get_string v = .error exception.runtime_error) ∧
    value.get_string (value.from_string s) = .ok s ∧
    value.get_string value.null = .error exception.runtime_error ∧
    value.get_string (value.from_bool b) = .error exception.runtime_error ∧
    value.get_string (value.from_int i) = .error exception.runtime_error ∧
    value.get_string (value.from_double x) = .error exception.runtime_error ∧
    value.get_string (value.error s) = .error exception.runtime_error := by
  refine ⟨?_, ?_, ?_, ?_, ?_, ?_, ?_, ?_, ?_⟩
  · unfold value.get_string
    by_cases h : v.type_ = value.type.string <;> simp [h]
  · intro h; simp [value.get_string, h]
  · intro h; simp [value.get_string, h]
  · simp [value.get_string, value.from_string]
  · simp [value.get_string, value.null]
  · simp [value.get_string, value.from_bool]
  · simp [value.get_string, value.from_int]
  · simp [value.get_string, value.from_double]
  · simp [value.get_string, value.error, value.from_string]

/-- C15 at a concrete input: the string value `abc` gives back `abc`. -/
theorem get_string_iff_string_witness :
    value.get_string (value.from_string "abc".toList) = .ok "abc".toList :=
  (get_string_iff_string (value.from_string "abc".toList) [] true 0 (.finite 0)).2.1 rfl

/-- C16 (the code at the failing input): on a cell with a null value and with `guess_types`
on, `set_hyperlink("0:99999999999")`, whose target is not empty and contains a colon, fails
with `out_of_range`, and leaves the cell with a hyperlink and the worksheet with a
relationship it had not before. -/
theorem set_hyperlink_fails_after_writing :
    ':' ∈ "0:99999999999".toList ∧
    (cell.set_hyperlink ideal_environment true "0:99999999999".toList blank_sheet
      blank_cell).thrown = some exception.out_of_range ∧
    cell.has_hyperlink blank_cell = false ∧
    cell.has_hyperlink (cell.set_hyperlink ideal_environment true "0:99999999999".toList
      blank_sheet blank_cell).cell = true ∧
    blank_sheet.relationships_.length = 0 ∧
    (cell.set_hyperlink ideal_environment true "0:99999999999".toList blank_sheet
      blank_cell).sheet.relationships_.length = 1 := by
  decide

/-- X2: `set_hyperlink(target)` fails in its own check exactly when the target is empty or
has no colon; it then throws `data_type_exception` and leaves the cell and the worksheet as
they were.  A target that passes the check makes the call complete whenever the value of the
cell is not null or `guess_types` is off. -/
theorem set_hyperlink_check (E : environment) (guess_types : Bool) (target : List Char)
    (ws : worksheet_impl) (d : cell_impl) :
    ((target = [] ∨ ':' ∉ target) →
      cell.set_hyperlink E guess_types target ws d =
        ⟨ws, d, some exception.data_type_exception⟩) ∧
    (target ≠ [] → ':' ∈ target → (d.value_.type_ ≠ value.type.null ∨ guess_types = false) →
      (cell.set_hyperlink E guess_types target ws d).thrown = none ∧
      cell.has_hyperlink (cell.set_hyperlink E guess_types target ws d).cell = true ∧
      (cell.set_hyperlink E guess_types target ws d).sheet =
        (E.create_relationship ws relationship.type.hyperlink target).2) := by
  constructor
  · intro h
    have h2 : target.length = 0 ∨ ':' ∉ target := by
      rcases h with h | h
      · left; simp [h]
      · right; exact h
    simp only [cell.set_hyperlink, h2, if_true]
  · intro h1 h2 h3
    have h4 : ¬ (target.length = 0 ∨ ':' ∉ target) := by
      simp [h1, h2]
    simp only [cell.set_hyperlink, h4, if_false, cell.get_value, value.is]
    rcases h3 with h3 | h3
    · simp [h3, cell.has_hyperlink]
    · subst h3
      by_cases hv : d.value_.type_ = value.type.null
      · simp [hv, set_value_string_guess_off, cell.has_hyperlink]
      · simp [hv, cell.has_hyperlink]

/-- X2 at a concrete input: a target without a colon is refused and nothing changes. -/
theorem set_hyperlink_check_witness :
    cell.set_hyperlink ideal_environment true "example".toList blank_sheet blank_cell =
      ⟨blank_sheet, blank_cell, some exception.data_type_exception⟩ :=
  (set_hyperlink_check ideal_environment true "example".toList blank_sheet blank_cell).1
    (Or.inr (by decide))

/-- C17 (counterexample): on a cell with a null value and with `guess_types` on,
`set_hyperlink("01:02:03")` completes and the cell has a hyperlink, but its value is a number
with the date flag set, not the string `01:02:03`.  The same happens with a target that has a
NUL character before its colon, of which `strtod` sees the part before the NUL only. -/
theorem set_hyperlink_time_like_target :
    ':' ∈ "01:02:03".toList ∧
    blank_cell.value_.type_ = value.type.null ∧
    (cell.set_hyperlink ideal_environment true "01:02:03".toList blank_sheet
      blank_cell).thrown = none ∧
    cell.has_hyperlink (cell.set_hyperlink ideal_environment true "01:02:03".toList
      blank_sheet blank_cell).cell = true ∧
    (cell.set_hyperlink ideal_environment true "01:02:03".toList blank_sheet
      blank_cell).cell.value_.type_ = value.type.numeric ∧
    (cell.set_hyperlink ideal_environment true "01:02:03".toList blank_sheet
      blank_cell).cell.is_date_ = true ∧
    ':' ∈ ['1', Char.ofNat 0, ':', '2'] ∧
    (cell.set_hyperlink ideal_environment true ['1', Char.ofNat 0, ':', '2'] blank_sheet
      blank_cell).thrown = none ∧
    (cell.set_hyperlink ideal_environment true ['1', Char.ofNat 0, ':', '2'] blank_sheet
      blank_cell).cell.value_.type_ = value.type.numeric := by
  decide

/-- C17 (amended): for every target that contains a colon and either setting of
`guess_types`, a `set_hyperlink(target)` that completes gives the cell a hyperlink; a value
that was not null is unchanged; a null value becomes the string target, unless `guess_types`
is on and the target is taken for a time of day (it begins with `0` and has two or three parts
between colons that each begin with an integer), in which case the value is the serial number
of that time and the date flag is set.  This is for targets that begin with `0` or have no NUL
character before their first colon; of these, the call completes for every target that does
not begin with `0`. -/
theorem set_hyperlink_default_value (E : environment) (guess_types : Bool)
    (target : List Char) (ws : worksheet_impl) (d : cell_impl) (h : ':' ∈ target) :
    (d.value_.type_ ≠ value.type.null →
      (cell.set_hyperlink E guess_types target ws d).thrown = none ∧
      cell.has_hyperlink (cell.set_hyperlink E guess_types target ws d).cell = true ∧
      (cell.set_hyperlink E guess_types target ws d).cell.value_ = d.value_) ∧
    (d.value_.type_ = value.type.null →
      (guess_types = false ∨
        ∃ c r, target = c :: r ∧ starts_number c = false ∧ c.toNat ≠ 0) →
      (cell.set_hyperlink E guess_types target ws d).thrown = none ∧
      cell.has_hyperlink (cell.set_hyperlink E guess_types target ws d).cell = true ∧
      (cell.set_hyperlink E guess_types target ws d).cell.value_ =
        value.from_string target) ∧
    (d.value_.type_ = value.type.null →
      (cell.set_hyperlink E guess_types target ws d).cell =
        (cell.set_value_string E.toexternals guess_types target
          { d with has_hyperlink_ := true,
                   hyperlink_ := (E.create_relationship ws relationship.type.hyperlink
                     target).1 }).cell) ∧
    ((cell.set_hyperlink E guess_types target ws d).thrown = none →
      cell.has_hyperlink (cell.set_hyperlink E guess_types target ws d).cell = true) ∧
    (d.value_.type_ = value.type.null →
      (guess_types = false ∨ (target.head? ≠ some '0' ∧ ':' ∈ c_str target)) →
      (cell.set_hyperlink E guess_types target ws d).thrown = none) ∧
    (d.value_.type_ = value.type.null →
      (guess_types = false ∨
        ((target.head? ≠ some '0' → ':' ∈ c_str target) ∧ taken_for_time target = false)) →
      (cell.set_hyperlink E guess_types target ws d).thrown = none →
      (cell.set_hyperlink E guess_types target ws d).cell.value_ =
          ⟨value.type.string, .finite 0, target⟩ ∧
        (cell.set_hyperlink E guess_types target ws d).cell.is_date_ = false) ∧
    (d.value_.type_ = value.type.null → guess_types = true → taken_for_time target = true →
      (cell.set_hyperlink E guess_types target ws d).thrown = none →
      ∃ t, E.time_from_string target = .ok t ∧
        (cell.set_hyperlink E guess_types target ws d).cell.value_ =
          ⟨value.type.numeric, E.time_to_number t, []⟩ ∧
        (cell.set_hyperlink E guess_types target ws d).cell.is_date_ = true) := by
  have hne : target ≠ [] := by
    intro e; subst e; simp at h
  have h4 : ¬ (target.length = 0 ∨ ':' ∉ target) := by
    simp [hne, h]
  have hnull : d.value_.type_ = value.type.null →
      cell.set_hyperlink E guess_types target ws d =
        ⟨(E.create_relationship ws relationship.type.hyperlink target).2,
          (cell.set_value_string E.toexternals guess_types target
            { d with has_hyperlink_ := true,
                     hyperlink_ := (E.create_relationship ws relationship.type.hyperlink
                       target).1 }).cell,
          (cell.set_value_string E.toexternals guess_types target
            { d with has_hyperlink_ := true,
                     hyperlink_ := (E.create_relationship ws relationship.type.hyperlink
                       target).1 }).thrown⟩ := by
    intro hv
    simp only [cell.set_hyperlink, h4, if_false, cell.get_value, value.is, hv, decide_True,
      if_true]
  refine ⟨?_, ?_, ?_, ?_, ?_, ?_, ?_⟩
  · intro hv
    simp only [cell.set_hyperlink, h4, if_false, cell.get_value, value.is]
    simp [hv, cell.has_hyperlink]
  · intro hv hg
    simp only [cell.set_hyperlink, h4, if_false, cell.get_value, value.is, hv, decide_True,
      if_true]
    rcases hg with hg | ⟨c, r, rfl, hc, hn⟩
    · subst hg
      simp [set_value_string_guess_off, cell.has_hyperlink]
    · cases guess_types with
      | false => simp [set_value_string_guess_off, cell.has_hyperlink]
      | true =>
        rcases data_type_of_text_with_colon c r hc hn h with hd | hd
        · rw [set_value_string_of_string _ _ _ hd]
          simp [cell.has_hyperlink]
        · rw [set_value_string_of_error _ _ _ hd]
          simp [cell.has_hyperlink]
  · intro hv
    simp only [cell.set_hyperlink, h4, if_false, cell.get_value, value.is]
    simp [hv]
  · intro _
    by_cases hv : d.value_.type_ = value.type.null
    · rw [hnull hv]
      simp only [cell.has_hyperlink, set_value_string_keeps_hyperlink]
    · simp only [cell.set_hyperlink, h4, if_false, cell.get_value, value.is]
      simp [hv, cell.has_hyperlink]
  · intro hv hg
    rw [hnull hv]
    simp only
    rcases hg with hg | ⟨h0, hc⟩
    · subst hg
      simp [set_value_string_guess_off]
    · cases guess_types with
      | false => simp [set_value_string_guess_off]
      | true =>
        rcases data_type_of_colon_text target h0 hc with hd | hd
        · rw [set_value_string_of_string _ _ _ hd]
        · rw [set_value_string_of_error _ _ _ hd]
  · intro hv hg hok
    rw [hnull hv] at hok ⊢
    simp only at hok ⊢
    cases guess_types with
    | false => simp [set_value_string_guess_off, value.from_string]
    | true =>
      rcases hg with hg | ⟨hn, ht⟩
      · cases hg
      · rw [set_value_string_colon_text _ target _ h hn ht hok]
        simp
  · intro hv hg ht hok
    subst hg
    rw [hnull hv] at hok ⊢
    simp only at hok ⊢
    rw [set_value_string_taken_for_time _ target _ h ht] at hok ⊢
    cases hts : E.toexternals.time_from_string target with
    | error e => rw [hts] at hok; simp at hok
    | ok t => exact ⟨t, rfl, by simp, by simp⟩

/-- C17 (amended) at concrete inputs: a web address, a news address and the target `1:2` on a
blank cell become its value, as strings. -/
theorem set_hyperlink_default_value_witness :
    (cell.set_hyperlink ideal_environment true "http://example.com".toList blank_sheet
      blank_cell).cell.value_ = value.from_string "http://example.com".toList ∧
    (cell.set_hyperlink ideal_environment true "news:comp.lang".toList blank_sheet
      blank_cell).cell.value_ = ⟨value.type.string, .finite 0, "news:comp.lang".toList⟩ ∧
    (cell.set_hyperlink ideal_environment true "1:2".toList blank_sheet
      blank_cell).cell.value_ = ⟨value.type.string, .finite 0, "1:2".toList⟩ :=
  ⟨((set_hyperlink_default_value ideal_environment true "http://example.com".toList
      blank_sheet blank_cell (by decide)).2.1 rfl
      (Or.inr ⟨'h', "ttp://example.com".toList, rfl, by decide, by decide⟩)).2.2,
    ((set_hyperlink_default_value ideal_environment true "news:comp.lang".toList
      blank_sheet blank_cell (by decide)).2.2.2.2.2.1 rfl
      (Or.inr ⟨fun _ => by decide, by decide⟩) (by decide)).1,
    ((set_hyperlink_default_value ideal_environment true "1:2".toList
      blank_sheet blank_cell (by decide)).2.2.2.2.2.1 rfl
      (Or.inr ⟨fun _ => by decide, by decide⟩) (by decide)).1⟩

/-- C18 (the code at the failing input): `set_comment` with a comment that has no text, on a
cell without a comment, raises the comment counter by one although `has_comment()` is false
before and after the call; on a cell with a comment it makes `has_comment()` false and leaves
the counter as it was. -/
theorem set_comment_without_text_miscounts :
    cell.has_comment blank_cell = false ∧
    cell.has_comment (cell.set_comment ⟨[]⟩ blank_sheet blank_cell).2 = false ∧
    (cell.set_comment ⟨[]⟩ blank_sheet blank_cell).1.comment_count_ =
      blank_sheet.comment_count_ + 1 ∧
    cell.has_comment { blank_cell with comment_ := ⟨"note".toList⟩ } = true ∧
    cell.has_comment
      (cell.set_comment ⟨[]⟩ blank_sheet { blank_cell with comment_ := ⟨"note".toList⟩ }).2 =
      false ∧
    (cell.set_comment ⟨[]⟩ blank_sheet
      { blank_cell with comment_ := ⟨"note".toList⟩ }).1.comment_count_ =
      blank_sheet.comment_count_ := by
  decide

/-- X3: for comments that have a text, `set_comment` raises the comment counter by one when
the cell had no comment and leaves it when it had one, and the cell has a comment afterwards;
`clear_comment` lowers the counter by one when the cell had a comment and leaves it when it
had none, and the cell has no comment afterwards.  So on a cell without a comment two
`set_comment` calls in a row raise the counter by one and a following `clear_comment` brings
it back. -/
theorem comment_counter_moves_once (c1 c2 : comment) (ws : worksheet_impl) (d : cell_impl)
    (h1 : c1.text ≠ []) (h2 : c2.text ≠ []) :
    (cell.set_comment c1 ws d).1.comment_count_ =
      ws.comment_count_ + (if cell.has_comment d then 0 else 1) ∧
    cell.has_comment (cell.set_comment c1 ws d).2 = true ∧
    (cell.clear_comment ws d).1.comment_count_ =
      ws.comment_count_ - (if cell.has_comment d then 1 else 0) ∧
    cell.has_comment (cell.clear_comment ws d).2 = false ∧
    (cell.has_comment d = false →
      (cell.set_comment c2 (cell.set_comment c1 ws d).1
        (cell.set_comment c1 ws d).2).1.comment_count_ = ws.comment_count_ + 1 ∧
      (cell.clear_comment
        (cell.set_comment c2 (cell.set_comment c1 ws d).1 (cell.set_comment c1 ws d).2).1
        (cell.set_comment c2 (cell.set_comment c1 ws d).1
          (cell.set_comment c1 ws d).2).2).1.comment_count_ = ws.comment_count_) := by
  refine ⟨?_, ?_, ?_, ?_, ?_⟩
  · by_cases h : cell.has_comment d = true <;>
      simp [cell.set_comment, worksheet.increment_comments, h]
  · simp [cell.set_comment, cell.has_comment, h1]
  · by_cases h : cell.has_comment d = true <;>
      simp [cell.clear_comment, worksheet.decrement_comments, h]
  · simp [cell.clear_comment, cell.has_comment]
  · intro h
    simp [cell.set_comment, cell.clear_comment, worksheet.increment_comments,
      worksheet.decrement_comments, cell.has_comment, h1, h2] at h ⊢
    simp [h]

/-- X3 at a concrete input: two comments and a clearing on a blank cell. -/
theorem comment_counter_moves_once_witness :
    (cell.set_comment ⟨"a".toList⟩ blank_sheet blank_cell).1.comment_count_ =
      blank_sheet.comment_count_ + (if cell.has_comment blank_cell then 0 else 1) :=
  (comment_counter_moves_once ⟨"a".toList⟩ ⟨"b".toList⟩ blank_sheet blank_cell
    (by decide) (by decide)).1

/-- C19: `set_formula(text)` fails exactly when the text is empty, and then leaves the cell,
its formula included, as it was; for a text that is not empty the cell has a formula
afterwards and `get_formula()` returns the text; after `clear_formula()` the cell has no
formula and `get_formula()` fails. -/
theorem set_formula_fails_iff_empty (text : List Char) (d : cell_impl) :
    ((cell.set_formula text d).thrown ≠ none ↔ text = []) ∧
    (text = [] → (cell.set_formula text d).cell = d ∧
      cell.has_formula (cell.set_formula text d).cell = cell.has_formula d) ∧
    (text ≠ [] → (cell.set_formula text d).thrown = none ∧
      cell.has_formula (cell.set_formula text d).cell = true ∧
      cell.get_formula (cell.set_formula text d).cell = .ok text) ∧
    cell.has_formula (cell.clear_formula d) = false ∧
    cell.get_formula (cell.clear_formula d) = .error exception.data_type_exception := by
  refine ⟨?_, ?_, ?_, ?_, ?_⟩
  · cases text <;> simp [cell.set_formula]
  · intro h
    subst h
    simp [cell.set_formula]
  · intro h
    cases text with
    | nil => exact absurd rfl h
    | cons c r => simp [cell.set_formula, cell.has_formula, cell.get_formula]
  · simp [cell.clear_formula, cell.has_formula]
  · simp [cell.clear_formula, cell.get_formula]

/-- C19 at a concrete input: the formula `=A1+1` is stored and returned. -/
theorem set_formula_fails_iff_empty_witness :
    cell.get_formula (cell.set_formula "=A1+1".toList blank_cell).cell = .ok "=A1+1".toList :=
  ((set_formula_fails_iff_empty "=A1+1".toList blank_cell).2.2.1 (by decide)).2.2

/-- C20: after each of `set_value(date)`, `set_value(datetime)`, `set_value(time)` and
`set_value(timedelta)` the cell is a date cell and its value is numeric, with the `to_number`
of the record as its number and no text; for a date and a datetime that is the `to_number`
under the calendar of the owning workbook, whichever it is. -/
theorem temporal_setters_store_serial (T : temporal) (P : externals) (base_date : calendar)
    (d : cell_impl) (x : date) (y : datetime) (t : time) (z : timedelta) :
    (cell.is_date (cell.set_value_date T base_date x d) = true ∧
      (cell.set_value_date T base_date x d).value_ =
        value.from_int (T.date_to_number x base_date)) ∧
    (cell.is_date (cell.set_value_datetime T base_date y d) = true ∧
      (cell.set_value_datetime T base_date y d).value_ =
        value.from_double (T.datetime_to_number y base_date)) ∧
    (cell.is_date (cell.set_value_time P t d) = true ∧
      (cell.set_value_time P t d).value_ = value.from_double (P.time_to_number t)) ∧
    (cell.is_date (cell.set_value_timedelta T z d) = true ∧
      (cell.set_value_timedelta T z d).value_ =
        value.from_double (T.timedelta_to_number z)) ∧
    (cell.set_value_date T base_date x d).value_.get_type = value.type.numeric ∧
    (cell.set_value_datetime T base_date y d).value_.get_type = value.type.numeric ∧
    (cell.set_value_time P t d).value_.get_type = value.type.numeric ∧
    (cell.set_value_timedelta T z d).value_.get_type = value.type.numeric ∧
    (cell.set_value_date T base_date x d).value_ =
      ⟨value.type.numeric, .finite (T.date_to_number x base_date), []⟩ ∧
    (cell.set_value_datetime T base_date y d).value_ =
      ⟨value.type.numeric, T.datetime_to_number y base_date, []⟩ ∧
    (cell.set_value_time P t d).value_ = ⟨value.type.numeric, P.time_to_number t, []⟩ ∧
    (cell.set_value_timedelta T z d).value_ =
      ⟨value.type.numeric, T.timedelta_to_number z, []⟩ ∧
    (cell.set_value_date T base_date x d).value_.eq_int (T.date_to_number x base_date) = true ∧
    ((cell.set_value_date T calendar.mac_1904 x d).value_.numeric_value_ =
        (cell.set_value_date T calendar.windows_1900 x d).value_.numeric_value_ ↔
      T.date_to_number x calendar.mac_1904 = T.date_to_number x calendar.windows_1900) := by
  simp [cell.set_value_date, cell.set_value_datetime, cell.set_value_time,
    cell.set_value_timedelta, cell.set_value_int, cell.set_value_double, cell.is_date,
    value.from_int, value.from_double, value.get_type, value.eq_int, flt.eq]

end xlnt

/-! ## Facts on decimal texts -/

theorem digitChar_value (k : Nat) (h : k < 10) :
    (Nat.digitChar k).toNat - 48 = k ∧ isdigit (Nat.digitChar k) = true := by
  interval_cases k <;> decide

theorem digits_value_cons (acc : Nat) (c : Char) (cs : List Char) :
    digits_value acc (c :: cs) = digits_value (acc * 10 + (c.toNat - 48)) cs := rfl

theorem digits_value_toDigitsCore (f : Nat) :
    ∀ n ds, n < f → digits_value 0 (Nat.toDigitsCore 10 f n ds) = digits_value n ds := by
  induction f with
  | zero => intro n ds h; omega
  | succ f ih =>
    intro n ds h
    have hlt : n / 10 ≠ 0 → n / 10 < f := by omega
    have hn1 : n / 10 = 0 → n % 10 = n := by omega
    have hn2 : n / 10 * 10 + n % 10 = n := by omega
    have hd := (digitChar_value (n % 10) (Nat.mod_lt _ (by norm_num))).1
    rw [Nat.toDigitsCore]
    by_cases h0 : n / 10 = 0
    · simp only [h0, if_true]
      rw [digits_value_cons, hd, hn1 h0]
      simp
    · simp only [h0, if_false]
      rw [ih (n / 10) _ (hlt h0), digits_value_cons, hd, hn2]

theorem isdigit_toDigitsCore (f : Nat) :
    ∀ n ds, (∀ c ∈ ds, isdigit c = true) →
      ∀ c ∈ Nat.toDigitsCore 10 f n ds, isdigit c = true := by
  induction f with
  | zero => intro n ds h c hc; exact h c (by simpa [Nat.toDigitsCore] using hc)
  | succ f ih =>
    intro n ds h
    have hd := (digitChar_value (n % 10) (Nat.mod_lt _ (by norm_num))).2
    have hds : ∀ c ∈ Nat.digitChar (n % 10) :: ds, isdigit c = true := by
      intro c hc
      rcases List.mem_cons.mp hc with e | e
      · rw [e]; exact hd
      · exact h c e
    simp only [Nat.toDigitsCore]
    split_ifs with h0
    · exact hds
    · exact ih (n / 10) _ hds

theorem toDigitsCore_ne_nil (f n : Nat) (ds : List Char) (h : 0 < f) :
    Nat.toDigitsCore 10 f n ds ≠ [] := by
  induction f generalizing n ds with
  | zero => omega
  | succ f ih =>
    simp only [Nat.toDigitsCore]
    split_ifs with h0
    · simp
    · cases f with
      | zero => simp [Nat.toDigitsCore]
      | succ f => exact ih _ _ (by omega)

theorem digits_value_toDigits (n : Nat) : digits_value 0 (Nat.toDigits 10 n) = n := by
  rw [Nat.toDigits, digits_value_toDigitsCore (n + 1) n [] (by omega)]
  rfl

theorem isdigit_toDigits (n : Nat) : ∀ c ∈ Nat.toDigits 10 n, isdigit c = true :=
  isdigit_toDigitsCore (n + 1) n [] (by simp)

theorem toDigits_ne_nil (n : Nat) : Nat.toDigits 10 n ≠ [] :=
  toDigitsCore_ne_nil (n + 1) n [] (by omega)

/-- The function `std::stoi` on the decimal text of an integer: the integer itself when it is
an `int`, `out_of_range` otherwise. -/
theorem stoi_decimal_text (n : Int) :
    stoi (toString n).toList =
      if n < -2147483648 ∨ 2147483647 < n then .error exception.out_of_range else .ok n := by
  have hdig := isdigit_toDigits n.natAbs
  have hne := toDigits_ne_nil n.natAbs
  have hval := digits_value_toDigits n.natAbs
  obtain ⟨c, r, hcr⟩ := List.exists_cons_of_ne_nil hne
  have hc : isdigit c = true := hdig c (by rw [hcr]; exact List.mem_cons_self _ _)
  have htw : List.takeWhile isdigit (Nat.toDigits 10 n.natAbs) = Nat.toDigits 10 n.natAbs := by
    rw [List.takeWhile_eq_self_iff]; exact hdig
  rw [toString_int_toList]
  by_cases hneg : n < 0
  · have hcs : c_str (['-'] ++ Nat.toDigits 10 n.natAbs) = '-' :: Nat.toDigits 10 n.natAbs := by
      apply c_str_of_no_nul
      intro x hx
      rcases List.mem_cons.mp hx with e | e
      · rw [e]; decide
      · exact digit_not_nul x (hdig x e)
    have habs : ((n.natAbs : Nat) : Int) = -n := by omega
    simp only [hneg, if_true, stoi, hcs]
    have hsp : List.dropWhile isspace ('-' :: Nat.toDigits 10 n.natAbs) =
        '-' :: Nat.toDigits 10 n.natAbs := by
      simp [List.dropWhile, show isspace '-' = false from by decide]
    rw [hsp]
    simp only [strip_sign, htw, hval, habs]
    have he : (Nat.toDigits 10 n.natAbs).isEmpty = false := by simpa using hne
    simp only [he, neg_neg]
    simp
  · have hcs : c_str ([] ++ Nat.toDigits 10 n.natAbs) = Nat.toDigits 10 n.natAbs := by
      apply c_str_of_no_nul
      intro x hx
      exact digit_not_nul x (hdig x (by simpa using hx))
    have habs : ((n.natAbs : Nat) : Int) = n := by omega
    simp only [hneg, if_false, stoi, hcs]
    have hsp : List.dropWhile isspace (Nat.toDigits 10 n.natAbs) = Nat.toDigits 10 n.natAbs := by
      rw [hcr]; simp [List.dropWhile, isspace_of_digit c hc]
    rw [hsp]
    have hss : strip_sign (Nat.toDigits 10 n.natAbs) = (false, Nat.toDigits 10 n.natAbs) := by
      rw [hcr]; exact strip_sign_of_digit c r hc
    rw [hss]
    have he : (Nat.toDigits 10 n.natAbs).isEmpty = false := by simpa using hne
    simp only [htw, hval, habs, he]
    simp

theorem truncate_intCast (n : Int) : truncate (n : ℚ) = n := by
  unfold truncate
  split_ifs with h
  · exact Int.floor_intCast n
  · have : (-(n : ℚ)) = ((-n : Int) : ℚ) := by push_cast; ring
    rw [this, Int.floor_intCast]
    ring

namespace xlnt

open detail

/-- C21: the table `cell::ErrorCodes` has exactly the seven keys `#NULL!`, `#DIV/0!`, `#VALUE!`,
`#REF!`, `#NAME?`, `#NUM!`, `#N/A!`, with the codes 0 to 6 in this order: a key is found with a
code exactly when the pair is one of the seven, no two keys have the same code, and the codes
are exactly the integers from 0 to 6. -/
theorem error_codes_table (key other : List Char) (n : Int) :
    cell.ErrorCodes.map Prod.fst =
      ["#NULL!".toList, "#DIV/0!".toList, "#VALUE!".toList, "#REF!".toList, "#NAME?".toList,
       "#NUM!".toList, "#N/A!".toList] ∧
    cell.ErrorCodes.map Prod.snd = [0, 1, 2, 3, 4, 5, 6] ∧
    (cell.error_code key = some n ↔
      ((key = "#NULL!".toList ∧ n = 0) ∨ (key = "#DIV/0!".toList ∧ n = 1) ∨
       (key = "#VALUE!".toList ∧ n = 2) ∨ (key = "#REF!".toList ∧ n = 3) ∨
       (key = "#NAME?".toList ∧ n = 4) ∨ (key = "#NUM!".toList ∧ n = 5) ∨
       (key = "#N/A!".toList ∧ n = 6))) ∧
    (cell.error_code key = some n → cell.error_code other = some n → key = other) ∧
    ((∃ k, cell.error_code k = some n) ↔ (0 ≤ n ∧ n ≤ 6)) := by
  have hiff : ∀ (k : List Char) (m : Int), cell.error_code k = some m ↔
      ((k = "#NULL!".toList ∧ m = 0) ∨ (k = "#DIV/0!".toList ∧ m = 1) ∨
       (k = "#VALUE!".toList ∧ m = 2) ∨ (k = "#REF!".toList ∧ m = 3) ∨
       (k = "#NAME?".toList ∧ m = 4) ∨ (k = "#NUM!".toList ∧ m = 5) ∨
       (k = "#N/A!".toList ∧ m = 6)) := by
    intro k m
    unfold cell.error_code cell.ErrorCodes
    by_cases h0 : k = "#NULL!".toList
    · subst h0; simp [List.lookup]; omega
    by_cases h1 : k = "#DIV/0!".toList
    · subst h1; simp [List.lookup]; omega
    by_cases h2 : k = "#VALUE!".toList
    · subst h2; simp [List.lookup]; omega
    by_cases h3 : k = "#REF!".toList
    · subst h3; simp [List.lookup]; omega
    by_cases h4 : k = "#NAME?".toList
    · subst h4; simp [List.lookup]; omega
    by_cases h5 : k = "#NUM!".toList
    · subst h5; simp [List.lookup]; omega
    by_cases h6 : k = "#N/A!".toList
    · subst h6; simp [List.lookup]; omega
    · have e0 : (k == "#NULL!".toList) = false := by simpa using h0
      have e1 : (k == "#DIV/0!".toList) = false := by simpa using h1
      have e2 : (k == "#VALUE!".toList) = false := by simpa using h2
      have e3 : (k == "#REF!".toList) = false := by simpa using h3
      have e4 : (k == "#NAME?".toList) = false := by simpa using h4
      have e5 : (k == "#NUM!".toList) = false := by simpa using h5
      have e6 : (k == "#N/A!".toList) = false := by simpa using h6
      simp only [List.lookup, e0, e1, e2, e3, e4, e5, e6, h0, h1, h2, h3, h4, h5, h6]
      simp
  refine ⟨by decide, by decide, hiff key n, ?_, ?_⟩
  · intro hk ho
    rcases (hiff key n).mp hk with h | h | h | h | h | h | h <;>
      rcases (hiff other n).mp ho with g | g | g | g | g | g | g <;>
      obtain ⟨h1, h2⟩ := h <;> obtain ⟨g1, g2⟩ := g <;>
      first
        | (exfalso; omega)
        | (rw [h1, g1])
  · constructor
    · rintro ⟨k, hk⟩
      rcases (hiff k n).mp hk with h | h | h | h | h | h | h <;> omega
    · rintro ⟨h0, h6⟩
      have : n = 0 ∨ n = 1 ∨ n = 2 ∨ n = 3 ∨ n = 4 ∨ n = 5 ∨ n = 6 := by omega
      rcases this with h | h | h | h | h | h | h
      · exact ⟨"#NULL!".toList, (hiff _ _).mpr (Or.inl ⟨rfl, h⟩)⟩
      · exact ⟨"#DIV/0!".toList, (hiff _ _).mpr (Or.inr (Or.inl ⟨rfl, h⟩))⟩
      · exact ⟨"#VALUE!".toList, (hiff _ _).mpr (Or.inr (Or.inr (Or.inl ⟨rfl, h⟩)))⟩
      · exact ⟨"#REF!".toList, (hiff _ _).mpr (Or.inr (Or.inr (Or.inr (Or.inl ⟨rfl, h⟩))))⟩
      · exact ⟨"#NAME?".toList,
          (hiff _ _).mpr (Or.inr (Or.inr (Or.inr (Or.inr (Or.inl ⟨rfl, h⟩)))))⟩
      · exact ⟨"#NUM!".toList,
          (hiff _ _).mpr (Or.inr (Or.inr (Or.inr (Or.inr (Or.inr (Or.inl ⟨rfl, h⟩))))))⟩
      · exact ⟨"#N/A!".toList,
          (hiff _ _).mpr (Or.inr (Or.inr (Or.inr (Or.inr (Or.inr (Or.inr ⟨rfl, h⟩))))))⟩

/-- C21 at a concrete input: `#REF!` has the code 3 and nothing else has. -/
theorem error_codes_table_witness :
    cell.error_code "#REF!".toList = some 3 ∧
    (cell.error_code "#NUM!".toList = some 3 → "#REF!".toList = "#NUM!".toList) :=
  ⟨by decide, fun h =>
    (error_codes_table "#REF!".toList "#NUM!".toList 3).2.2.2.1 (by decide) h⟩

end xlnt

namespace xlnt

open detail

/-- C23: `set_value(bool)`, `set_value(int)`, `set_value(long long)` and `set_value(double)`
write the value and nothing else: the date flag, formula, comment, merged flag, hyperlink and
style are as before.  So after `set_value(date)` and then `set_value(5)` the cell still reports
`is_date()`.  `set_value(text)` clears the date flag before it looks at the text: what it
leaves does not depend on the flag the cell had, and the flag is set afterwards only for a
text it has classified as numeric with a colon in it. -/
theorem scalar_setters_keep_date_flag (P : externals) (T : temporal) (widen : Int → flt)
    (base_date : calendar) (d : cell_impl) (b : Bool) (i : Int) (x : flt) (day : date)
    (guess_types flag : Bool) (s : List Char) :
    cell.set_value_bool b d = { d with value_ := value.from_bool b } ∧
    cell.set_value_int i d = { d with value_ := value.from_int i } ∧
    cell.set_value_long_long widen i d = { d with value_ := value.from_int64 widen i } ∧
    cell.set_value_double x d = { d with value_ := value.from_double x } ∧
    ((cell.set_value_int i d).is_date_ = d.is_date_ ∧
      (cell.set_value_int i d).formula_ = d.formula_ ∧
      (cell.set_value_int i d).comment_ = d.comment_ ∧
      (cell.set_value_int i d).merged = d.merged ∧
      (cell.set_value_int i d).has_hyperlink_ = d.has_hyperlink_ ∧
      (cell.set_value_int i d).hyperlink_ = d.hyperlink_ ∧
      cell.is_date (cell.set_value_int i d) = cell.is_date d) ∧
    cell.is_date (cell.set_value_bool b d) = cell.is_date d ∧
    cell.is_date (cell.set_value_long_long widen i d) = cell.is_date d ∧
    cell.is_date (cell.set_value_double x d) = cell.is_date d ∧
    cell.is_date (cell.set_value_int 5 (cell.set_value_date T base_date day d)) = true ∧
    cell.set_value_string P guess_types s { d with is_date_ := flag } =
      cell.set_value_string P guess_types s { d with is_date_ := false } ∧
    ((cell.set_value_string P guess_types s d).cell.is_date_ = true →
      guess_types = true ∧ data_type_for_value s = .ok value.type.numeric ∧ ':' ∈ s) := by
  refine ⟨rfl, rfl, rfl, rfl, ⟨rfl, rfl, rfl, rfl, rfl, rfl, rfl⟩, rfl, rfl, rfl, ?_, ?_, ?_⟩
  · simp [cell.is_date, cell.set_value_int, cell.set_value_date]
  · cases guess_types with
    | false => simp [set_value_string_guess_off]
    | true => simp [cell.set_value_string]
  · intro h
    cases guess_types with
    | false => rw [set_value_string_guess_off] at h; simp at h
    | true =>
      refine ⟨rfl, ?_⟩
      cases hc : data_type_for_value s with
      | error e => rw [set_value_string_of_throw P s d e hc] at h; simp at h
      | ok t =>
        cases t with
        | boolean => rw [set_value_string_of_boolean P s d hc] at h; simp at h
        | null => rw [set_value_string_of_null P s d hc] at h; simp at h
        | string => rw [set_value_string_of_string P s d hc] at h; simp at h
        | error => rw [set_value_string_of_error P s d hc] at h; simp at h
        | numeric =>
          refine ⟨rfl, ?_⟩
          by_contra hcol
          simp only [cell.set_value_string, hc] at h
          split_ifs at h with h1 h2
          all_goals first
            | contradiction
            | (split at h <;> simp at h)

/-- C23 at a concrete input: the text `abc` leaves the date flag cleared. -/
theorem scalar_setters_keep_date_flag_witness :
    (cell.set_value_string ideal true "abc".toList
      { blank_cell with is_date_ := true }).cell.is_date_ = false := by
  have h := (scalar_setters_keep_date_flag ideal spec_temporal (fun k => .finite k)
    calendar.windows_1900 { blank_cell with is_date_ := true } true 0 (.finite 0)
    ⟨1900, 1, 1⟩ true true "abc".toList).2.2.2.2.2.2.2.2.2.2
  by_contra hne
  have ht : (cell.set_value_string ideal true "abc".toList
      { blank_cell with is_date_ := true }).cell.is_date_ = true := by
    simpa using hne
  exact absurd (h ht).2.1 (by decide)

/-- C25: `set_error(text)` fails exactly when the text is empty or does not begin with `#`, and
then leaves the cell as it was; otherwise it completes and the value of the cell is the
error value with the given text, and nothing else of the cell changes.  The workbook's
`guess_types` flag is no argument of it. -/
theorem set_error_fails_iff_no_hash (error : List Char) (d : cell_impl) :
    ((cell.set_error error d).thrown ≠ none ↔ (error = [] ∨ error.head? ≠ some '#')) ∧
    ((cell.set_error error d).thrown ≠ none →
      (cell.set_error error d).thrown = some exception.data_type_exception ∧
      (cell.set_error error d).cell = d) ∧
    ((cell.set_error error d).thrown = none →
      (cell.set_error error d).cell = { d with value_ := value.error error } ∧
      (cell.set_error error d).cell.value_.get_type = value.type.error ∧
      (cell.set_error error d).cell.value_.string_value_ = error) := by
  unfold cell.set_error
  by_cases h : error.length = 0 ∨ error.head? ≠ some '#'
  · simp only [h, if_true]
    refine ⟨?_, ?_, ?_⟩
    · rcases h with h | h
      · simp [List.length_eq_zero.mp h]
      · simp [h]
    · intro _; simp
    · intro hn; simp at hn
  · simp only [h, if_false]
    have h2 : ¬ (error = [] ∨ error.head? ≠ some '#') := by
      intro hh
      apply h
      rcases hh with hh | hh
      · left; simp [hh]
      · right; exact hh
    refine ⟨?_, ?_, ?_⟩
    · simp [h2]
    · intro hn; simp at hn
    · intro _
      simp [cell.set_value, value.error, value.from_string, value.get_type]

/-- C25 at a concrete input: `#N/A` becomes the error value of the cell. -/
theorem set_error_fails_iff_no_hash_witness :
    (cell.set_error "#N/A".toList blank_cell).cell.value_.get_type = value.type.error :=
  ((set_error_fails_iff_no_hash "#N/A".toList blank_cell).2.2 (by decide)).2.1

/-- C26: `as<int64_t>()` of a string value reads the text with `std::stoi`: for the decimal text
of an integer `n` it returns `n` when `n` is between -2^31 and 2^31-1 and fails with
`out_of_range` otherwise; the numeric value constructed from a 64-bit integer of magnitude
below 2^53 gives the integer back. -/
theorem as_int64_reads_text_as_int (E : environment) (widen : Int → flt) (n : Int) :
    (-2147483648 ≤ n ∧ n ≤ 2147483647 →
      value.as_int64 E (value.from_string (toString n).toList) = .ok n) ∧
    (n < -2147483648 ∨ 2147483647 < n →
      value.as_int64 E (value.from_string (toString n).toList) =
        .error exception.out_of_range) ∧
    (|n| < 9007199254740992 → value.as_int64 E (value.from_int64 widen n) = .ok n) := by
  have hs : value.as_int64 E (value.from_string (toString n).toList) =
      stoi (toString n).toList := rfl
  refine ⟨?_, ?_, ?_⟩
  · rintro ⟨h1, h2⟩
    rw [hs, stoi_decimal_text, if_neg (by omega)]
  · intro h
    rw [hs, stoi_decimal_text, if_pos h]
  · intro h
    have hle : |n| ≤ 9007199254740992 := le_of_lt h
    have hb := abs_lt.mp h
    simp only [value.as_int64, value.from_int64, hle, if_true, cast_integer, truncate_intCast]
    rw [if_pos ⟨by omega, by omega⟩]

/-- C26 at a concrete input: the text of 2^31 fails, the numeric value 2^31 is returned. -/
theorem as_int64_reads_text_as_int_witness :
    value.as_int64 ideal_environment (value.from_string "2147483648".toList) =
      .error exception.out_of_range ∧
    value.as_int64 ideal_environment (value.from_int64 (fun k => .finite k) 2147483648) =
      .ok 2147483648 :=
  ⟨(as_int64_reads_text_as_int ideal_environment (fun k => .finite k) 2147483648).2.1
      (Or.inr (by decide)),
    (as_int64_reads_text_as_int ideal_environment (fun k => .finite k) 2147483648).2.2
      (by decide)⟩

end xlnt

/-! ## Facts on the calendar arithmetic -/

theorem days_before_year_succ (y : Int) :
    days_before_year (y + 1) = days_before_year y + (if is_leap_year y then 366 else 365) := by
  unfold days_before_year is_leap_year
  simp only [add_sub_cancel_right]
  split_ifs with h <;> simp at h <;> omega


theorem days_in_month_pos (y m : Int) : 28 ≤ days_in_month y m ∧ days_in_month y m ≤ 31 := by
  unfold days_in_month
  split_ifs <;> omega

theorem days_before_month_mono (y : Int) (a b : Nat) :
    days_before_month y a ≤ days_before_month y (a + b) := by
  induction b with
  | zero => simp
  | succ b ih =>
    have h := (days_in_month_pos y ((a + b : Nat) + 1)).1
    rw [← Nat.add_assoc, days_before_month]
    omega

theorem days_before_month_twelve (y : Int) :
    days_before_month y 12 = if is_leap_year y then 366 else 365 := by
  have h : days_before_month y 12 = days_in_month y 1 + days_in_month y 2 + days_in_month y 3 +
      days_in_month y 4 + days_in_month y 5 + days_in_month y 6 + days_in_month y 7 +
      days_in_month y 8 + days_in_month y 9 + days_in_month y 10 + days_in_month y 11 +
      days_in_month y 12 := by
    simp only [days_before_month]
    norm_num
  rw [h]
  simp only [days_in_month]
  norm_num
  split_ifs <;> rfl

theorem month_and_day_spec (y d : Int) (hd : 1 ≤ d) :
    ∀ (k j t : Nat), t ≤ k → d ≤ days_in_month y ((j + t : Nat) + 1) →
      date.month_and_day y k ((j : Int) + 1)
          (days_before_month y (j + t) - days_before_month y j + d - 1) =
        ⟨y, ((j + t : Nat) : Int) + 1, d⟩ := by
  intro k
  induction k with
  | zero =>
    intro j t ht hdim
    have : t = 0 := by omega
    subst this
    simp [date.month_and_day]
  | succ k ih =>
    intro j t ht hdim
    cases t with
    | zero =>
      have h1 : days_before_month y (j + 0) - days_before_month y j + d - 1 = d - 1 := by
        simp
      rw [h1, date.month_and_day]
      have h2 : d - 1 < days_in_month y ((j : Int) + 1) := by
        have := hdim
        simp only [Nat.add_zero] at this
        omega
      rw [if_pos h2]
      simp
    | succ t =>
      have hm := days_before_month_mono y (j + 1) t
      have hs : days_before_month y (j + 1) = days_before_month y j + days_in_month y (j + 1) :=
        rfl
      have e1 : j + 1 + t = j + (t + 1) := by omega
      rw [e1] at hm
      rw [date.month_and_day]
      have h2 : ¬ (days_before_month y (j + (t + 1)) - days_before_month y j + d - 1 <
          days_in_month y ((j : Int) + 1)) := by omega
      rw [if_neg h2]
      have h3 := ih (j + 1) t (by omega) (by rw [e1]; exact hdim)
      rw [e1] at h3
      have e2 : (((j + 1 : Nat) : Int) + 1) = (j : Int) + 1 + 1 := by push_cast; ring
      rw [e2] at h3
      rw [← h3]
      congr 1
      rw [hs]
      ring

theorem of_day_number_in_year (y doy : Int) (h0 : 0 ≤ doy)
    (h1 : doy < 365 ∨ (doy = 365 ∧ is_leap_year y = true)) :
    date.of_day_number (days_before_year y + doy + 1) = date.month_and_day y 11 1 doy := by
  obtain ⟨a, ha⟩ : ∃ a, a = (y - 1) / 400 := ⟨_, rfl⟩
  obtain ⟨b, hb⟩ : ∃ b, b = (y - 1) % 400 / 100 := ⟨_, rfl⟩
  obtain ⟨c, hc⟩ : ∃ c, c = (y - 1) % 100 / 4 := ⟨_, rfl⟩
  obtain ⟨e, he⟩ : ∃ e, e = (y - 1) % 4 := ⟨_, rfl⟩
  have hdec : y = 400 * a + 100 * b + 4 * c + e + 1 := by omega
  have hb0 : 0 ≤ b ∧ b < 4 := by omega
  have hc0 : 0 ≤ c ∧ c < 25 := by omega
  have he0 : 0 ≤ e ∧ e < 4 := by omega
  have hleap : is_leap_year y = true → e = 3 ∧ (c ≠ 24 ∨ b = 3) := by
    intro h
    simp only [is_leap_year, decide_eq_true_eq] at h
    omega
  have hdby : days_before_year y = 146097 * a + 36524 * b + 1461 * c + 365 * e := by
    unfold days_before_year
    omega
  clear ha hb hc he
  have hdoy : doy < 365 ∨ (doy = 365 ∧ e = 3 ∧ (c ≠ 24 ∨ b = 3)) := by
    rcases h1 with h | ⟨h, hl⟩
    · exact Or.inl h
    · exact Or.inr ⟨h, hleap hl⟩
  clear hleap h1
  obtain ⟨r4, hr4⟩ : ∃ r, r = 365 * e + doy := ⟨_, rfl⟩
  obtain ⟨r100, hr100⟩ : ∃ r, r = 1461 * c + r4 := ⟨_, rfl⟩
  obtain ⟨r400, hr400⟩ : ∃ r, r = 36524 * b + r100 := ⟨_, rfl⟩
  have e1 : (days_before_year y + doy + 1 - 1) / 146097 = a := by omega
  have e2 : (days_before_year y + doy + 1 - 1) % 146097 = r400 := by omega
  have e3 : min (r400 / 36524) 3 = b := by
    rcases lt_or_ge (r400 / 36524) 3 with h | h
    · rw [min_eq_left (le_of_lt h)]; omega
    · rw [min_eq_right h]; omega
  have e4 : r400 - 36524 * b = r100 := by omega
  have e5 : r100 / 1461 = c := by omega
  have e6 : r100 % 1461 = r4 := by omega
  have e7 : min (r4 / 365) 3 = e := by
    rcases lt_or_ge (r4 / 365) 3 with h | h
    · rw [min_eq_left (le_of_lt h)]; omega
    · rw [min_eq_right h]; omega
  have e8 : r4 - 365 * e = doy := by omega
  simp only [date.of_day_number]
  rw [e1, e2, e3, e4, e5, e6, e7, e8, ← hdec]

theorem of_day_number_day_number (d : date) (hv : d.valid) :
    date.of_day_number (date.day_number d) = d := by
  obtain ⟨y, m, dd⟩ := d
  obtain ⟨h1, h2, h3, h4⟩ := hv
  simp only at h1 h2 h3 h4
  obtain ⟨t, ht⟩ : ∃ t : Nat, m = (t : Int) + 1 := ⟨(m - 1).toNat, by omega⟩
  subst ht
  have ht12 : t + 1 ≤ 12 := by omega
  have hmono := days_before_month_mono y (t + 1) (12 - (t + 1))
  rw [Nat.add_sub_cancel' ht12, days_before_month_twelve] at hmono
  have hstep : days_before_month y (t + 1) = days_before_month y t + days_in_month y (t + 1) :=
    rfl
  have hnn := days_before_month_mono y 0 t
  simp only [Nat.zero_add] at hnn
  have hz : days_before_month y 0 = 0 := rfl
  have hspec := month_and_day_spec y dd h3 11 0 t (by omega) (by simpa using h4)
  simp only [Nat.zero_add, hz, sub_zero, Nat.cast_zero, zero_add] at hspec
  have hmt : ((t : Int) + 1 - 1).toNat = t := by simp
  have hdoy : days_before_year y + days_before_month y t + dd =
      days_before_year y + (days_before_month y t + dd - 1) + 1 := by ring
  simp only [date.day_number, hmt]
  rw [hdoy, of_day_number_in_year y _ (by omega) ?_, hspec]
  by_cases hl : is_leap_year y = true
  · rw [if_pos hl] at hmono
    rcases lt_or_ge (days_before_month y t + dd - 1) 365 with h | h
    · exact Or.inl h
    · exact Or.inr ⟨by omega, hl⟩
  · rw [if_neg hl] at hmono
    exact Or.inl (by omega)

theorem day_number_from_march_1900 (d : date) (hv : d.valid)
    (h : 1900 < d.year ∨ (d.year = 1900 ∧ 3 ≤ d.month)) :
    60 ≤ date.day_number d - date.day_number ⟨1899, 12, 31⟩ := by
  obtain ⟨y, m, dd⟩ := d
  obtain ⟨h1, h2, h3, h4⟩ := hv
  simp only at h1 h2 h3 h4 h
  have hb : date.day_number ⟨1899, 12, 31⟩ = 693595 := by decide
  have hnn := days_before_month_mono y 0 (m - 1).toNat
  simp only [Nat.zero_add] at hnn
  have hz : days_before_month y 0 = 0 := rfl
  rw [hb]
  simp only [date.day_number]
  rcases h with h | ⟨h, hm⟩
  · have hy : 693960 ≤ days_before_year y := by
      unfold days_before_year
      omega
    omega
  · subst h
    have hm2 := days_before_month_mono 1900 2 ((m - 1).toNat - 2)
    have e : 2 + ((m - 1).toNat - 2) = (m - 1).toNat := by omega
    rw [e] at hm2
    have h59 : days_before_month 1900 2 = 59 := by decide
    have hy : days_before_year 1900 = 693595 := by decide
    omega

theorem day_number_before_march_1900 (d : date) (hv : d.valid)
    (h : d.year = 1900 ∧ d.month < 3) :
    date.day_number d - date.day_number ⟨1899, 12, 31⟩ < 60 := by
  obtain ⟨y, m, dd⟩ := d
  obtain ⟨h1, h2, h3, h4⟩ := hv
  simp only at h1 h2 h3 h4 h
  obtain ⟨hy, hm⟩ := h
  subst hy
  have hb : date.day_number ⟨1899, 12, 31⟩ = 693595 := by decide
  have hy : days_before_year 1900 = 693595 := by decide
  rw [hb]
  simp only [date.day_number, hy]
  have hcases : m = 1 ∨ m = 2 := by omega
  rcases hcases with hm1 | hm1
  · subst hm1
    have e1 : days_before_month 1900 ((1 : Int) - 1).toNat = 0 := by decide
    have e2 : days_in_month 1900 1 = 31 := by decide
    omega
  · subst hm1
    have e1 : days_before_month 1900 ((2 : Int) - 1).toNat = 31 := by decide
    have e2 : days_in_month 1900 2 = 28 := by decide
    omega

namespace xlnt

open detail

/-- C22: under the calendar `windows_1900`, `from_number(to_number(d))` is `d` for every date
`d` of the Gregorian calendar, so for every date from 1900-01-01 to 9999-12-31, and for the
fictitious date 1900-02-29, whose serial is 60, while `from_number(60)` is 1900-02-29.  The
serial of 1900-01-01 is 1; up to 1900-02-28 the serial is the number of days since 1899-12-31,
and for every date from 1900-03-01 onward it is that number plus one. -/
theorem date_serial_round_trip (d : date) (hv : d.valid ∨ d = ⟨1900, 2, 29⟩) :
    date.from_number (date.to_number d calendar.windows_1900) calendar.windows_1900 = d ∧
    date.to_number ⟨1900, 2, 29⟩ calendar.windows_1900 = 60 ∧
    date.from_number 60 calendar.windows_1900 = ⟨1900, 2, 29⟩ ∧
    date.to_number ⟨1900, 1, 1⟩ calendar.windows_1900 = 1 ∧
    (d.valid → 1900 < d.year ∨ (d.year = 1900 ∧ 3 ≤ d.month) →
      date.to_number d calendar.windows_1900 =
        date.day_number d - date.day_number ⟨1899, 12, 31⟩ + 1) ∧
    (d.valid → d.year = 1900 ∧ d.month < 3 →
      date.to_number d calendar.windows_1900 =
        date.day_number d - date.day_number ⟨1899, 12, 31⟩) := by
  have hfeb : ∀ x : date, x.valid → x ≠ ⟨1900, 2, 29⟩ := by
    intro x hx he
    subst he
    revert hx
    decide
  refine ⟨?_, by decide, by decide, by decide, ?_, ?_⟩
  · rcases hv with hv | hv
    · have hne := hfeb d hv
      have hinv := of_day_number_day_number d hv
      simp only [date.to_number, if_neg hne]
      by_cases hlt : date.day_number d - date.day_number ⟨1899, 12, 31⟩ < 60
      · simp only [if_pos hlt, date.from_number]
        rw [if_neg (by omega), sub_add_cancel, hinv]
      · simp only [if_neg hlt, date.from_number]
        rw [if_neg (by omega), if_neg (by omega), add_sub_cancel_right, sub_add_cancel, hinv]
    · subst hv
      decide
  · intro hd h
    have h60 := day_number_from_march_1900 d hd h
    simp only [date.to_number, if_neg (hfeb d hd)]
    rw [if_neg (by omega)]
  · intro hd h
    have h60 := day_number_before_march_1900 d hd h
    simp only [date.to_number, if_neg (hfeb d hd)]
    rw [if_pos h60]

/-- C22 at a concrete input: the last day of February 2000 has the serial 36585 and is read
back from it. -/
theorem date_serial_round_trip_witness :
    date.from_number (date.to_number ⟨2000, 2, 29⟩ calendar.windows_1900)
      calendar.windows_1900 = ⟨2000, 2, 29⟩ :=
  (date_serial_round_trip ⟨2000, 2, 29⟩ (Or.inl (by decide))).1

/-- C24: a value equals a `date` or a `datetime` exactly when it is numeric and its number is
the serial of the record under the calendar `windows_1900`.  So the value a cell holds after
`set_value(d)` equals `d` exactly when the serial of `d` under the calendar of the workbook is
its serial under `windows_1900`, which for a workbook with the calendar `mac_1904` is a
condition on `d`. -/
theorem date_comparison_uses_windows_1900 (T : temporal) (v : value) (base_date : calendar)
    (c : cell_impl) (x : date) (y : datetime) :
    (value.eq_date T v x = true ↔
      v.get_type = value.type.numeric ∧
        flt.eq (.finite (T.date_to_number x calendar.windows_1900)) v.numeric_value_ = true) ∧
    (value.eq_datetime T v y = true ↔
      v.get_type = value.type.numeric ∧
        flt.eq (T.datetime_to_number y calendar.windows_1900) v.numeric_value_ = true) ∧
    (value.eq_date T (cell.get_value (cell.set_value_date T base_date x c)) x = true ↔
      T.date_to_number x base_date = T.date_to_number x calendar.windows_1900) ∧
    (value.eq_datetime T (cell.get_value (cell.set_value_datetime T base_date y c)) y = true ↔
      flt.eq (T.datetime_to_number y calendar.windows_1900)
        (T.datetime_to_number y base_date) = true) := by
  refine ⟨?_, ?_, ?_, ?_⟩
  · simp [value.eq_date, value.get_type]
  · simp [value.eq_datetime, value.get_type]
  · simp [value.eq_date, cell.get_value, cell.set_value_date, cell.set_value_int,
      value.from_int, flt.eq, eq_comm]
  · simp [value.eq_datetime, cell.get_value, cell.set_value_datetime, cell.set_value_double,
      value.from_double]

/-- C24 at a concrete input: in a workbook with the calendar `mac_1904` the value of a cell
that was set to 2000-01-01 does not equal 2000-01-01. -/
theorem date_comparison_uses_windows_1900_witness :
    value.eq_date spec_temporal
      (cell.get_value (cell.set_value_date spec_temporal calendar.mac_1904 ⟨2000, 1, 1⟩
        blank_cell)) ⟨2000, 1, 1⟩ = false := by
  have h := (date_comparison_uses_windows_1900 spec_temporal value.null calendar.mac_1904
    blank_cell ⟨2000, 1, 1⟩ ⟨2000, 1, 1, 0, 0, 0, 0⟩).2.2.1
  have hne : ¬ (spec_temporal.date_to_number ⟨2000, 1, 1⟩ calendar.mac_1904 =
      spec_temporal.date_to_number ⟨2000, 1, 1⟩ calendar.windows_1900) := by decide
  cases hb : value.eq_date spec_temporal
      (cell.get_value (cell.set_value_date spec_temporal calendar.mac_1904 ⟨2000, 1, 1⟩
        blank_cell)) ⟨2000, 1, 1⟩ with
  | false => rfl
  | true => exact absurd (h.mp hb) hne

end xlnt

/-! ## Facts on the arithmetic of `double` -/

theorem round_half_even_bounds (x : ℚ) (hx : 0 ≤ x) :
    ((⌊x⌋.toNat : ℕ) : ℚ) ≤ x ∧ x < ((⌊x⌋.toNat : ℕ) : ℚ) + 1 ∧
    (round_half_even x = ⌊x⌋.toNat ∨
      (round_half_even x = ⌊x⌋.toNat + 1 ∧ ((⌊x⌋.toNat : ℕ) : ℚ) + 1 / 2 ≤ x)) ∧
    (((⌊x⌋.toNat : ℕ) : ℚ) + 1 / 2 < x → round_half_even x = ⌊x⌋.toNat + 1) := by
  have h0 : (0 : Int) ≤ ⌊x⌋ := Int.floor_nonneg.mpr hx
  have hc : ((⌊x⌋.toNat : ℕ) : ℚ) = ((⌊x⌋ : Int) : ℚ) := by
    have : ((⌊x⌋.toNat : ℕ) : Int) = ⌊x⌋ := Int.toNat_of_nonneg h0
    exact_mod_cast this
  have h1 : ((⌊x⌋ : Int) : ℚ) ≤ x := Int.floor_le x
  have h2 : x < ((⌊x⌋ : Int) : ℚ) + 1 := Int.lt_floor_add_one x
  rw [hc]
  refine ⟨h1, h2, ?_, ?_⟩
  · unfold round_half_even
    simp only
    rw [hc]
    split_ifs with a b c
    · left; rfl
    · right; exact ⟨rfl, by linarith⟩
    · left; rfl
    · right
      refine ⟨rfl, ?_⟩
      push_neg at a
      linarith
  · intro h
    unfold round_half_even
    simp only
    rw [hc]
    rw [if_neg (by linarith), if_pos (by linarith)]

theorem round_half_even_ge (x : ℚ) (n : ℕ) (hx : (n : ℚ) ≤ x) : n ≤ round_half_even x := by
  have hx0 : 0 ≤ x := le_trans (Nat.cast_nonneg n) hx
  obtain ⟨h1, h2, h3, _⟩ := round_half_even_bounds x hx0
  have : n ≤ ⌊x⌋.toNat := by
    have : (n : ℚ) < ((⌊x⌋.toNat : ℕ) : ℚ) + 1 := lt_of_le_of_lt hx h2
    have : (n : ℚ) < ((⌊x⌋.toNat + 1 : ℕ) : ℚ) := by push_cast; exact this
    have := Nat.cast_lt.mp this
    omega
  rcases h3 with h3 | ⟨h3, _⟩ <;> omega

theorem round_half_even_le (x : ℚ) (n : ℕ) (h0 : 0 ≤ x) (hx : x ≤ n) :
    round_half_even x ≤ n := by
  obtain ⟨h1, h2, h3, _⟩ := round_half_even_bounds x h0
  have hf : ⌊x⌋.toNat ≤ n := by
    have : ((⌊x⌋.toNat : ℕ) : ℚ) ≤ (n : ℚ) := le_trans h1 hx
    exact Nat.cast_le.mp this
  rcases h3 with h3 | ⟨h3, h4⟩
  · omega
  · have : ((⌊x⌋.toNat : ℕ) : ℚ) < (n : ℚ) := by linarith
    have := Nat.cast_lt.mp this
    omega

theorem round_half_even_gt (x : ℚ) (n : ℕ) (hx : (n : ℚ) + 1 / 2 < x) :
    n + 1 ≤ round_half_even x := by
  have hx0 : 0 ≤ x := by
    have : (0 : ℚ) ≤ n := Nat.cast_nonneg n
    linarith
  obtain ⟨h1, h2, h3, h4⟩ := round_half_even_bounds x hx0
  have hn : n ≤ ⌊x⌋.toNat := by
    have : (n : ℚ) < ((⌊x⌋.toNat + 1 : ℕ) : ℚ) := by push_cast; linarith
    have := Nat.cast_lt.mp this
    omega
  rcases Nat.lt_or_ge n ⌊x⌋.toNat with h | h
  · rcases h3 with h3 | ⟨h3, _⟩ <;> omega
  · have he : ⌊x⌋.toNat = n := by omega
    rw [he] at h4
    rw [h4 hx]

theorem two_zpow_pos (e : Int) : (0 : ℚ) < (2 : ℚ) ^ e := zpow_pos (by norm_num) e

theorem two_zpow_grid (e k : Int) (h : e ≤ k) :
    ∃ i : ℕ, 0 < i ∧ (2 : ℚ) ^ k = (i : ℚ) * (2 : ℚ) ^ e := by
  refine ⟨2 ^ (k - e).toNat, Nat.pow_pos (by norm_num), ?_⟩
  have hk : k = ((k - e).toNat : Int) + e := by omega
  conv_lhs => rw [hk]
  rw [zpow_add₀ (by norm_num), zpow_natCast]
  push_cast
  rfl

theorem two_zpow_mono (a b : Int) (h : a ≤ b) : (2 : ℚ) ^ a ≤ (2 : ℚ) ^ b :=
  zpow_le_zpow_right₀ (by norm_num) h

theorem log_two_bounds (q : ℚ) (hq : 0 < q) :
    (2 : ℚ) ^ Int.log 2 q ≤ q ∧ q < (2 : ℚ) ^ (Int.log 2 q + 1) := by
  have h1 := Int.zpow_log_le_self (b := 2) (r := q) (by norm_num) hq
  have h2 := Int.lt_zpow_succ_log_self (b := 2) (by norm_num) q
  exact ⟨by simpa using h1, by simpa using h2⟩

theorem log_two_ge (q : ℚ) (hq : 0 < q) (k : Int) (h : (2 : ℚ) ^ k ≤ q) : k ≤ Int.log 2 q := by
  have := (Int.zpow_le_iff_le_log (b := 2) (x := k) (r := q) (by norm_num) hq).mp
    (by simpa using h)
  exact this

theorem log_two_lt (q : ℚ) (hq : 0 < q) (k : Int) (h : q < (2 : ℚ) ^ k) : Int.log 2 q < k := by
  have := (Int.lt_zpow_iff_log_lt (b := 2) (x := k) (r := q) (by norm_num) hq).mp
    (by simpa using h)
  exact this

theorem binary64_exponent_of_pos (q : ℚ) (hq : 0 < q) :
    binary64_exponent q = max (Int.log 2 q - 52) (-1074) := by
  unfold binary64_exponent
  rw [abs_of_pos hq]

theorem binary64_exponent_le (q : ℚ) (hq : 0 < q) (k : Int) (hk : -1074 ≤ k)
    (h : q < (2 : ℚ) ^ (k + 53)) : binary64_exponent q ≤ k := by
  rw [binary64_exponent_of_pos q hq]
  have := log_two_lt q hq _ h
  exact max_le (by omega) hk

theorem binary64_nearest_of_pos (q : ℚ) (hq : 0 < q) :
    binary64_nearest q =
      (round_half_even (q / (2 : ℚ) ^ binary64_exponent q) : ℚ) *
        (2 : ℚ) ^ binary64_exponent q := by
  unfold binary64_nearest
  rw [abs_of_pos hq]

/-- A multiple of `2 ^ k` that is not above `q` is not above the binary64 value nearest to
`q`, when the values of the size of `q` are multiples of `2 ^ k`. -/
theorem nearest_ge_grid (q : ℚ) (hq : 0 < q) (j : ℕ) (k : Int)
    (hk : binary64_exponent q ≤ k) (h : (j : ℚ) * (2 : ℚ) ^ k ≤ q) :
    (j : ℚ) * (2 : ℚ) ^ k ≤ binary64_nearest q := by
  have hu := two_zpow_pos (binary64_exponent q)
  obtain ⟨i, -, hi⟩ := two_zpow_grid _ _ hk
  rw [binary64_nearest_of_pos q hq]
  rw [hi] at h ⊢
  have h1 : ((j * i : ℕ) : ℚ) ≤ q / (2 : ℚ) ^ binary64_exponent q := by
    rw [le_div_iff₀ hu]
    push_cast
    linarith
  have h2 := round_half_even_ge _ _ h1
  have h3 : ((j * i : ℕ) : ℚ) ≤
      (round_half_even (q / (2 : ℚ) ^ binary64_exponent q) : ℚ) := by exact_mod_cast h2
  have h4 := mul_le_mul_of_nonneg_right h3 (le_of_lt hu)
  push_cast at h4
  linarith

/-- A multiple of `2 ^ k` that is not below `q` is not below the binary64 value nearest to
`q`, when the values of the size of `q` are multiples of `2 ^ k`. -/
theorem nearest_le_grid (q : ℚ) (hq : 0 < q) (j : ℕ) (k : Int)
    (hk : binary64_exponent q ≤ k) (h : q ≤ (j : ℚ) * (2 : ℚ) ^ k) :
    binary64_nearest q ≤ (j : ℚ) * (2 : ℚ) ^ k := by
  have hu := two_zpow_pos (binary64_exponent q)
  obtain ⟨i, -, hi⟩ := two_zpow_grid _ _ hk
  rw [binary64_nearest_of_pos q hq]
  rw [hi] at h ⊢
  have h1 : q / (2 : ℚ) ^ binary64_exponent q ≤ ((j * i : ℕ) : ℚ) := by
    rw [div_le_iff₀ hu]
    push_cast
    linarith
  have h2 := round_half_even_le _ _ (le_of_lt (div_pos hq hu)) h1
  have h3 : (round_half_even (q / (2 : ℚ) ^ binary64_exponent q) : ℚ) ≤
      ((j * i : ℕ) : ℚ) := by exact_mod_cast h2
  have h4 := mul_le_mul_of_nonneg_right h3 (le_of_lt hu)
  push_cast at h4
  linarith

/-- The binary64 value nearest to `q` is not below the power of two at or below `q`. -/
theorem nearest_ge_pow (q : ℚ) (hq : 0 < q) (h : -1074 ≤ Int.log 2 q) :
    (2 : ℚ) ^ Int.log 2 q ≤ binary64_nearest q := by
  have hk : binary64_exponent q ≤ Int.log 2 q := by
    rw [binary64_exponent_of_pos q hq]
    exact max_le (by omega) h
  have := nearest_ge_grid q hq 1 (Int.log 2 q) hk (by simpa using (log_two_bounds q hq).1)
  simpa using this

theorem nearest_pos (q : ℚ) (h : (2 : ℚ) ^ (-1074 : Int) ≤ q) : 0 < binary64_nearest q := by
  have hq : 0 < q := lt_of_lt_of_le (two_zpow_pos _) h
  have hl := log_two_ge q hq _ h
  exact lt_of_lt_of_le (two_zpow_pos _) (nearest_ge_pow q hq hl)

/-- Rounding to nearest steps over a natural number `n` exactly represented: a `t` above `n` by
more than the relative distance 2^-53 is rounded to a value above `n` by more than that. -/
theorem nearest_gt_of_gt (n : ℕ) (hn : 1 ≤ n) (hn2 : (n : ℚ) < (2 : ℚ) ^ (53 : Int)) (t : ℚ)
    (ht : (n : ℚ) + (n : ℚ) / 2 ^ (53 : Nat) < t) :
    (n : ℚ) + (n : ℚ) / 2 ^ (53 : Nat) < binary64_nearest t := by
  have hn0 : (0 : ℚ) < n := by exact_mod_cast hn
  have hn1 : (1 : ℚ) ≤ n := by exact_mod_cast hn
  have ht0 : 0 < t := by
    have : (0 : ℚ) ≤ (n : ℚ) / 2 ^ (53 : Nat) := by positivity
    linarith
  obtain ⟨l1, l2⟩ := log_two_bounds (n : ℚ) hn0
  obtain ⟨L, hL⟩ : ∃ L, L = Int.log 2 (n : ℚ) := ⟨_, rfl⟩
  rw [← hL] at l1 l2
  have hL0 : 0 ≤ L := by
    rw [hL]
    exact log_two_ge _ hn0 0 (by simpa using hn1)
  have hL52 : L ≤ 52 := by
    have := log_two_lt _ hn0 53 hn2
    omega
  -- the unit in the last place of `n`
  have hu : (2 : ℚ) ^ (L - 52) * 2 ^ (53 : Nat) = 2 * 2 ^ L := by
    have : (2 : ℚ) ^ (53 : Nat) = (2 : ℚ) ^ (53 : Int) := by norm_cast
    rw [this, ← zpow_add₀ (by norm_num), ← zpow_one_add₀ (by norm_num)]
    congr 1
    omega
  have hup := two_zpow_pos (L - 52)
  have hLp := two_zpow_pos L
  have h253 : (0 : ℚ) < 2 ^ (53 : Nat) := by positivity
  have hsucc : (2 : ℚ) ^ (L + 1) = 2 * 2 ^ L := by
    rw [zpow_add_one₀ (by norm_num)]
    ring
  rw [hsucc] at l2
  -- `n` is a multiple of its unit
  obtain ⟨i, -, hi⟩ := two_zpow_grid (L - 52) 0 (by omega)
  simp only [zpow_zero] at hi
  have hnk : (n : ℚ) = ((n * i : ℕ) : ℚ) * (2 : ℚ) ^ (L - 52) := by
    push_cast
    rw [mul_assoc, ← hi, mul_one]
  -- the unit is more than `n / 2 ^ 53`
  have hrel : (n : ℚ) / 2 ^ (53 : Nat) < (2 : ℚ) ^ (L - 52) := by
    rw [div_lt_iff₀ h253, hu]
    exact l2
  have hhalf : (2 : ℚ) ^ (L - 52) / 2 ≤ (n : ℚ) / 2 ^ (53 : Nat) := by
    rw [le_div_iff₀ h253, div_mul_eq_mul_div, hu]
    linarith
  rcases lt_or_ge t ((2 : ℚ) ^ (L + 1)) with hlt | hge
  · -- `t` has the exponent of `n`
    have hlog : Int.log 2 t = L := by
      have a := log_two_ge t ht0 L (by linarith)
      have b := log_two_lt t ht0 (L + 1) hlt
      omega
    have he : binary64_exponent t = L - 52 := by
      rw [binary64_exponent_of_pos t ht0, hlog]
      exact max_eq_left (by omega)
    rw [binary64_nearest_of_pos t ht0, he]
    have h1 : ((n * i : ℕ) : ℚ) + 1 / 2 < t / (2 : ℚ) ^ (L - 52) := by
      rw [lt_div_iff₀ hup, add_mul, ← hnk]
      linarith
    have h2 := round_half_even_gt _ _ h1
    have h3 : ((n * i + 1 : ℕ) : ℚ) ≤ (round_half_even (t / (2 : ℚ) ^ (L - 52)) : ℚ) := by
      exact_mod_cast h2
    have h4 := mul_le_mul_of_nonneg_right h3 (le_of_lt hup)
    have h5 : ((n * i + 1 : ℕ) : ℚ) * (2 : ℚ) ^ (L - 52) = (n : ℚ) + (2 : ℚ) ^ (L - 52) := by
      rw [Nat.cast_add, add_mul, ← hnk]
      simp
    linarith
  · -- `t` has a larger exponent
    have hlog : L + 1 ≤ Int.log 2 t := log_two_ge t ht0 (L + 1) hge
    have h1 := nearest_ge_pow t ht0 (by omega)
    have h2 := two_zpow_mono _ _ hlog
    -- `n + n / 2 ^ 53 < n + 1 ≤ 2 ^ (L + 1)`
    have h3 : (n : ℚ) / 2 ^ (53 : Nat) < 1 := by
      rw [div_lt_one h253]
      have : (2 : ℚ) ^ (53 : Nat) = (2 : ℚ) ^ (53 : Int) := by norm_cast
      rw [this]
      exact hn2
    obtain ⟨m, hm⟩ : ∃ m : ℕ, (2 : ℚ) ^ (L + 1) = (m : ℚ) := by
      refine ⟨2 ^ (L + 1).toNat, ?_⟩
      have : L + 1 = (((L + 1).toNat : ℕ) : Int) := by omega
      conv_lhs => rw [this]
      rw [zpow_natCast]
      push_cast
      rfl
    have h4 : (n : ℚ) + 1 ≤ (2 : ℚ) ^ (L + 1) := by
      rw [hm]
      rw [hsucc.symm, hm] at l2
      have : n < m := by exact_mod_cast l2
      have : n + 1 ≤ m := this
      exact_mod_cast this
    linarith

theorem round_binary64_of_pos (q : ℚ) (hq : 0 < q)
    (h : binary64_nearest q < (2 : ℚ) ^ (1024 : Nat)) :
    round_binary64 q = .finite (binary64_nearest q) := by
  unfold round_binary64
  rw [if_neg (not_le.mpr h)]
  by_cases h0 : binary64_nearest q = 0
  · rw [if_pos h0, if_neg (not_lt.mpr (le_of_lt hq)), h0]
  · rw [if_neg h0, if_neg (not_lt.mpr (le_of_lt hq))]

/-- A positive value of a `double` is a natural multiple of the unit of its size. -/
theorem binary64_multiple (w : ℚ) (hw : 0 < w) (hb : is_binary64 w) :
    ∃ k : ℕ, 0 < k ∧ w = (k : ℚ) * (2 : ℚ) ^ binary64_exponent w := by
  have hn : binary64_nearest w = w := by
    unfold is_binary64 round_binary64 at hb
    have hnq : ¬ w < 0 := not_lt.mpr (le_of_lt hw)
    simp only [hnq, if_false] at hb
    by_cases h1 : (2 : ℚ) ^ (1024 : Nat) ≤ binary64_nearest w
    · rw [if_pos h1] at hb
      cases hb
    · rw [if_neg h1] at hb
      by_cases h2 : binary64_nearest w = 0
      · rw [if_pos h2] at hb
        simp only [flt.finite.injEq] at hb
        linarith
      · rw [if_neg h2] at hb
        simpa using hb
  rw [binary64_nearest_of_pos w hw] at hn
  refine ⟨round_half_even (w / (2 : ℚ) ^ binary64_exponent w), ?_, hn.symm⟩
  rcases Nat.eq_zero_or_pos (round_half_even (w / (2 : ℚ) ^ binary64_exponent w)) with h | h
  · rw [h] at hn
    simp at hn
    linarith
  · exact h

theorem binary64_ge_least (w : ℚ) (hw : 0 < w) (hb : is_binary64 w) :
    (2 : ℚ) ^ (-1074 : Int) ≤ w := by
  obtain ⟨k, hk, e⟩ := binary64_multiple w hw hb
  have h1 : (1 : ℚ) ≤ k := by exact_mod_cast hk
  have h2 := two_zpow_mono (-1074) (binary64_exponent w) (le_max_right _ _)
  have h3 := two_zpow_pos (binary64_exponent w)
  rw [e]
  nlinarith

/-- The values of a `double` above three quarters of a natural number `m` are above it by more
than the relative distance 2^-53. -/
theorem binary64_above_three_quarters (m : ℕ) (hm : 1 ≤ m) (hm2 : m < 2147483648) (w : ℚ)
    (hb : is_binary64 w) (h : 3 * (m : ℚ) < 4 * w) :
    72 * (m : ℚ) + 72 * (m : ℚ) / 2 ^ (53 : Nat) < 96 * w := by
  have hm0 : (1 : ℚ) ≤ m := by exact_mod_cast hm
  have hm3 : (m : ℚ) < 2147483648 := by exact_mod_cast hm2
  have hw : 0 < w := by linarith
  obtain ⟨w0, hw0⟩ : ∃ w0 : ℚ, w0 = 3 * (m : ℚ) / 4 := ⟨_, rfl⟩
  have hw0p : 0 < w0 := by rw [hw0]; linarith
  have hlt : w0 < w := by rw [hw0]; linarith
  obtain ⟨L, hL⟩ : ∃ L, L = Int.log 2 w0 := ⟨_, rfl⟩
  obtain ⟨l1, l2⟩ := log_two_bounds w0 hw0p
  rw [← hL] at l1 l2
  have hLlo : -1 ≤ L := by
    rw [hL]
    apply log_two_ge w0 hw0p
    rw [hw0]
    norm_num
    linarith
  have hLhi : L ≤ 50 := by
    have : Int.log 2 w0 < 51 := by
      apply log_two_lt w0 hw0p
      rw [hw0]
      norm_num
      linarith
    omega
  have hLw : L ≤ Int.log 2 w := by
    rw [hL]
    exact Int.log_mono_right hw0p (le_of_lt hlt)
  have he : L - 52 ≤ binary64_exponent w := by
    rw [binary64_exponent_of_pos w hw]
    exact le_trans (by omega) (le_max_left _ _)
  have hup := two_zpow_pos (L - 52)
  obtain ⟨k, -, hk⟩ := binary64_multiple w hw hb
  obtain ⟨i, -, hi⟩ := two_zpow_grid (L - 52) (binary64_exponent w) he
  obtain ⟨i0, -, hi0⟩ := two_zpow_grid (L - 52) (-2) (by omega)
  have hq : (2 : ℚ) ^ (-2 : Int) = 1 / 4 := by norm_num
  have e1 : w = ((k * i : ℕ) : ℚ) * (2 : ℚ) ^ (L - 52) := by
    rw [hk, hi]
    push_cast
    ring
  have e0 : w0 = ((3 * m * i0 : ℕ) : ℚ) * (2 : ℚ) ^ (L - 52) := by
    rw [hw0]
    push_cast
    have : (3 : ℚ) * m * i0 * 2 ^ (L - 52) = 3 * m * (i0 * 2 ^ (L - 52)) := by ring
    rw [this, ← hi0, hq]
    ring
  have hnat : 3 * m * i0 < k * i := by
    have : ((3 * m * i0 : ℕ) : ℚ) * (2 : ℚ) ^ (L - 52) <
        ((k * i : ℕ) : ℚ) * (2 : ℚ) ^ (L - 52) := by
      rw [← e0, ← e1]
      exact hlt
    have := lt_of_mul_lt_mul_right this (le_of_lt hup)
    exact_mod_cast this
  have hstep : w0 + (2 : ℚ) ^ (L - 52) ≤ w := by
    have h1 : ((3 * m * i0 + 1 : ℕ) : ℚ) ≤ ((k * i : ℕ) : ℚ) := by exact_mod_cast hnat
    have h2 := mul_le_mul_of_nonneg_right h1 (le_of_lt hup)
    rw [← e1, Nat.cast_add, add_mul, ← e0] at h2
    simpa using h2
  have hu : (2 : ℚ) ^ (L - 52) * 2 ^ (53 : Nat) = 2 ^ (L + 1) := by
    have : (2 : ℚ) ^ (53 : Nat) = (2 : ℚ) ^ (53 : Int) := by norm_cast
    rw [this, ← zpow_add₀ (by norm_num)]
    congr 1
    omega
  have h253 : (0 : ℚ) < 2 ^ (53 : Nat) := by positivity
  have hrel : w0 / 2 ^ (53 : Nat) < (2 : ℚ) ^ (L - 52) := by
    rw [div_lt_iff₀ h253, hu]
    exact l2
  have hfin : w0 + w0 / 2 ^ (53 : Nat) < w := by linarith
  rw [hw0] at hfin
  have e3 : 72 * (m : ℚ) + 72 * (m : ℚ) / 2 ^ (53 : Nat) =
      96 * (3 * (m : ℚ) / 4 + 3 * (m : ℚ) / 4 / 2 ^ (53 : Nat)) := by ring
  rw [e3]
  linarith

theorem wrap_int_of_range (x : Int) (h1 : -2147483648 ≤ x) (h2 : x ≤ 2147483647) :
    wrap_int x = x := by
  unfold wrap_int
  omega

theorem wrap_int_range (x : Int) : -2147483648 ≤ wrap_int x ∧ wrap_int x ≤ 2147483647 := by
  unfold wrap_int
  omega

theorem ceil_of_positive (q : ℚ) (h : 0 < q) : flt.ceil (.finite q) = .finite (⌈q⌉ : Int) := by
  simp only [flt.ceil]
  rw [if_neg (by intro hh; linarith [hh.1])]

theorem two_pow_1024_large : (9007199254740992 : ℚ) ≤ (2 : ℚ) ^ (1024 : Nat) := by
  have : (2 : ℚ) ^ (1024 : Nat) = 2 ^ (53 : Nat) * 2 ^ (971 : Nat) := by
    rw [← pow_add]
  rw [this]
  have h1 : (2 : ℚ) ^ (53 : Nat) = 9007199254740992 := by norm_num
  have h2 : (1 : ℚ) ≤ 2 ^ (971 : Nat) := one_le_pow₀ (by norm_num)
  rw [h1]
  nlinarith

/-- The rounding of an exact result `q` between two natural multiples of `2 ^ k`, for a `q`
of a size whose values are multiples of `2 ^ k`. -/
theorem round_binary64_between (q : ℚ) (hq : 0 < q) (lo hi : ℕ) (k : Int) (hk : -1074 ≤ k)
    (hk0 : k ≤ 0) (hhi : hi < 9007199254740992)
    (h1 : (lo : ℚ) * (2 : ℚ) ^ k ≤ q) (h2 : q ≤ (hi : ℚ) * (2 : ℚ) ^ k) :
    ∃ r : ℚ, round_binary64 q = .finite r ∧ (lo : ℚ) * (2 : ℚ) ^ k ≤ r ∧
      r ≤ (hi : ℚ) * (2 : ℚ) ^ k := by
  have hp := two_zpow_pos k
  have hhi2 : (hi : ℚ) < 9007199254740992 := by exact_mod_cast hhi
  have h53 : (2 : ℚ) ^ (53 : Int) = 9007199254740992 := by norm_num
  have hsplit : (2 : ℚ) ^ (k + 53) = 2 ^ k * 9007199254740992 := by
    rw [zpow_add₀ (by norm_num), h53]
  have hlt : q < (2 : ℚ) ^ (k + 53) := by
    rw [hsplit]
    nlinarith
  have he := binary64_exponent_le q hq k hk hlt
  have a := nearest_ge_grid q hq lo k he h1
  have b := nearest_le_grid q hq hi k he h2
  have hk1 : (2 : ℚ) ^ k ≤ 1 := by
    have := two_zpow_mono k 0 hk0
    simpa using this
  have c : binary64_nearest q < (2 : ℚ) ^ (1024 : Nat) := by
    have : (hi : ℚ) * (2 : ℚ) ^ k ≤ hi := by
      have h0 : (0 : ℚ) ≤ hi := Nat.cast_nonneg hi
      nlinarith
    have := two_pow_1024_large
    linarith
  exact ⟨binary64_nearest q, round_binary64_of_pos q hq c, a, b⟩

theorem round_binary64_natural (n : ℕ) (h0 : 0 < n) (h : n < 9007199254740992) :
    round_binary64 (n : ℚ) = .finite (n : ℚ) := by
  have hq : (0 : ℚ) < n := by exact_mod_cast h0
  obtain ⟨r, e, a, b⟩ := round_binary64_between (n : ℚ) hq n n 0 (by norm_num) (le_refl _) h
    (by simp) (by simp)
  simp only [zpow_zero, mul_one] at a b
  rw [e, le_antisymm b a]

namespace xlnt

open detail

/-- The pixels of a positive `double`: the code, which multiplies, divides and rounds up in
`double` arithmetic, gives the ceiling of the exact quotient when that is an `int`. -/
theorem points_to_pixels_of_double (E : environment) (w : ℚ) (hw : 0 < w) (hb : is_binary64 w)
    (hn : ⌈w * 96 / 72⌉ ≤ 2147483647) :
    cell.points_to_pixels E (.finite w) (.finite 96) = ⌈w * 96 / 72⌉ := by
  obtain ⟨x, hx⟩ : ∃ x, x = w * 96 / 72 := ⟨_, rfl⟩
  rw [← hx] at hn ⊢
  have hx0 : 0 < x := by rw [hx]; positivity
  have hc0 : 0 < ⌈x⌉ := Int.ceil_pos.mpr hx0
  obtain ⟨n, hnn⟩ : ∃ n : ℕ, ⌈x⌉ = (n : Int) := ⟨⌈x⌉.toNat, (Int.toNat_of_nonneg (le_of_lt hc0)).symm⟩
  have hn1 : 1 ≤ n := by omega
  have hn2 : n ≤ 2147483647 := by omega
  have hxn : x ≤ (n : ℚ) := by
    have := Int.le_ceil x
    rw [hnn] at this
    exact_mod_cast this
  have hxm : ((n : ℚ) - 1) < x := by
    have := Int.ceil_lt_add_one x
    rw [hnn] at this
    have h2 : ((n : Int) : ℚ) = (n : ℚ) := by norm_cast
    rw [h2] at this
    linarith
  have hn3 : (n : ℚ) ≤ 2147483647 := by exact_mod_cast hn2
  have hn4 : (1 : ℚ) ≤ n := by exact_mod_cast hn1
  -- the product
  have hq1 : 0 < w * 96 := by positivity
  have hq1n : w * 96 ≤ ((72 * n : ℕ) : ℚ) := by
    push_cast
    rw [hx] at hxn
    linarith
  have hleast := binary64_ge_least w hw hb
  have hmin := two_zpow_pos (-1074)
  -- the product is at least 72 units of the least size
  have hy_lo : (72 : ℚ) * (2 : ℚ) ^ (-1074 : Int) ≤ binary64_nearest (w * 96) := by
    rcases lt_or_ge (w * 96) ((2 : ℚ) ^ ((-1074 : Int) + 53)) with hs | hs
    · have he := binary64_exponent_le (w * 96) hq1 (-1074) (le_refl _) hs
      have := nearest_ge_grid (w * 96) hq1 72 (-1074) he (by push_cast; linarith)
      simpa using this
    · have hl := log_two_ge (w * 96) hq1 _ hs
      have h1 := nearest_ge_pow (w * 96) hq1 (by omega)
      have h2 := two_zpow_mono _ _ hl
      have h3 : (2 : ℚ) ^ ((-1074 : Int) + 53) = 9007199254740992 * (2 : ℚ) ^ (-1074 : Int) := by
        rw [zpow_add₀ (by norm_num)]
        norm_num
      rw [h3] at h2
      linarith
  have hy_hi : binary64_nearest (w * 96) ≤ ((72 * n : ℕ) : ℚ) := by
    have he := binary64_exponent_le (w * 96) hq1 0 (by norm_num) (by
      have : ((72 * n : ℕ) : ℚ) < (2 : ℚ) ^ ((0 : Int) + 53) := by
        push_cast
        norm_num
        linarith
      linarith)
    have := nearest_le_grid (w * 96) hq1 (72 * n) 0 he (by simpa using hq1n)
    simpa using this
  obtain ⟨y, hy⟩ : ∃ y, y = binary64_nearest (w * 96) := ⟨_, rfl⟩
  rw [← hy] at hy_lo hy_hi
  have hy0 : 0 < y := by linarith
  have hbig := two_pow_1024_large
  have hmul : double_multiply (.finite w) (.finite 96) = .finite y := by
    simp only [double_multiply]
    rw [if_neg (ne_of_gt hq1), round_binary64_of_pos _ hq1 (by
      rw [← hy]
      push_cast at hy_hi
      linarith), hy]
  -- the quotient
  have hq2 : 0 < y / 72 := by positivity
  have hz_hi : binary64_nearest (y / 72) ≤ (n : ℚ) := by
    have hqn : y / 72 ≤ (n : ℚ) := by
      rw [div_le_iff₀ (by norm_num)]
      push_cast at hy_hi
      linarith
    have he := binary64_exponent_le (y / 72) hq2 0 (by norm_num) (by
      have : (n : ℚ) < (2 : ℚ) ^ ((0 : Int) + 53) := by
        norm_num
        linarith
      linarith)
    have := nearest_le_grid (y / 72) hq2 n 0 he (by simpa using hqn)
    simpa using this
  have hz_pos : 0 < binary64_nearest (y / 72) := by
    apply nearest_pos
    rw [le_div_iff₀ (by norm_num)]
    linarith
  have hz_lo : ((n : ℚ) - 1) < binary64_nearest (y / 72) := by
    rcases Nat.eq_or_lt_of_le hn1 with h1 | h1
    · rw [← h1]
      simpa using hz_pos
    · obtain ⟨m, hm⟩ : ∃ m : ℕ, n = m + 1 := ⟨n - 1, by omega⟩
      have hm1 : 1 ≤ m := by omega
      have hm2 : m < 2147483648 := by omega
      have hmq : (n : ℚ) - 1 = (m : ℚ) := by rw [hm]; push_cast; ring
      rw [hmq] at hxm ⊢
      have hmr : (m : ℚ) ≤ 2147483647 := by exact_mod_cast (by omega : m ≤ 2147483647)
      have h3 : 3 * (m : ℚ) < 4 * w := by
        rw [hx] at hxm
        linarith
      have h4 := binary64_above_three_quarters m hm1 hm2 w hb h3
      have h5 := nearest_gt_of_gt (72 * m) (by omega) (by
        push_cast
        norm_num
        linarith) (w * 96) (by
        push_cast
        linarith)
      rw [← hy] at h5
      push_cast at h5
      have h6 := nearest_gt_of_gt m hm1 (by
        norm_num
        linarith) (y / 72) (by
        rw [lt_div_iff₀ (by norm_num)]
        linarith)
      have : (0 : ℚ) ≤ (m : ℚ) / 2 ^ (53 : Nat) := by positivity
      linarith
  obtain ⟨z, hz⟩ : ∃ z, z = binary64_nearest (y / 72) := ⟨_, rfl⟩
  rw [← hz] at hz_hi hz_pos hz_lo
  have hdiv : double_divide (.finite y) (.finite 72) = .finite z := by
    simp only [double_divide]
    rw [if_neg (by norm_num), if_neg (ne_of_gt hy0), round_binary64_of_pos _ hq2 (by
      rw [← hz]
      linarith), hz]
  have hceil : ⌈z⌉ = (n : Int) := by
    rw [Int.ceil_eq_iff]
    constructor
    · push_cast
      exact hz_lo
    · push_cast
      exact hz_hi
  unfold cell.points_to_pixels
  rw [hmul, hdiv, ceil_of_positive z hz_pos, hceil, hnn]
  simp only [cast_integer, truncate_intCast]
  rw [if_pos ⟨by omega, by omega⟩]

end xlnt

/-! ## The anchor -/

namespace xlnt

open detail

theorem default_width_is_70 (E : environment) :
    cell.points_to_pixels E (round_binary64 (5185 / 100)) (.finite 96) = 70 := by
  have h4 : (2 : ℚ) ^ (-4 : Int) = 1 / 16 := by norm_num
  obtain ⟨r0, e0, a0, b0⟩ := round_binary64_between (5185 / 100) (by norm_num) 829 830 (-4)
    (by norm_num) (by norm_num) (by norm_num) (by rw [h4]; norm_num) (by rw [h4]; norm_num)
  rw [h4] at a0 b0
  have hr0 : 0 < r0 := by
    norm_num at a0
    linarith
  obtain ⟨y, e1, a1, b1⟩ := round_binary64_between (r0 * 96) (by positivity) 4974 4980 0
    (by norm_num) (le_refl _) (by norm_num) (by norm_num at a0 ⊢; linarith)
    (by norm_num at b0 ⊢; linarith)
  simp only [zpow_zero, mul_one] at a1 b1
  have hy : 0 < y := by
    norm_num at a1
    linarith
  obtain ⟨z, e2, a2, b2⟩ := round_binary64_between (y / 72) (by positivity) 1105 1107 (-4)
    (by norm_num) (by norm_num) (by norm_num)
    (by rw [h4, le_div_iff₀ (by norm_num)]; norm_num at a1 ⊢; linarith)
    (by rw [h4, div_le_iff₀ (by norm_num)]; norm_num at b1 ⊢; linarith)
  rw [h4] at a2 b2
  have hz : 0 < z := by
    norm_num at a2
    linarith
  have hmul : double_multiply (.finite r0) (.finite 96) = .finite y := by
    simp only [double_multiply]
    rw [if_neg (by positivity), e1]
  have hdiv : double_divide (.finite y) (.finite 72) = .finite z := by
    simp only [double_divide]
    rw [if_neg (by norm_num), if_neg (ne_of_gt hy), e2]
  have hceil : ⌈z⌉ = 70 := by
    rw [Int.ceil_eq_iff]
    constructor
    · norm_num at a2 ⊢
      linarith
    · norm_num at b2 ⊢
      linarith
  unfold cell.points_to_pixels
  rw [e0, hmul, hdiv, ceil_of_positive z hz, hceil]
  simp only [cast_integer, truncate_intCast]
  rfl

theorem default_height_is_20 (E : environment) :
    cell.points_to_pixels E (.finite 15) (.finite 96) = 20 := by
  have hb : is_binary64 15 := by
    have := round_binary64_natural 15 (by norm_num) (by norm_num)
    unfold is_binary64
    exact_mod_cast this
  have hc : ⌈(15 : ℚ) * 96 / 72⌉ = 20 := by
    have : (15 : ℚ) * 96 / 72 = ((20 : Int) : ℚ) := by norm_num
    rw [this, Int.ceil_intCast]
  have := points_to_pixels_of_double E 15 (by norm_num) hb (by rw [hc]; norm_num)
  rw [hc] at this
  exact this

theorem anchor_offset_sum (E : environment) (dimensions : Int → Option flt)
    (default_size : Int) (n : Nat)
    (h : ∀ j, j ≤ n →
      -2147483648 ≤ Finset.sum (Finset.range j) (fun i : Nat =>
        cell.dimension_pixels E dimensions default_size ((i : Int) + 1)) ∧
      Finset.sum (Finset.range j) (fun i : Nat =>
        cell.dimension_pixels E dimensions default_size ((i : Int) + 1)) ≤ 2147483647) :
    cell.anchor_offset E dimensions default_size n =
      Finset.sum (Finset.range n) (fun i : Nat =>
        cell.dimension_pixels E dimensions default_size ((i : Int) + 1)) := by
  unfold cell.anchor_offset
  simp only [Int.toNat_ofNat]
  induction n with
  | zero => rfl
  | succ n ih =>
    have h1 := ih (fun j hj => h j (Nat.le_succ_of_le hj))
    have h2 := h (n + 1) (le_refl _)
    rw [Finset.sum_range_succ] at h2
    rw [List.range_succ, List.foldl_append, h1, Finset.sum_range_succ]
    simp only [List.foldl_cons, List.foldl_nil]
    exact wrap_int_of_range _ h2.1 h2.2

theorem anchor_offset_le (E : environment) (dimensions : Int → Option flt)
    (default_size count : Int) :
    cell.anchor_offset E dimensions default_size count ≤ 2147483647 := by
  unfold cell.anchor_offset
  cases count.toNat with
  | zero => simp
  | succ n =>
    rw [List.range_succ, List.foldl_append]
    simp only [List.foldl_cons, List.foldl_nil]
    exact (wrap_int_range _).2

theorem exact_pixels_pos (dimensions : Int → Option flt) (default_size index : Int)
    (h : 1 ≤ default_size) : 1 ≤ exact_pixels dimensions default_size index := by
  unfold exact_pixels
  split
  · rename_i w _
    split_ifs with hw
    · have : 0 < ⌈w * 96 / 72⌉ := Int.ceil_pos.mpr (by positivity)
      omega
    · exact h
  · exact h

theorem dimension_pixels_exact (E : environment) (dimensions : Int → Option flt)
    (default_size index : Int)
    (hd : ∀ w, dimensions index = some w → w.is_positive = true →
      ∃ q, w = .finite q ∧ is_binary64 q)
    (hr : exact_pixels dimensions default_size index ≤ 2147483647) :
    cell.dimension_pixels E dimensions default_size index =
      exact_pixels dimensions default_size index := by
  unfold cell.dimension_pixels exact_pixels at *
  cases hdim : dimensions index with
  | none => rfl
  | some w =>
    rw [hdim] at hr
    cases w with
    | finite q =>
      simp only [flt.is_positive, decide_eq_true_eq] at hr ⊢
      by_cases hq : 0 < q
      · obtain ⟨q2, e, hb⟩ := hd _ hdim (by simp [flt.is_positive, hq])
        simp only [flt.finite.injEq] at e
        subst e
        simp only [if_pos hq] at hr ⊢
        exact points_to_pixels_of_double E q hq hb hr
      · rw [if_neg hq]
        simp [hq]
    | neg_zero => simp [flt.is_positive]
    | inf b =>
      cases b with
      | true => simp [flt.is_positive]
      | false =>
        obtain ⟨q2, e, -⟩ := hd _ hdim (by simp [flt.is_positive])
        cases e
    | nan => simp [flt.is_positive]

/-- A loop of `get_anchor` adds up what exact arithmetic gives, when the recorded dimensions
that are positive are `double`s and the sum is an `int`. -/
theorem anchor_offset_exact (E : environment) (dimensions : Int → Option flt)
    (default_size : Int) (h1 : 1 ≤ default_size) (n : Nat)
    (hd : ∀ k : Int, 1 ≤ k → k ≤ n → ∀ w, dimensions k = some w → w.is_positive = true →
      ∃ q, w = .finite q ∧ is_binary64 q)
    (hs : Finset.sum (Finset.range n) (fun i : Nat =>
      exact_pixels dimensions default_size ((i : Int) + 1)) ≤ 2147483647) :
    cell.anchor_offset E dimensions default_size (wrap_int n) =
      Finset.sum (Finset.range n) (fun i : Nat =>
        exact_pixels dimensions default_size ((i : Int) + 1)) := by
  have hpos : ∀ i : Nat, 1 ≤ exact_pixels dimensions default_size ((i : Int) + 1) :=
    fun i => exact_pixels_pos dimensions default_size _ h1
  -- partial sums grow
  have hmono : ∀ j, j ≤ n →
      (j : Int) ≤ Finset.sum (Finset.range j) (fun i : Nat =>
        exact_pixels dimensions default_size ((i : Int) + 1)) ∧
      Finset.sum (Finset.range j) (fun i : Nat =>
        exact_pixels dimensions default_size ((i : Int) + 1)) +
          ((n : Int) - j) ≤
        Finset.sum (Finset.range n) (fun i : Nat =>
          exact_pixels dimensions default_size ((i : Int) + 1)) := by
    intro j hj
    constructor
    · clear hj
      induction j with
      | zero => simp
      | succ j ih =>
        rw [Finset.sum_range_succ]
        have := hpos j
        push_cast
        omega
    · obtain ⟨m, rfl⟩ : ∃ m, n = j + m := ⟨n - j, by omega⟩
      clear hd hs hj
      induction m with
      | zero => simp
      | succ m ih =>
        rw [← Nat.add_assoc, Finset.sum_range_succ]
        have := hpos (j + m)
        push_cast at ih this ⊢
        omega
  have hterm : ∀ i, i < n →
      cell.dimension_pixels E dimensions default_size ((i : Int) + 1) =
        exact_pixels dimensions default_size ((i : Int) + 1) := by
    intro i hi
    apply dimension_pixels_exact E dimensions default_size _
      (hd _ (by omega) (by exact_mod_cast hi))
    have a := (hmono i (le_of_lt hi)).1
    have b := (hmono (i + 1) hi).2
    rw [Finset.sum_range_succ] at b
    push_cast at b
    omega
  have hsum : ∀ j, j ≤ n →
      Finset.sum (Finset.range j) (fun i : Nat =>
        cell.dimension_pixels E dimensions default_size ((i : Int) + 1)) =
      Finset.sum (Finset.range j) (fun i : Nat =>
        exact_pixels dimensions default_size ((i : Int) + 1)) := by
    intro j hj
    apply Finset.sum_congr rfl
    intro i hi
    exact hterm i (by have := Finset.mem_range.mp hi; omega)
  have hn : (n : Int) ≤ 2147483647 := by
    have := (hmono n (le_refl _)).1
    omega
  rw [wrap_int_of_range (n : Int) (by omega) hn,
    anchor_offset_sum E dimensions default_size n (fun j hj => by
      rw [hsum j hj]
      have a := (hmono j hj).1
      have b := (hmono j hj).2
      constructor <;> omega), hsum n (le_refl _)]

theorem exact_pixels_default (dimensions : Int → Option flt) (default_size index : Int)
    (h : ∀ w, dimensions index = some w → w.is_positive = false) :
    exact_pixels dimensions default_size index = default_size := by
  unfold exact_pixels
  split
  · rename_i w hw
    have := h _ hw
    simp only [flt.is_positive, decide_eq_false_iff_not] at this
    rw [if_neg this]
  · rfl

theorem sum_of_defaults (dimensions : Int → Option flt) (default_size : Int) (n : Nat)
    (h : ∀ k : Int, 1 ≤ k → k ≤ n → ∀ w, dimensions k = some w → w.is_positive = false) :
    Finset.sum (Finset.range n) (fun i : Nat =>
      exact_pixels dimensions default_size ((i : Int) + 1)) = default_size * n := by
  have : ∀ j, j ≤ n → Finset.sum (Finset.range j) (fun i : Nat =>
      exact_pixels dimensions default_size ((i : Int) + 1)) = default_size * j := by
    intro j
    induction j with
    | zero => intro _; simp
    | succ j ih =>
      intro hj
      rw [Finset.sum_range_succ, ih (by omega),
        exact_pixels_default dimensions default_size _ (h _ (by omega) (by exact_mod_cast hj))]
      push_cast
      ring
  exact this n (le_refl _)

end xlnt
